import Mathlib

/-!
# pbrt-cv: control-variate film and path integrator

A shallow embedding of `src/cv/cv_pixel.{h,cpp}`, `src/cv/cv_film.{h,cpp}` and
`src/cv/cv_integrator.cpp`.

Conventions of the embedding:

* pbrt's `Float` is modelled by `ℚ`: exact arithmetic, no rounding, no infinities or NaN;
  division is the total division of `ℚ` (`x / 0 = 0`), and the constant `1.0e-8f` is
  `1 / 100000000`.
* C++ `int` is modelled by `Int`; image coordinates are far from the 32-bit range, so no
  overflow is modelled. `(int)` casts of floored or ceiled values are `Int.floor` and
  `Int.ceil`.
* A failing `CHECK` or an out-of-range array access makes the embedded function return
  `none`, and so does an `ALLOCA` with a negative count, which is undefined in the source;
  in the integrator a null dereference and the fatal error are results of their own, and
  `none` means that the bound on the number of loop passes was reached.
* The output arrays of `WriteImage` come from `new Float[...]` and are never initialised:
  their content at allocation is an argument of the embedded passes.
* `std::vector` and heap arrays are lists, indexed by the linear offset the source computes.
-/

namespace pbrt

/-! ## Spectrum (spectrum.h) -/

/-- Modelled from the spec: `spectrum.h` is not among the sources. A `Spectrum` is an RGB
triple of coefficients, read with `operator[]` at indices 0, 1, 2 (as `CvFilm::WriteImage`
does); arithmetic is per channel. -/
abbrev Spectrum : Type := Fin 3 → ℚ

/-- The constant spectrum `Spectrum(v)`. -/
def Spectrum.const (v : ℚ) : Spectrum := fun _ => v

/-- The test `Spectrum::IsBlack()`: every coefficient is zero. -/
def Spectrum.IsBlack (s : Spectrum) : Bool := decide (s 0 = 0 ∧ s 1 = 0 ∧ s 2 = 0)

/-- The value `Spectrum::MaxComponentValue()`. -/
def Spectrum.MaxComponentValue (s : Spectrum) : ℚ := max (s 0) (max (s 1) (s 2))

/-! ## CvDualPixel (cv_pixel.h, cv_pixel.cpp) -/

/-- The accumulation record `CvDualPixel` with its eight private fields. -/
@[ext] structure CvDualPixel where
  L1 : Spectrum
  L2 : Spectrum
  D : Spectrum
  L1square : Spectrum
  L2square : Spectrum
  Dsquare : Spectrum
  reciprocal_pdf : ℚ
  filterWeightSum : ℚ
deriving DecidableEq

namespace CvDualPixel

/-- The record left by `CvDualPixel::SetZero()`; the default constructor only calls it. -/
def SetZero : CvDualPixel where
  L1 := Spectrum.const 0
  L2 := Spectrum.const 0
  D := Spectrum.const 0
  L1square := Spectrum.const 0
  L2square := Spectrum.const 0
  Dsquare := Spectrum.const 0
  reciprocal_pdf := 0
  filterWeightSum := 0

/-- The three-argument constructor `CvDualPixel(L1_, L2_, recip_pdf)` (a Lean structure
cannot share its name with a function of its namespace, hence `new`). -/
def new (L1_ L2_ : Spectrum) (recip_pdf : ℚ) : CvDualPixel :=
  let d : Spectrum := fun i => L1_ i - L2_ i
  { L1 := fun i => L1_ i * recip_pdf
    L2 := fun i => L2_ i * recip_pdf
    L1square := fun i => L1_ i * L1_ i * recip_pdf * recip_pdf
    L2square := fun i => L2_ i * L2_ i * recip_pdf * recip_pdf
    reciprocal_pdf := recip_pdf
    D := fun i => d i * recip_pdf
    Dsquare := fun i => d i * d i * recip_pdf * recip_pdf
    filterWeightSum := 0 }

/-- The method `this->AddPixel(p, filterWeight)`; the result is the new `*this`.
In C++ `filterWeight` defaults to 1. -/
def AddPixel (self p : CvDualPixel) (filterWeight : ℚ) : CvDualPixel where
  L1 := fun i => self.L1 i + filterWeight * p.L1 i
  L2 := fun i => self.L2 i + filterWeight * p.L2 i
  D := fun i => self.D i + filterWeight * p.D i
  L1square := fun i => self.L1square i + filterWeight * p.L1square i
  L2square := fun i => self.L2square i + filterWeight * p.L2square i
  Dsquare := fun i => self.Dsquare i + filterWeight * p.Dsquare i
  reciprocal_pdf := self.reciprocal_pdf + filterWeight * p.reciprocal_pdf
  filterWeightSum := self.filterWeightSum + filterWeight

end CvDualPixel

/-! ## Geometry (geometry.h) -/

/-- Integer raster point `Point2i`. -/
@[ext] structure Point2i where
  x : Int
  y : Int
deriving DecidableEq

/-- Continuous film point `Point2f`. -/
structure Point2f where
  x : ℚ
  y : ℚ
deriving DecidableEq

/-- Two-dimensional vector `Vector2f` (filter radii). -/
structure Vector2f where
  x : ℚ
  y : ℚ
deriving DecidableEq

/-- Integer rectangle `Bounds2i`; `pMax` is exclusive. -/
@[ext] structure Bounds2i where
  pMin : Point2i
  pMax : Point2i
deriving DecidableEq

/-- Modelled from the spec: `geometry.h` is not among the sources. The two-point
constructor `Bounds2i(p1, p2)` orders the corners per component. -/
def Bounds2i.new (p1 p2 : Point2i) : Bounds2i where
  pMin := ⟨min p1.x p2.x, min p1.y p2.y⟩
  pMax := ⟨max p1.x p2.x, max p1.y p2.y⟩

/-- Modelled from the spec: `Bounds2i::Diagonal()`, the extent `pMax - pMin`. -/
def Bounds2i.Diagonal (b : Bounds2i) : Point2i := ⟨b.pMax.x - b.pMin.x, b.pMax.y - b.pMin.y⟩

/-- Modelled from the spec: `Bounds2i::Area()`, the product of the two extents. -/
def Bounds2i.Area (b : Bounds2i) : Int := (b.pMax.x - b.pMin.x) * (b.pMax.y - b.pMin.y)

/-- Modelled from the spec: `InsideExclusive(p, b)`, the half-open membership test. -/
def InsideExclusive (p : Point2i) (b : Bounds2i) : Bool :=
  decide (b.pMin.x ≤ p.x ∧ p.x < b.pMax.x ∧ b.pMin.y ≤ p.y ∧ p.y < b.pMax.y)

/-- Modelled from the spec: `Intersect(b1, b2)` assigns the corners directly, so the result
may be an inverted (empty) rectangle. -/
def Intersect (b1 b2 : Bounds2i) : Bounds2i where
  pMin := ⟨max b1.pMin.x b2.pMin.x, max b1.pMin.y b2.pMin.y⟩
  pMax := ⟨min b1.pMax.x b2.pMax.x, min b1.pMax.y b2.pMax.y⟩

/-- The integers `lo, lo+1, ..., hi-1` of a C loop `for (int v = lo; v < hi; ++v)`. -/
def intRange (lo hi : Int) : List Int :=
  (List.range (hi - lo).toNat).map (fun (k : Nat) => lo + (k : Int))

/-- Modelled from the spec: the range-for iteration over a `Bounds2i` visits the pixels
row by row (x fastest) from `pMin`, and visits nothing when the bounds are degenerate. -/
def Bounds2i.points (b : Bounds2i) : List Point2i :=
  (intRange b.pMin.y b.pMax.y).flatMap
    (fun y => (intRange b.pMin.x b.pMax.x).map (fun x => (⟨x, y⟩ : Point2i)))

/-- Read `a[i]` from an array; an index outside the array has no value. -/
def arrayGet {α : Type} (a : List α) (i : Int) : Option α :=
  if 0 ≤ i then a[i.toNat]? else none

/-- Write `a[i] = v`; an index outside the array fails. -/
def arraySet {α : Type} (a : List α) (i : Int) (v : α) : Option (List α) :=
  if 0 ≤ i ∧ i.toNat < a.length then some (a.set i.toNat v) else none

/-! ## CvFilmTile (cv_film.h) -/

/-- The tile buffer `CvFilmTile`. The field `maxSampleLuminance` is only stored by the
source (its use is commented out) and is left out. -/
structure CvFilmTile where
  pixelBounds : Bounds2i
  filterRadius : Vector2f
  invFilterRadius : Vector2f
  filterTable : List ℚ
  filterTableSize : Int
  pixels : List CvDualPixel
deriving DecidableEq

namespace CvFilmTile

/-- The constructor `CvFilmTile(pixelBounds, filterRadius, filterTable, filterTableSize, _)`:
`max(0, Area)` zero records. -/
def new (pixelBounds : Bounds2i) (filterRadius : Vector2f) (filterTable : List ℚ)
    (filterTableSize : Int) : CvFilmTile where
  pixelBounds := pixelBounds
  filterRadius := filterRadius
  invFilterRadius := ⟨1 / filterRadius.x, 1 / filterRadius.y⟩
  filterTable := filterTable
  filterTableSize := filterTableSize
  pixels := List.replicate (max 0 pixelBounds.Area).toNat CvDualPixel.SetZero

/-- The linear offset computed by `GetPixel`. -/
def pixelOffset (t : CvFilmTile) (p : Point2i) : Int :=
  let width := t.pixelBounds.pMax.x - t.pixelBounds.pMin.x
  (p.x - t.pixelBounds.pMin.x) + (p.y - t.pixelBounds.pMin.y) * width

/-- The accessor `GetPixel(p)`, read side: `CHECK(InsideExclusive(p, pixelBounds))`, then
`pixels[offset]`. -/
def GetPixel (t : CvFilmTile) (p : Point2i) : Option CvDualPixel :=
  if InsideExclusive p t.pixelBounds then arrayGet t.pixels (t.pixelOffset p) else none

/-- Assignment through the reference returned by `GetPixel(p)`. -/
def setPixel (t : CvFilmTile) (p : Point2i) (v : CvDualPixel) : Option CvFilmTile :=
  if InsideExclusive p t.pixelBounds then
    (arraySet t.pixels (t.pixelOffset p) v).map (fun px => { t with pixels := px })
  else none

/-- The clamped raster bounds `p0` of a sample's filter support in `AddSample`. -/
def sampleP0 (t : CvFilmTile) (pFilm : Point2f) : Point2i :=
  let pFilmDiscrete : Point2f := ⟨pFilm.x - 1 / 2, pFilm.y - 1 / 2⟩
  let p0 : Point2i := ⟨⌈pFilmDiscrete.x - t.filterRadius.x⌉, ⌈pFilmDiscrete.y - t.filterRadius.y⌉⟩
  ⟨max p0.x t.pixelBounds.pMin.x, max p0.y t.pixelBounds.pMin.y⟩

/-- The clamped raster bounds `p1` of a sample's filter support in `AddSample`. -/
def sampleP1 (t : CvFilmTile) (pFilm : Point2f) : Point2i :=
  let pFilmDiscrete : Point2f := ⟨pFilm.x - 1 / 2, pFilm.y - 1 / 2⟩
  let p1 : Point2i :=
    ⟨⌊pFilmDiscrete.x + t.filterRadius.x⌋ + 1, ⌊pFilmDiscrete.y + t.filterRadius.y⌋ + 1⟩
  ⟨min p1.x t.pixelBounds.pMax.x, min p1.y t.pixelBounds.pMax.y⟩

/-- The entry `ifx[x - p0.x]` of the precomputed x offsets of `AddSample`. -/
def ifx (t : CvFilmTile) (pFilm : Point2f) (x : Int) : Int :=
  let fx : ℚ := |((x : ℚ) - (pFilm.x - 1 / 2)) * t.invFilterRadius.x * (t.filterTableSize : ℚ)|
  min ⌊fx⌋ (t.filterTableSize - 1)

/-- The entry `ify[y - p0.y]` of the precomputed y offsets of `AddSample`. -/
def ify (t : CvFilmTile) (pFilm : Point2f) (y : Int) : Int :=
  let fy : ℚ := |((y : ℚ) - (pFilm.y - 1 / 2)) * t.invFilterRadius.y * (t.filterTableSize : ℚ)|
  min ⌊fy⌋ (t.filterTableSize - 1)

/-- The filter table offset `ify[y - p0.y] * filterTableSize + ifx[x - p0.x]`. -/
def filterOffset (t : CvFilmTile) (pFilm : Point2f) (p : Point2i) : Int :=
  t.ify pFilm p.y * t.filterTableSize + t.ifx pFilm p.x

/-- The pixels of the clamped filter support in the order of `AddSample`'s two loops
(rows outside, x inside). -/
def footprint (t : CvFilmTile) (pFilm : Point2f) : List Point2i :=
  (intRange (t.sampleP0 pFilm).y (t.sampleP1 pFilm).y).flatMap
    (fun y => (intRange (t.sampleP0 pFilm).x (t.sampleP1 pFilm).x).map
      (fun x => (⟨x, y⟩ : Point2i)))

/-- The body of `AddSample`'s inner loop at pixel `p`. -/
def addSampleAt (pFilm : Point2f) (splat : CvDualPixel) (t : CvFilmTile) (p : Point2i) :
    Option CvFilmTile := do
  let filterWeight ← arrayGet t.filterTable (t.filterOffset pFilm p)
  let pixel ← t.GetPixel p
  t.setPixel p (pixel.AddPixel splat filterWeight)

/-- The ways in which a call of `AddSample` does not return. -/
inductive AddSampleFailure where
  /-- `CHECK(sampleWeight == 1.)` failed (source line 48). -/
  | sampleWeightCheck
  /-- `ALLOCA(int, p1.x - p0.x)` or `ALLOCA(int, p1.y - p0.y)` was reached with a negative
  count (source lines 64 and 70), which is undefined. -/
  | allocaCount
  /-- A filter-table read or a `GetPixel` access of the loop failed. -/
  | access
deriving DecidableEq

/-- The method `AddSample(pFilm, splat, sampleWeight)` with the way it ends:
`CHECK(sampleWeight == 1.)`, the two `ALLOCA` calls for the offset arrays `ifx` and `ify`
(undefined for a negative count), then the loop over the clamped filter support. -/
def AddSampleResult (t : CvFilmTile) (pFilm : Point2f) (splat : CvDualPixel)
    (sampleWeight : ℚ) : Except AddSampleFailure CvFilmTile :=
  if sampleWeight = 1 then
    if (t.sampleP1 pFilm).x - (t.sampleP0 pFilm).x < 0 ∨
        (t.sampleP1 pFilm).y - (t.sampleP0 pFilm).y < 0 then
      Except.error AddSampleFailure.allocaCount
    else
      match (t.footprint pFilm).foldlM (addSampleAt pFilm splat) t with
      | some t' => Except.ok t'
      | none => Except.error AddSampleFailure.access
  else Except.error AddSampleFailure.sampleWeightCheck

/-- The method `AddSample(pFilm, splat, sampleWeight)`: the tile it leaves, `none` when the
call does not return. -/
def AddSample (t : CvFilmTile) (pFilm : Point2f) (splat : CvDualPixel) (sampleWeight : ℚ) :
    Option CvFilmTile :=
  match t.AddSampleResult pFilm splat sampleWeight with
  | Except.ok t' => some t'
  | Except.error _ => none

end CvFilmTile

/-! ## CvFilm (cv_film.h, cv_film.cpp) -/

/-- The frame buffer `CvFilm` with the members of its base class `Film` that the methods
below read (`film.h` is not among the sources, so they are plain fields). -/
structure CvFilm where
  croppedPixelBounds : Bounds2i
  filterRadius : Vector2f
  filterTable : List ℚ
  filterTableWidth : Int
  scale : ℚ
  cvPixels : List CvDualPixel
deriving DecidableEq

namespace CvFilm

/-- The constructor: `croppedPixelBounds.Area()` zero records. -/
def new (croppedPixelBounds : Bounds2i) (filterRadius : Vector2f) (filterTable : List ℚ)
    (filterTableWidth : Int) (scale : ℚ) : CvFilm where
  croppedPixelBounds := croppedPixelBounds
  filterRadius := filterRadius
  filterTable := filterTable
  filterTableWidth := filterTableWidth
  scale := scale
  cvPixels := List.replicate croppedPixelBounds.Area.toNat CvDualPixel.SetZero

/-- The linear offset computed by `GetCvPixel`. -/
def pixelOffset (f : CvFilm) (p : Point2i) : Int :=
  let width := f.croppedPixelBounds.pMax.x - f.croppedPixelBounds.pMin.x
  (p.x - f.croppedPixelBounds.pMin.x) + (p.y - f.croppedPixelBounds.pMin.y) * width

/-- The accessor `GetCvPixel(p)`, read side. -/
def GetCvPixel (f : CvFilm) (p : Point2i) : Option CvDualPixel :=
  if InsideExclusive p f.croppedPixelBounds then arrayGet f.cvPixels (f.pixelOffset p)
  else none

/-- Assignment through the reference returned by `GetCvPixel(p)`. -/
def setCvPixel (f : CvFilm) (p : Point2i) (v : CvDualPixel) : Option CvFilm :=
  if InsideExclusive p f.croppedPixelBounds then
    (arraySet f.cvPixels (f.pixelOffset p) v).map (fun px => { f with cvPixels := px })
  else none

/-- The method `GetCvFilmTile(sampleBounds)`. -/
def GetCvFilmTile (f : CvFilm) (sampleBounds : Bounds2i) : CvFilmTile :=
  let p0 : Point2i :=
    ⟨⌈(sampleBounds.pMin.x : ℚ) - 1 / 2 - f.filterRadius.x⌉,
     ⌈(sampleBounds.pMin.y : ℚ) - 1 / 2 - f.filterRadius.y⌉⟩
  let p1 : Point2i :=
    ⟨⌊(sampleBounds.pMax.x : ℚ) - 1 / 2 + f.filterRadius.x⌋ + 1,
     ⌊(sampleBounds.pMax.y : ℚ) - 1 / 2 + f.filterRadius.y⌋ + 1⟩
  let tilePixelBounds := Intersect (Bounds2i.new p0 p1) f.croppedPixelBounds
  CvFilmTile.new tilePixelBounds f.filterRadius f.filterTable f.filterTableWidth

/-- The two statements of `MergeFilmTile`'s loop body that change the frame record:
`mergePixel.AddPixel(tilePixel)` with the default weight 1, then
`mergePixel.filterWeightSum += tilePixel.filterWeightSum`. -/
def mergeRecord (tilePixel mergePixel : CvDualPixel) : CvDualPixel :=
  let merged := mergePixel.AddPixel tilePixel 1
  { merged with filterWeightSum := merged.filterWeightSum + tilePixel.filterWeightSum }

/-- The body of `MergeFilmTile`'s loop at `pixel`. -/
def mergeAt (tile : CvFilmTile) (f : CvFilm) (pixel : Point2i) : Option CvFilm := do
  let tilePixel ← tile.GetPixel pixel
  let mergePixel ← f.GetCvPixel pixel
  f.setCvPixel pixel (mergeRecord tilePixel mergePixel)

/-- The method `MergeFilmTile(tile)`. -/
def MergeFilmTile (f : CvFilm) (tile : CvFilmTile) : Option CvFilm :=
  tile.pixelBounds.points.foldlM (mergeAt tile) f

end CvFilm

/-! ### Export: `CvFilm::WriteImage` -/

/-- The seven output arrays of `WriteImage`, each indexed by `3 * offset + channel`. They are
allocated with `new Float[...]` and never cleared, so their initial content is an input. -/
structure ImageBuffers where
  rgb1 : Nat → ℚ
  rgb1Squared : Nat → ℚ
  rgb2 : Nat → ℚ
  rgb2Squared : Nat → ℚ
  diff : Nat → ℚ
  diffSquared : Nat → ℚ
  recipPdfs : Nat → ℚ

/-- All seven arrays filled with zero. -/
def ImageBuffers.zero : ImageBuffers :=
  ⟨fun _ => 0, fun _ => 0, fun _ => 0, fun _ => 0, fun _ => 0, fun _ => 0, fun _ => 0⟩

/-- The update `a[i] += v`. -/
def addAt (a : Nat → ℚ) (i : Nat) (v : ℚ) : Nat → ℚ := Function.update a i (a i + v)

/-- The update `a[i] *= v`. -/
def mulAt (a : Nat → ℚ) (i : Nat) (v : ℚ) : Nat → ℚ := Function.update a i (a i * v)

/-- The update `a[i] /= v`. -/
def divAt (a : Nat → ℚ) (i : Nat) (v : ℚ) : Nat → ℚ := Function.update a i (a i / v)

/-- Three updates `a[3*offset + c] += splatScale * v[c] * invWt`, `c = 0, 1, 2`. -/
def addChannels (a : Nat → ℚ) (offset : Nat) (splatScale : ℚ) (v : Spectrum) (invWt : ℚ) :
    Nat → ℚ :=
  addAt (addAt (addAt a (3 * offset) (splatScale * v 0 * invWt))
    (3 * offset + 1) (splatScale * v 1 * invWt)) (3 * offset + 2) (splatScale * v 2 * invWt)

/-- Three updates `a[3*offset + c] *= k`, `c = 0, 1, 2`. -/
def scaleChannels (a : Nat → ℚ) (offset : Nat) (k : ℚ) : Nat → ℚ :=
  mulAt (mulAt (mulAt a (3 * offset) k) (3 * offset + 1) k) (3 * offset + 2) k

/-- Three updates `a[3*offset + c] /= k`, `c = 0, 1, 2`. -/
def divChannels (a : Nat → ℚ) (offset : Nat) (k : ℚ) : Nat → ℚ :=
  divAt (divAt (divAt a (3 * offset) k) (3 * offset + 1) k) (3 * offset + 2) k

/-- The loop state of `WriteImage`'s first pass. -/
structure ExportState where
  buf : ImageBuffers
  offset : Nat
  avgRecipPdf : ℚ

namespace CvFilm

/-- The normalisation factor `invWt = 1 / (filterWeightSum + 1.0e-8f)`. -/
def invWt (pixel : CvDualPixel) : ℚ := 1 / (pixel.filterWeightSum + 1 / 100000000)

/-- The array updates of one iteration of the first pass of `WriteImage`, for the record
`pixel` at running index `offset`. -/
def writePixel (scale splatScale : ℚ) (pixel : CvDualPixel) (offset : Nat)
    (b : ImageBuffers) : ImageBuffers :=
  let invWt := invWt pixel
  { rgb1 := scaleChannels (addChannels b.rgb1 offset splatScale pixel.L1 invWt) offset scale
    rgb1Squared :=
      scaleChannels (addChannels b.rgb1Squared offset splatScale pixel.L1square invWt)
        offset (scale * scale)
    rgb2 := scaleChannels (addChannels b.rgb2 offset splatScale pixel.L2 invWt) offset scale
    rgb2Squared :=
      scaleChannels (addChannels b.rgb2Squared offset splatScale pixel.L2square invWt)
        offset (scale * scale)
    diff := scaleChannels (addChannels b.diff offset splatScale pixel.D invWt) offset scale
    diffSquared :=
      scaleChannels (addChannels b.diffSquared offset splatScale pixel.Dsquare invWt)
        offset (scale * scale)
    recipPdfs :=
      addChannels b.recipPdfs offset splatScale (Spectrum.const pixel.reciprocal_pdf) invWt }

/-- One iteration of the first pass of `WriteImage` at pixel `p`. -/
def writeImageAt (f : CvFilm) (splatScale : ℚ) (s : ExportState) (p : Point2i) :
    Option ExportState := do
  let pixel ← f.GetCvPixel p
  let buf := writePixel f.scale splatScale pixel s.offset s.buf
  some { buf := buf
         offset := s.offset + 1
         avgRecipPdf := s.avgRecipPdf + buf.recipPdfs (3 * s.offset) }

/-- The first pass of `WriteImage` including `avgRecipPdf /= offset`; `init` is the content
of the freshly allocated arrays. -/
def WriteImagePass1 (f : CvFilm) (splatScale : ℚ) (init : ImageBuffers) : Option ExportState :=
  (f.croppedPixelBounds.points.foldlM (writeImageAt f splatScale) ⟨init, 0, 0⟩).map
    (fun s => { s with avgRecipPdf := s.avgRecipPdf / (s.offset : ℚ) })

/-- The second pass of `WriteImage`: every entry of `recipPdfs` is divided by
`avgRecipPdf`. -/
def WriteImagePass2 (f : CvFilm) (s : ExportState) : ImageBuffers :=
  (f.croppedPixelBounds.points.foldl
    (fun (acc : ImageBuffers × Nat) (_ : Point2i) =>
      ({ acc.1 with recipPdfs := divChannels acc.1.recipPdfs acc.2 s.avgRecipPdf }, acc.2 + 1))
    (s.buf, 0)).1

/-- The method `WriteImage(splatScale, _)`: the arrays as dumped to the `.bin` files and the
arrays as written to the preview images. -/
def WriteImage (f : CvFilm) (splatScale : ℚ) (init : ImageBuffers) :
    Option (ImageBuffers × ImageBuffers) :=
  (f.WriteImagePass1 splatScale init).map (fun s => (s.buf, f.WriteImagePass2 s))

end CvFilm

/-! ## Collaborators of the integrator -/

/-- Modelled from the spec: `geometry.h` is not among the sources; a `Vector3f`. -/
structure Vector3f where
  x : ℚ
  y : ℚ
  z : ℚ
deriving DecidableEq

instance : Neg Vector3f := ⟨fun v => ⟨-v.x, -v.y, -v.z⟩⟩

/-- Modelled from the spec: `Dot(a, b)`. -/
def Dot (a b : Vector3f) : ℚ := a.x * b.x + a.y * b.y + a.z * b.z

/-- Modelled from the spec: `AbsDot(a, b)`. -/
def AbsDot (a b : Vector3f) : ℚ := |Dot a b|

/-- A ray with origin `o` and direction `d`. -/
structure Ray where
  o : Vector3f
  d : Vector3f
deriving DecidableEq

/-- The two `BxDFType` bits that `LiControlVariate` tests on the sampled flag. -/
structure BxDFType where
  specular : Bool
  transmission : Bool
deriving DecidableEq

/-- The outputs of `BSDF::Sample_f`: value, sampled direction, pdf and sampled type. -/
structure BSDFSample where
  f : Spectrum
  wi : Vector3f
  pdf : ℚ
  flag : BxDFType

/-- Modelled from the spec: the BSDF handle (`reflection.h` is not among the sources).
`Sample_f wo u` importance-samples a direction, `f_pdf wo wi` evaluates value and pdf
for a given direction. -/
structure BSDF where
  Sample_f : Vector3f → ℚ × ℚ → BSDFSample
  f_pdf : Vector3f → Vector3f → Spectrum × ℚ
  eta : ℚ

/-- Modelled from the spec: the surface interaction (`interaction.h` is not among the
sources). `bsdf id` is the value of `isect.bsdf` after `ComputeScatteringFunctions` has run
while `DualMaterial::materialId = id` (null is `none`); `bssrdf` tells whether
`isect.bssrdf` is non-null. -/
structure SurfaceInteraction where
  n : Vector3f
  shading_n : Vector3f
  Le : Vector3f → Spectrum
  bsdf : Int → Option BSDF
  SpawnRay : Vector3f → Ray
  bssrdf : Bool

/-- Modelled from the spec: the scene collaborator, ray intersection and the infinite
lights with their `Le(ray)`. -/
structure Scene where
  Intersect : Ray → Option SurfaceInteraction
  infiniteLights : List (Ray → Spectrum)

/-- Modelled from the spec: the sampler collaborator (`sampler.h` is not among the
sources), a stream of values and a cursor that counts the values drawn so far. -/
structure Sampler where
  stream : Nat → ℚ
  pos : Nat

/-- The draw `sampler.Get1D()`. -/
def Sampler.Get1D (s : Sampler) : ℚ × Sampler := (s.stream s.pos, { s with pos := s.pos + 1 })

/-- The draw `sampler.Get2D()`. -/
def Sampler.Get2D (s : Sampler) : (ℚ × ℚ) × Sampler :=
  ((s.stream s.pos, s.stream (s.pos + 1)), { s with pos := s.pos + 2 })

/-! ## CvPathIntegrator (cv_integrator.cpp) -/

/-- The local variables of `LiControlVariate`, the thread-local `DualMaterial::materialId`,
and two counters that the source does not have: the calls of `ComputeScatteringFunctions`
and the calls of `BSDF::Sample_f` made so far. -/
structure PathState where
  L1 : Spectrum
  L2 : Spectrum
  betas : Fin 2 → Spectrum
  reciprocal_pdfs : Fin 2 → ℚ
  ray : Ray
  specularBounce : Bool
  bounces : Int
  etaScale : ℚ
  sampler : Sampler
  materialId : Int
  nScattering : Nat
  nSampled : Nat

/-- How one pass through the body of the bounce loop ends. The call of `Error` is taken as
the spec describes it (`error.h` is not among the sources): it aborts the render. -/
inductive LoopStep where
  /-- The end of the body or a `continue` was reached; `++bounces` comes next. -/
  | next (s : PathState)
  /-- A `break` was reached. -/
  | exit (s : PathState)
  /-- The pointer `isect.bsdf` was null where `f_pdf` is called on it; `s` is the state at
  that call. -/
  | nullBsdf (s : PathState)
  /-- The call `Error("Participating media is not currently supported!!")` was reached in
  state `s`. -/
  | fatal (s : PathState)

/-- How a call of `LiControlVariate` ends. -/
inductive PathResult where
  /-- Normal return of a record; `final` is the state at the `return`. -/
  | returned (pixel : CvDualPixel) (final : PathState)
  /-- Null dereference of `isect.bsdf` in state `final`. -/
  | nullBsdf (final : PathState)
  /-- The fatal error for subsurface scattering with a transmissive event, raised in state
  `final`. -/
  | fatal (final : PathState)

namespace CvPathIntegrator

/-- The statements `L1 += betas[0] * Le; L2 += betas[1] * Le;`. -/
def addLe (s : PathState) (Le : Spectrum) : PathState :=
  { s with L1 := fun i => s.L1 i + s.betas 0 i * Le i
           L2 := fun i => s.L2 i + s.betas 1 i * Le i }

/-- The Russian-roulette block at the end of the loop body (source lines 235-249). -/
def roulette (rrThreshold : ℚ) (s : PathState) : LoopStep :=
  let rrBeta : Spectrum := fun i => s.betas 0 i * s.etaScale * s.reciprocal_pdfs 0
  if rrBeta.MaxComponentValue < rrThreshold + 1 ∧ s.bounces > 3 then
    let q : ℚ := max (1 / 20) (1 - rrBeta.MaxComponentValue)
    let u := s.sampler.Get1D
    if u.1 < q then
      LoopStep.exit { s with sampler := u.2
                             reciprocal_pdfs := fun i => s.reciprocal_pdfs i / q }
    else
      LoopStep.next { s with sampler := u.2
                             reciprocal_pdfs := fun i => s.reciprocal_pdfs i / (1 - q) }
  else LoopStep.next s

/-- The part of the loop body after the degenerate-sample test (source lines 215-249):
throughput and reciprocal pdf update, refraction scale, next ray, the subsurface error
and Russian roulette. -/
def scatter (rrThreshold : ℚ) (isect : SurfaceInteraction) (bsdf0 : BSDF) (wo : Vector3f)
    (smp : BSDFSample) (f1 : Spectrum) (pdf1 : ℚ) (s : PathState) : LoopStep :=
  let G := AbsDot smp.wi isect.shading_n
  let fs : Fin 2 → Spectrum := fun k => if k = 0 then smp.f else f1
  let pdfs : Fin 2 → ℚ := fun k => if k = 0 then smp.pdf else pdf1
  let s := { s with betas := fun k i => s.betas k i * (fs k i * G)
                    reciprocal_pdfs := fun k => s.reciprocal_pdfs k / pdfs k
                    specularBounce := smp.flag.specular }
  let s :=
    if smp.flag.specular ∧ smp.flag.transmission then
      let eta := bsdf0.eta
      { s with etaScale := s.etaScale * (if Dot wo isect.n > 0 then eta * eta else 1 / (eta * eta)) }
    else s
  let s := { s with ray := isect.SpawnRay smp.wi }
  if isect.bssrdf ∧ smp.flag.transmission then LoopStep.fatal s
  else roulette rrThreshold s

/-- One pass through the body of `for (bounces = 0;; ++bounces)` (source lines 148-250). -/
def iteration (maxDepth : Int) (rrThreshold : ℚ) (scene : Scene) (s : PathState) : LoopStep :=
  match scene.Intersect s.ray with
  | none =>
    -- no intersection: add the infinite lights, then `break` at line 167
    LoopStep.exit (scene.infiniteLights.foldl (fun s light => addLe s (light s.ray)) s)
  | some isect =>
    let Le := isect.Le (-s.ray.d)
    if !Le.IsBlack then LoopStep.exit (addLe s Le)
    else if s.bounces ≥ maxDepth then LoopStep.exit s
    else
      -- line 170: ComputeScatteringFunctions under the current material id
      let s := { s with nScattering := s.nScattering + 1 }
      match isect.bsdf s.materialId with
      | none => LoopStep.next { s with ray := isect.SpawnRay s.ray.d, bounces := s.bounces - 1 }
      | some _ =>
        let wo := -s.ray.d
        -- lines 189-190: SetMaterialId(0), ComputeScatteringFunctions
        let s := { s with materialId := 0, nScattering := s.nScattering + 1 }
        match isect.bsdf 0 with
        | none =>
          LoopStep.next { s with ray := isect.SpawnRay s.ray.d, bounces := s.bounces - 1 }
        | some bsdf0 =>
          let u := s.sampler.Get2D
          let smp := bsdf0.Sample_f wo u.1
          let s := { s with sampler := u.2, nSampled := s.nSampled + 1 }
          -- lines 202-203: SetMaterialId(1), ComputeScatteringFunctions
          let s := { s with materialId := 1, nScattering := s.nScattering + 1 }
          match isect.bsdf 1 with
          | none => LoopStep.nullBsdf s
          | some bsdf1 =>
            let fp := bsdf1.f_pdf wo smp.wi
            -- lines 206-207: SetMaterialId(0), ComputeScatteringFunctions
            let s := { s with materialId := 0, nScattering := s.nScattering + 1 }
            if smp.f.IsBlack ∨ fp.1.IsBlack ∨ smp.pdf = 0 ∨ fp.2 = 0 then LoopStep.exit s
            else scatter rrThreshold isect bsdf0 wo smp fp.1 fp.2 s

/-- The bounce loop, run for at most `fuel` passes; `none` when the fuel runs out. -/
def loop (maxDepth : Int) (rrThreshold : ℚ) (scene : Scene) : Nat → PathState → Option LoopStep
  | 0, _ => none
  | fuel + 1, s =>
    match iteration maxDepth rrThreshold scene s with
    | LoopStep.next s' => loop maxDepth rrThreshold scene fuel { s' with bounces := s'.bounces + 1 }
    | r => some r

/-- The state at the entry of the bounce loop (source lines 132-147). -/
def initialState (r : Ray) (sampler : Sampler) (materialId : Int) : PathState where
  L1 := Spectrum.const 0
  L2 := Spectrum.const 0
  betas := fun _ => Spectrum.const 1
  reciprocal_pdfs := fun _ => 1
  ray := r
  specularBounce := false
  bounces := 0
  etaScale := 1
  sampler := sampler
  materialId := materialId
  nScattering := 0
  nSampled := 0

/-- The method `LiControlVariate(r, scene, sampler, arena)`, with the members `maxDepth` and
`rrThreshold` of the base class as arguments, the thread-local material id at the call, and
a bound `fuel` on the number of loop passes (`none`: the bound was reached). -/
def LiControlVariate (maxDepth : Int) (rrThreshold : ℚ) (fuel : Nat) (r : Ray) (scene : Scene)
    (sampler : Sampler) (materialId : Int) : Option PathResult :=
  match loop maxDepth rrThreshold scene fuel (initialState r sampler materialId) with
  | none => none
  | some (LoopStep.exit s) =>
    some (PathResult.returned (CvDualPixel.new s.L1 s.L2 (s.reciprocal_pdfs 0)) s)
  | some (LoopStep.next _) => none
  | some (LoopStep.nullBsdf s) => some (PathResult.nullBsdf s)
  | some (LoopStep.fatal s) => some (PathResult.fatal s)

/-- The constant `tileSize` of `Render`. -/
def tileSize : Int := 16

/-- The tile counts `nTiles` of `Render` (C++ integer division truncates). -/
def nTiles (sampleBounds : Bounds2i) : Point2i :=
  let sampleExtent := sampleBounds.Diagonal
  ⟨Int.tdiv (sampleExtent.x + tileSize - 1) tileSize,
   Int.tdiv (sampleExtent.y + tileSize - 1) tileSize⟩

/-- The sample bounds `tileBounds` that `Render` computes for the tile with index `tile`. -/
def tileBounds (sampleBounds : Bounds2i) (tile : Point2i) : Bounds2i :=
  let x0 := sampleBounds.pMin.x + tile.x * tileSize
  let x1 := min (x0 + tileSize) sampleBounds.pMax.x
  let y0 := sampleBounds.pMin.y + tile.y * tileSize
  let y1 := min (y0 + tileSize) sampleBounds.pMax.y
  Bounds2i.new ⟨x0, y0⟩ ⟨x1, y1⟩

/-- The body of `Render`'s sample loop after ray generation (source lines 100-110): the
estimate is computed only for a positive ray weight and then splatted into the tile. -/
def renderSample (maxDepth : Int) (rrThreshold : ℚ) (fuel : Nat) (scene : Scene)
    (ray : Ray) (rayWeight : ℚ) (pFilm : Point2f) (sampler : Sampler) (materialId : Int)
    (filmTile : CvFilmTile) : Option CvFilmTile :=
  if rayWeight > 0 then
    match LiControlVariate maxDepth rrThreshold fuel ray scene sampler materialId with
    | some (PathResult.returned pixel _) => filmTile.AddSample pFilm pixel rayWeight
    | _ => none
  else filmTile.AddSample pFilm CvDualPixel.SetZero rayWeight

end CvPathIntegrator

/-! ## Auxiliary notions used in the statements -/

/-- Two records agree on the seven weighted sums, that is on every field except
`filterWeightSum`. -/
def CvDualPixel.EqSums (p q : CvDualPixel) : Prop :=
  p.L1 = q.L1 ∧ p.L2 = q.L2 ∧ p.D = q.D ∧ p.L1square = q.L1square ∧
  p.L2square = q.L2square ∧ p.Dsquare = q.Dsquare ∧ p.reciprocal_pdf = q.reciprocal_pdf

/-- The linear offset of `p` in a row-major array over the rectangle `b`; both `GetPixel`
and `GetCvPixel` compute it. -/
def Bounds2i.offset (b : Bounds2i) (p : Point2i) : Int :=
  (p.x - b.pMin.x) + (p.y - b.pMin.y) * (b.pMax.x - b.pMin.x)

/-- The invariant that the constructor of `CvFilmTile` establishes for the pixel array,
together with a filter table of `filterTableSize * filterTableSize` entries. -/
def CvFilmTile.WellFormed (t : CvFilmTile) : Prop :=
  t.pixels.length = (max 0 t.pixelBounds.Area).toNat ∧ 1 ≤ t.filterTableSize ∧
  t.filterTableSize * t.filterTableSize ≤ (t.filterTable.length : Int)

/-- The invariant that the constructor of `CvFilm` establishes for the pixel array. -/
def CvFilm.WellFormed (f : CvFilm) : Prop :=
  f.cvPixels.length = f.croppedPixelBounds.Area.toNat

/-- The rectangle `inner` lies inside the rectangle `outer`. -/
def Bounds2i.Within (inner outer : Bounds2i) : Prop :=
  outer.pMin.x ≤ inner.pMin.x ∧ outer.pMin.y ≤ inner.pMin.y ∧
  inner.pMax.x ≤ outer.pMax.x ∧ inner.pMax.y ≤ outer.pMax.y

/-- The counts `p1.x - p0.x` and `p1.y - p0.y` of the two `ALLOCA` calls of `AddSample` are
not negative: the clamped filter support is not inverted on either axis. -/
def CvFilmTile.SupportOk (t : CvFilmTile) (pFilm : Point2f) : Prop :=
  (t.sampleP0 pFilm).x ≤ (t.sampleP1 pFilm).x ∧ (t.sampleP0 pFilm).y ≤ (t.sampleP1 pFilm).y

instance (t : CvFilmTile) (pFilm : Point2f) : Decidable (t.SupportOk pFilm) :=
  inferInstanceAs (Decidable
    ((t.sampleP0 pFilm).x ≤ (t.sampleP1 pFilm).x ∧ (t.sampleP0 pFilm).y ≤ (t.sampleP1 pFilm).y))

/-- Output arrays that hold 1 everywhere, a possible content of freshly allocated memory. -/
def onesBuffers : ImageBuffers :=
  ⟨fun _ => 1, fun _ => 1, fun _ => 1, fun _ => 1, fun _ => 1, fun _ => 1, fun _ => 1⟩

/-- Output arrays with unrelated content, a possible content of freshly allocated memory:
`rgb1` holds 1, `rgb2` holds 2, `diff` holds 5, and `recipPdfs[n]` holds `n`. -/
def staleBuffers : ImageBuffers :=
  ⟨fun _ => 1, fun _ => 0, fun _ => 2, fun _ => 0, fun _ => 5, fun _ => 0, fun n => (n : ℚ)⟩

/-- The filter weight `filterTable[offset]` that `AddSample` looks up for pixel `p`
(0 when the offset is outside the table). -/
def CvFilmTile.filterWeight (t : CvFilmTile) (pFilm : Point2f) (p : Point2i) : ℚ :=
  (arrayGet t.filterTable (t.filterOffset pFilm p)).getD 0

/-- A record that is zero except for a `filterWeightSum` of 2, as a tile pixel has after
two samples of weight 1 that carry no radiance. -/
def weightedZero : CvDualPixel := { CvDualPixel.SetZero with filterWeightSum := 2 }

/-- The record of tile pixel `p`, the zero record where `GetPixel` has no value. -/
def CvFilmTile.pixelAt (t : CvFilmTile) (p : Point2i) : CvDualPixel :=
  (t.GetPixel p).getD CvDualPixel.SetZero

/-- The effect of `AddSample(pFilm, splat, 1)` on the pixel array when no check fails: the
record at the offset of every pixel of the footprint is replaced by
`AddPixel(splat, filterWeight)` of itself. -/
def CvFilmTile.splatPixels (t : CvFilmTile) (pFilm : Point2f) (splat : CvDualPixel)
    (l : List Point2i) (px : List CvDualPixel) : List CvDualPixel :=
  l.foldl (fun px p => px.modify (fun x => x.AddPixel splat (t.filterWeight pFilm p))
    (t.pixelBounds.offset p).toNat) px

/-- The effect of `MergeFilmTile(tile)` on the frame when no check fails. -/
def CvFilm.mergeTotal (f : CvFilm) (tile : CvFilmTile) : CvFilm :=
  let cvPixels := tile.pixelBounds.points.foldl
    (fun px p => px.modify (CvFilm.mergeRecord (tile.pixelAt p))
      (f.croppedPixelBounds.offset p).toNat) f.cvPixels
  { f with cvPixels := cvPixels }

/-- A fresh 3 by 2 tile with filter radius 1 and a 2 by 2 filter table. -/
def exampleTile : CvFilmTile :=
  CvFilmTile.new ⟨⟨0, 0⟩, ⟨3, 2⟩⟩ ⟨1, 1⟩ [1, 1 / 2, 1 / 2, 1 / 4] 2

/-- A sample record with unequal branch radiances and reciprocal pdf 2. -/
def exampleSplat : CvDualPixel := CvDualPixel.new ![1, 2, 3] ![1, 1, 1] 2

/-- A fresh one-pixel film: filter radius 1/2, a one-entry filter table, scale 1. -/
def exampleFilm : CvFilm := CvFilm.new ⟨⟨0, 0⟩, ⟨1, 1⟩⟩ ⟨1 / 2, 1 / 2⟩ [1] 1 1

/-- The tile of the one-pixel film after one sample of filter weight 1 was splatted. -/
def splattedTile : CvFilmTile :=
  { CvFilmTile.new ⟨⟨0, 0⟩, ⟨1, 1⟩⟩ ⟨1 / 2, 1 / 2⟩ [1] 1 with
    pixels := [CvDualPixel.SetZero.AddPixel exampleSplat 1] }

/-- A tile over the pixels (0,0) and (1,0). -/
def tileA : CvFilmTile :=
  { CvFilmTile.new ⟨⟨0, 0⟩, ⟨2, 1⟩⟩ ⟨1, 1⟩ [1] 1 with pixels := [exampleSplat, weightedZero] }

/-- A tile over the pixel (1,0), overlapping `tileA`. -/
def tileB : CvFilmTile :=
  { CvFilmTile.new ⟨⟨1, 0⟩, ⟨2, 1⟩⟩ ⟨1, 1⟩ [1] 1 with pixels := [exampleSplat] }

/-- The radiance that reaches the camera along `r` without any scattering: the emission of
the first surface hit, or the summed emission of the infinite lights when `r` escapes. -/
def directEmission (scene : Scene) (r : Ray) : Spectrum :=
  match scene.Intersect r with
  | some isect => isect.Le (-r.d)
  | none => (scene.infiniteLights.map (fun light => light r)).sum

/-- A scene whose every ray hits a surface of emission `E` (and no infinite lights). -/
def emitterScene (E : Spectrum) : Scene where
  Intersect := fun _ =>
    some { n := ⟨0, 0, 1⟩, shading_n := ⟨0, 0, 1⟩, Le := fun _ => E, bsdf := fun _ => none,
           SpawnRay := fun d => ⟨⟨0, 0, 0⟩, d⟩, bssrdf := false }
  infiniteLights := []

/-- A camera ray along the z axis. -/
def exampleRay : Ray := ⟨⟨0, 0, 0⟩, ⟨0, 0, 1⟩⟩

/-- A sampler whose stream is constantly 1/2. -/
def exampleSampler : Sampler := ⟨fun _ => 1 / 2, 0⟩

/-- The record of frame pixel `p`, the zero record where `GetCvPixel` has no value. -/
def CvFilm.pixelAt (f : CvFilm) (p : Point2i) : CvDualPixel :=
  (f.GetCvPixel p).getD CvDualPixel.SetZero

/-- One iteration of the first pass of `WriteImage` for a record that `GetCvPixel`
returned. -/
def CvFilm.exportStep (scale splatScale : ℚ) (s : ExportState) (pixel : CvDualPixel) :
    ExportState where
  buf := CvFilm.writePixel scale splatScale pixel s.offset s.buf
  offset := s.offset + 1
  avgRecipPdf :=
    s.avgRecipPdf + (CvFilm.writePixel scale splatScale pixel s.offset s.buf).recipPdfs (3 * s.offset)

/-- A 2 by 1 frame with scale 3 that holds two non-zero records. -/
def exampleFrame : CvFilm :=
  { CvFilm.new ⟨⟨0, 0⟩, ⟨2, 1⟩⟩ ⟨1, 1⟩ [1] 1 3 with
    cvPixels := [CvDualPixel.SetZero.AddPixel exampleSplat 1,
                 CvDualPixel.SetZero.AddPixel exampleSplat (1 / 2)] }

/-- The path of one camera sample through `Render` for a film with a single tile: the tile
buffer from `GetCvFilmTile`, the sample loop body, `MergeFilmTile`, and the first pass of
`WriteImage(1, _)` on output arrays that start as zero. -/
def renderOneSample (maxDepth : Int) (rrThreshold : ℚ) (fuel : Nat) (scene : Scene) (ray : Ray)
    (rayWeight : ℚ) (pFilm : Point2f) (sampler : Sampler) (film : CvFilm)
    (tileBounds : Bounds2i) : Option ExportState := do
  let filmTile ← CvPathIntegrator.renderSample maxDepth rrThreshold fuel scene ray rayWeight
    pFilm sampler 0 (film.GetCvFilmTile tileBounds)
  let film' ← film.MergeFilmTile filmTile
  film'.WriteImagePass1 1 ImageBuffers.zero

/-- A fresh 32 by 16 film with filter radius 1/2 (a box filter), two tiles wide. -/
def wideFilm : CvFilm := CvFilm.new ⟨⟨0, 0⟩, ⟨32, 16⟩⟩ ⟨1 / 2, 1 / 2⟩ [1] 1 1

/-- The state carried by the outcome of a loop pass. -/
def LoopStep.state : LoopStep → PathState
  | LoopStep.next s => s
  | LoopStep.exit s => s
  | LoopStep.nullBsdf s => s
  | LoopStep.fatal s => s

/-- The state in which a call of `LiControlVariate` ended. -/
def PathResult.final : PathResult → PathState
  | PathResult.returned _ s => s
  | PathResult.nullBsdf s => s
  | PathResult.fatal s => s

/-- The state at the start of pass `k` (counted from 0) of the bounce loop started in `s0`:
every earlier pass ended at the bottom of the body or in a `continue`, and `++bounces` was
applied. `none` when the loop was left before pass `k`. -/
def CvPathIntegrator.stateAt (maxDepth : Int) (rrThreshold : ℚ) (scene : Scene)
    (s0 : PathState) : Nat → Option PathState
  | 0 => some s0
  | k + 1 =>
    match CvPathIntegrator.stateAt maxDepth rrThreshold scene s0 k with
    | some s =>
      match CvPathIntegrator.iteration maxDepth rrThreshold scene s with
      | LoopStep.next s' => some { s' with bounces := s'.bounces + 1 }
      | _ => none
    | none => none

/-- The spectrum `rrBeta = betas[0] * etaScale * reciprocal_pdfs[0]` of the roulette block. -/
def CvPathIntegrator.rrBeta (s : PathState) : Spectrum :=
  fun i => s.betas 0 i * s.etaScale * s.reciprocal_pdfs 0

/-- The termination probability `q = max(.05, 1 - rrBeta.MaxComponentValue())`. -/
def CvPathIntegrator.rouletteQ (s : PathState) : ℚ :=
  max (1 / 20) (1 - (CvPathIntegrator.rrBeta s).MaxComponentValue)

/-- The guard of the roulette block:
`rrBeta.MaxComponentValue() < rrThreshold + 1.f && bounces > 3`. -/
def CvPathIntegrator.rouletteApplies (rrThreshold : ℚ) (s : PathState) : Prop :=
  (CvPathIntegrator.rrBeta s).MaxComponentValue < rrThreshold + 1 ∧ s.bounces > 3

instance (rrThreshold : ℚ) (s : PathState) :
    Decidable (CvPathIntegrator.rouletteApplies rrThreshold s) :=
  inferInstanceAs (Decidable
    ((CvPathIntegrator.rrBeta s).MaxComponentValue < rrThreshold + 1 ∧ s.bounces > 3))

/-- The state of a pass right after the degenerate-sample test (source line 211): the 2D
sample is drawn, `Sample_f` was called once, `ComputeScatteringFunctions` four times, and
the material id is back to 0. -/
def CvPathIntegrator.sampledState (s : PathState) : PathState :=
  { s with sampler := s.sampler.Get2D.2
           materialId := 0
           nScattering := s.nScattering + 1 + 1 + 1 + 1
           nSampled := s.nSampled + 1 }

/-- The state on which the roulette block runs (source line 235): throughputs, reciprocal
pdfs, refraction scale and ray are updated as in `scatter`. -/
def CvPathIntegrator.preRoulette (isect : SurfaceInteraction) (bsdf0 : BSDF) (wo : Vector3f)
    (smp : BSDFSample) (f1 : Spectrum) (pdf1 : ℚ) (s : PathState) : PathState :=
  let G := AbsDot smp.wi isect.shading_n
  let fs : Fin 2 → Spectrum := fun k => if k = 0 then smp.f else f1
  let pdfs : Fin 2 → ℚ := fun k => if k = 0 then smp.pdf else pdf1
  let s := { s with betas := fun k i => s.betas k i * (fs k i * G)
                    reciprocal_pdfs := fun k => s.reciprocal_pdfs k / pdfs k
                    specularBounce := smp.flag.specular }
  let s :=
    if smp.flag.specular ∧ smp.flag.transmission then
      let eta := bsdf0.eta
      { s with etaScale := s.etaScale * (if Dot wo isect.n > 0 then eta * eta else 1 / (eta * eta)) }
    else s
  { s with ray := isect.SpawnRay smp.wi }

/-- The pass that starts in `s` finds the non-emitting surface `isect`, whose scattering
functions are non-null under the current material id and are `bsdf0` and `bsdf1` under the
material ids 0 and 1. -/
structure CvPathIntegrator.SurfaceHit (scene : Scene) (s : PathState)
    (isect : SurfaceInteraction) (bsdf0 bsdf1 : BSDF) : Prop where
  hit : scene.Intersect s.ray = some isect
  dark : (isect.Le (-s.ray.d)).IsBlack = true
  bsdfCur : (isect.bsdf s.materialId).isSome = true
  bsdfA : isect.bsdf 0 = some bsdf0
  bsdfB : isect.bsdf 1 = some bsdf1

/-- Scattering functions that return the value `f` and the pdf `pdf` for every pair of
directions and always sample the direction (0,0,1), non-specularly. -/
def constantBSDF (f : Spectrum) (pdf : ℚ) : BSDF where
  Sample_f := fun _ _ => ⟨f, ⟨0, 0, 1⟩, pdf, ⟨false, false⟩⟩
  f_pdf := fun _ _ => (f, pdf)
  eta := 1

/-- A non-emitting surface with normal (0,0,1) whose dual material answers with
`constantBSDF fA pdfA` under material id 0 and `constantBSDF fB pdfB` otherwise; `spawn`
is its `SpawnRay`. -/
def dualSurface (fA fB : Spectrum) (pdfA pdfB : ℚ) (spawn : Vector3f → Ray) :
    SurfaceInteraction where
  n := ⟨0, 0, 1⟩
  shading_n := ⟨0, 0, 1⟩
  Le := fun _ => Spectrum.const 0
  bsdf := fun id => if id = 0 then some (constantBSDF fA pdfA) else some (constantBSDF fB pdfB)
  SpawnRay := spawn
  bssrdf := false

/-- A closed scene: every ray hits the same kind of non-emitting dual surface (pdf 1 under
both materials). -/
def closedScene (fA fB : Spectrum) : Scene where
  Intersect := fun _ => some (dualSurface fA fB 1 1 (fun d => ⟨⟨0, 0, 0⟩, d⟩))
  infiniteLights := []

/-- An open scene: a ray from the origin hits a dual surface, the ray spawned there (from
(1,0,0)) escapes to one infinite light of unit radiance. -/
def openScene (fA fB : Spectrum) : Scene where
  Intersect := fun r =>
    if r.o = ⟨0, 0, 0⟩ then some (dualSurface fA fB 1 1 (fun d => ⟨⟨1, 0, 0⟩, d⟩)) else none
  infiniteLights := [fun _ => Spectrum.const 1]

/-- An emitting surface of radiance `E` without scattering functions. -/
def lampSurface (E : Spectrum) : SurfaceInteraction where
  n := ⟨0, 0, 1⟩
  shading_n := ⟨0, 0, 1⟩
  Le := fun _ => E
  bsdf := fun _ => none
  SpawnRay := fun d => ⟨⟨0, 0, 0⟩, d⟩
  bssrdf := false

/-- A scene with one bounce: a ray from the origin hits a dual surface (pdfs 1/2 and 1/3),
the ray spawned there hits a lamp of radiance `E`. -/
def lampScene (fA fB E : Spectrum) : Scene where
  Intersect := fun r =>
    if r.o = ⟨0, 0, 0⟩ then
      some (dualSurface fA fB (1 / 2) (1 / 3) (fun d => ⟨⟨1, 0, 0⟩, d⟩))
    else some (lampSurface E)
  infiniteLights := []

/-- The difference invariant of an accumulation record: `D = L1 - L2` per channel. -/
def CvDualPixel.DiffInv (p : CvDualPixel) : Prop := ∀ i, p.D i = p.L1 i - p.L2 i

/-- The sample loop of one tile of `Render` (source lines 87-115) for given film positions
and estimator results, each splatted with ray weight 1. -/
def CvFilmTile.addSamples (t : CvFilmTile) (samples : List (Point2f × CvDualPixel)) :
    Option CvFilmTile :=
  samples.foldlM (fun t s => t.AddSample s.1 s.2 1) t

/-- The body of `Render`'s tile loop (source lines 70-119) for the sample bounds `work.1` of
the tile and the samples `work.2` taken in it: `GetCvFilmTile`, the sample loop, and
`MergeFilmTile`. -/
def CvFilm.renderTile (f : CvFilm) (work : Bounds2i × List (Point2f × CvDualPixel)) :
    Option CvFilm := do
  let filmTile ← (f.GetCvFilmTile work.1).addSamples work.2
  f.MergeFilmTile filmTile

/-- The tile loop of `Render` with the tiles taken one after the other (merges are mutually
exclusive in the source). -/
def CvFilm.renderTiles (f : CvFilm) (work : List (Bounds2i × List (Point2f × CvDualPixel))) :
    Option CvFilm :=
  work.foldlM CvFilm.renderTile f

/-- The sum of `filterWeightSum` over an array of records. -/
def weightTotal (px : List CvDualPixel) : ℚ := (px.map CvDualPixel.filterWeightSum).sum

/-- Merging a list of tiles one after the other, as the tile tasks of `Render` do under
the film mutex. -/
def CvFilm.mergeAll (f : CvFilm) (tiles : List CvFilmTile) : Option CvFilm :=
  tiles.foldlM CvFilm.MergeFilmTile f

/-! # Theorems -/

/-! ## Construction consistency -/

/-- C3: for all `L1`, `L2` and `recip_pdf` the three-argument constructor yields, per
channel, `L1*recip_pdf`, `L2*recip_pdf`, `D = (L1 - L2)*recip_pdf`, the squares
`L1^2*recip_pdf^2`, `L2^2*recip_pdf^2`, `(L1 - L2)^2*recip_pdf^2`, the reciprocal pdf
itself and a zero filter weight sum. -/
theorem CvDualPixel_construction (L1 L2 : Spectrum) (recip_pdf : ℚ) :
    let p := CvDualPixel.new L1 L2 recip_pdf
    (∀ i, p.L1 i = L1 i * recip_pdf) ∧
    (∀ i, p.L2 i = L2 i * recip_pdf) ∧
    (∀ i, p.D i = (L1 i - L2 i) * recip_pdf) ∧
    (∀ i, p.L1square i = (L1 i) ^ 2 * recip_pdf ^ 2) ∧
    (∀ i, p.L2square i = (L2 i) ^ 2 * recip_pdf ^ 2) ∧
    (∀ i, p.Dsquare i = (L1 i - L2 i) ^ 2 * recip_pdf ^ 2) ∧
    p.reciprocal_pdf = recip_pdf ∧
    p.filterWeightSum = 0 := by
  refine ⟨fun i => rfl, fun i => rfl, fun i => rfl, fun i => ?_, fun i => ?_, fun i => ?_,
    rfl, rfl⟩ <;> simp only [CvDualPixel.new] <;> ring

/-! ## Algebra of `AddPixel` -/

/-- C4 (counterexample): with `a` the zero record and `b` the zero record with
`filterWeightSum = 2`, `a.AddPixel(b)` and `b.AddPixel(a)` differ, and the two groupings of
three zero records differ; the difference is in `filterWeightSum`. -/
theorem AddPixel_comm_assoc_fails :
    CvDualPixel.SetZero.AddPixel weightedZero 1 ≠ weightedZero.AddPixel CvDualPixel.SetZero 1 ∧
    (CvDualPixel.SetZero.AddPixel CvDualPixel.SetZero 1).AddPixel CvDualPixel.SetZero 1 ≠
      CvDualPixel.SetZero.AddPixel (CvDualPixel.SetZero.AddPixel CvDualPixel.SetZero 1) 1 := by
  constructor <;> intro h <;>
    have h' := congrArg CvDualPixel.filterWeightSum h <;>
    norm_num [CvDualPixel.AddPixel, CvDualPixel.SetZero, weightedZero] at h'

/-- C4 (amended): `AddPixel` with the default weight 1 is commutative and associative on
the seven weighted sums; the resulting `filterWeightSum` is the receiver's plus the
weight 1, and the argument's `filterWeightSum` is not read. -/
theorem AddPixel_comm_assoc_sums (a b c : CvDualPixel) :
    (a.AddPixel b 1).EqSums (b.AddPixel a 1) ∧
    ((a.AddPixel b 1).AddPixel c 1).EqSums (a.AddPixel (b.AddPixel c 1) 1) ∧
    (a.AddPixel b 1).filterWeightSum = a.filterWeightSum + 1 := by
  refine ⟨⟨?_, ?_, ?_, ?_, ?_, ?_, ?_⟩, ⟨?_, ?_, ?_, ?_, ?_, ?_, ?_⟩, rfl⟩ <;>
    first
      | (funext i; simp only [CvDualPixel.AddPixel]; ring)
      | (simp only [CvDualPixel.AddPixel]; ring)

/-- C5 (counterexample): adding the zero record to the zero record with the default weight
does not give back the zero record. -/
theorem AddPixel_zero_not_identity :
    CvDualPixel.SetZero.AddPixel CvDualPixel.SetZero 1 ≠ CvDualPixel.SetZero := by
  intro h
  have h' := congrArg CvDualPixel.filterWeightSum h
  norm_num [CvDualPixel.AddPixel, CvDualPixel.SetZero] at h'

/-- C5 (amended): adding the zero record with the default weight leaves the seven weighted
sums of `a` unchanged and increases `filterWeightSum` by the weight 1. -/
theorem AddPixel_zero_sums (a : CvDualPixel) :
    (a.AddPixel CvDualPixel.SetZero 1).EqSums a ∧
    (a.AddPixel CvDualPixel.SetZero 1).filterWeightSum = a.filterWeightSum + 1 := by
  refine ⟨⟨?_, ?_, ?_, ?_, ?_, ?_, ?_⟩, rfl⟩ <;>
    first
      | (funext i; simp [CvDualPixel.AddPixel, CvDualPixel.SetZero, Spectrum.const])
      | simp [CvDualPixel.AddPixel, CvDualPixel.SetZero]

/-! ## Rectangles, their enumeration and linear offsets -/

theorem insideExclusive_iff (p : Point2i) (b : Bounds2i) :
    InsideExclusive p b = true ↔
      b.pMin.x ≤ p.x ∧ p.x < b.pMax.x ∧ b.pMin.y ≤ p.y ∧ p.y < b.pMax.y := by
  simp [InsideExclusive]

theorem mem_intRange (lo hi v : Int) : v ∈ intRange lo hi ↔ lo ≤ v ∧ v < hi := by
  unfold intRange
  simp only [List.mem_map, List.mem_range]
  constructor
  · rintro ⟨k, hk, rfl⟩
    omega
  · intro h
    exact ⟨(v - lo).toNat, by omega, by omega⟩

theorem mem_points (b : Bounds2i) (p : Point2i) :
    p ∈ b.points ↔ InsideExclusive p b = true := by
  rw [insideExclusive_iff]
  unfold Bounds2i.points
  simp only [List.mem_flatMap, List.mem_map, mem_intRange]
  constructor
  · rintro ⟨y, hy, x, hx, rfl⟩
    exact ⟨hx.1, hx.2, hy.1, hy.2⟩
  · intro h
    exact ⟨p.y, ⟨h.2.2.1, h.2.2.2⟩, p.x, ⟨h.1, h.2.1⟩, rfl⟩

/-- Row-major enumeration of a `W` by `H` grid numbers the cells `0, 1, ..., H*W - 1`. -/
theorem flatMap_rows_eq_range (W H : Nat) :
    (List.range H).flatMap (fun j => (List.range W).map (fun i => i + j * W)) =
      List.range (H * W) := by
  induction H with
  | zero => simp
  | succ H ih =>
    rw [List.range_succ, List.flatMap_append, ih, Nat.succ_mul, List.range_add]
    simp [Nat.add_comm]

/-- The offsets of the enumerated pixels of a rectangle are `0, 1, 2, ...` in this order. -/
theorem points_map_offset (b : Bounds2i) :
    b.points.map (fun p => (b.offset p).toNat) =
      List.range ((b.pMax.y - b.pMin.y).toNat * (b.pMax.x - b.pMin.x).toNat) := by
  rw [← flatMap_rows_eq_range]
  unfold Bounds2i.points intRange
  simp only [List.map_flatMap, List.flatMap_map, List.map_map]
  refine congrArg _ (funext fun j => ?_)
  by_cases hw : 0 ≤ b.pMax.x - b.pMin.x
  · apply List.map_congr_left
    intro i _
    simp only [Function.comp_apply, Bounds2i.offset]
    have h1 : (((b.pMax.x - b.pMin.x).toNat : Nat) : Int) = b.pMax.x - b.pMin.x :=
      Int.toNat_of_nonneg hw
    have h2 : b.pMin.x + (i : Int) - b.pMin.x + (b.pMin.y + (j : Int) - b.pMin.y) *
        (b.pMax.x - b.pMin.x) = ((i + j * (b.pMax.x - b.pMin.x).toNat : Nat) : Int) := by
      push_cast
      rw [h1]
      ring
    rw [h2]
    exact Int.toNat_ofNat _
  · have h0 : (b.pMax.x - b.pMin.x).toNat = 0 := by omega
    simp [h0]

theorem points_length (b : Bounds2i) :
    b.points.length = (b.pMax.y - b.pMin.y).toNat * (b.pMax.x - b.pMin.x).toNat := by
  have h := congrArg List.length (points_map_offset b)
  simpa using h

theorem points_offset_nodup (b : Bounds2i) :
    (b.points.map (fun p => (b.offset p).toNat)).Nodup := by
  rw [points_map_offset]
  exact List.nodup_range _

theorem points_nodup (b : Bounds2i) : b.points.Nodup :=
  List.Nodup.of_map _ (points_offset_nodup b)

/-- A pixel inside a rectangle has an offset in `[0, Area)`. -/
theorem offset_bounds (b : Bounds2i) (p : Point2i) (h : InsideExclusive p b = true) :
    0 ≤ b.offset p ∧ b.offset p < b.Area ∧ 0 < b.Area := by
  rw [insideExclusive_iff] at h
  obtain ⟨h1, h2, h3, h4⟩ := h
  unfold Bounds2i.offset Bounds2i.Area
  have hw : 0 < b.pMax.x - b.pMin.x := by omega
  have hh : 0 < b.pMax.y - b.pMin.y := by omega
  have hy : 0 ≤ p.y - b.pMin.y := by omega
  have hy1 : p.y - b.pMin.y + 1 ≤ b.pMax.y - b.pMin.y := by omega
  have e1 : 0 ≤ (p.y - b.pMin.y) * (b.pMax.x - b.pMin.x) := Int.mul_nonneg hy (le_of_lt hw)
  have e2 : (p.y - b.pMin.y + 1) * (b.pMax.x - b.pMin.x) ≤
      (b.pMax.y - b.pMin.y) * (b.pMax.x - b.pMin.x) :=
    Int.mul_le_mul_of_nonneg_right hy1 (le_of_lt hw)
  have e3 : 0 < (b.pMax.x - b.pMin.x) * (b.pMax.y - b.pMin.y) := Int.mul_pos hw hh
  refine ⟨by omega, ?_, e3⟩
  have e4 : (p.y - b.pMin.y + 1) * (b.pMax.x - b.pMin.x) =
      (p.y - b.pMin.y) * (b.pMax.x - b.pMin.x) + (b.pMax.x - b.pMin.x) := by ring
  have e5 : (b.pMax.x - b.pMin.x) * (b.pMax.y - b.pMin.y) =
      (b.pMax.y - b.pMin.y) * (b.pMax.x - b.pMin.x) := by ring
  omega

/-- Distinct pixels inside a rectangle have distinct offsets. -/
theorem offset_injective (b : Bounds2i) (p q : Point2i) (hp : InsideExclusive p b = true)
    (hq : InsideExclusive q b = true) (h : (b.offset p).toNat = (b.offset q).toNat) :
    p = q := by
  have hnd := points_offset_nodup b
  exact List.inj_on_of_nodup_map hnd ((mem_points b p).2 hp) ((mem_points b q).2 hq) h

/-- A pixel inside `inner` is inside every rectangle that contains `inner`. -/
theorem insideExclusive_of_within {inner outer : Bounds2i} (hw : inner.Within outer)
    (p : Point2i) (h : InsideExclusive p inner = true) : InsideExclusive p outer = true := by
  rw [insideExclusive_iff] at h ⊢
  obtain ⟨h1, h2, h3, h4⟩ := hw
  omega

/-! ## Arrays: reads, writes and folds of in-place updates -/

theorem arrayGet_of_nonneg {α : Type} (a : List α) (i : Int) (h : 0 ≤ i) :
    arrayGet a i = a[i.toNat]? := by
  simp [arrayGet, h]

theorem arraySet_of_lt {α : Type} (a : List α) (i : Int) (v : α) (h : 0 ≤ i)
    (h' : i.toNat < a.length) : arraySet a i v = some (a.set i.toNat v) := by
  simp [arraySet, h, h']

/-- Reading a cell and writing back a function of it is `List.modify`. -/
theorem get_bind_set {α : Type} (a : List α) (i : Int) (g : α → α) (h : 0 ≤ i)
    (h' : i.toNat < a.length) :
    (arrayGet a i).bind (fun v => arraySet a i (g v)) = some (a.modify g i.toNat) := by
  rw [arrayGet_of_nonneg a i h, List.getElem?_eq_getElem h']
  simp only [Option.some_bind]
  rw [arraySet_of_lt a i _ h h', List.modify_eq_set_get g h']
  rfl

theorem length_foldl_modify {α β : Type} (g : β → α → α) (k : β → Nat) :
    ∀ (l : List β) (px : List α),
      (l.foldl (fun px p => px.modify (g p) (k p)) px).length = px.length
  | [], _ => rfl
  | p :: l, px => by
    simp only [List.foldl_cons]
    rw [length_foldl_modify g k l, List.length_modify]

/-- A cell whose index is not the key of any update keeps its content. -/
theorem getElem?_foldl_modify_of_not_mem {α β : Type} (g : β → α → α) (k : β → Nat) (j : Nat) :
    ∀ (l : List β) (px : List α), j ∉ l.map k →
      (l.foldl (fun px p => px.modify (g p) (k p)) px)[j]? = px[j]?
  | [], _, _ => rfl
  | p :: l, px, h => by
    simp only [List.map_cons, List.mem_cons, not_or] at h
    simp only [List.foldl_cons]
    rw [getElem?_foldl_modify_of_not_mem g k j l _ h.2]
    exact List.getElem?_modify_ne _ _ (fun e => h.1 e.symm)

/-- With pairwise distinct keys, the cell of key `k p` receives exactly the update of
`p`. -/
theorem getElem?_foldl_modify_of_mem {α β : Type} (g : β → α → α) (k : β → Nat) :
    ∀ (l : List β) (px : List α), (l.map k).Nodup → ∀ p ∈ l,
      (l.foldl (fun px p => px.modify (g p) (k p)) px)[k p]? = (px[k p]?).map (g p)
  | [], _, _, p, hp => by simp at hp
  | q :: l, px, hnd, p, hp => by
    simp only [List.map_cons, List.nodup_cons] at hnd
    simp only [List.foldl_cons]
    rcases List.mem_cons.1 hp with rfl | hp'
    · rw [getElem?_foldl_modify_of_not_mem g k (k p) l _ hnd.1, List.getElem?_modify_eq]
      rfl
    · rw [getElem?_foldl_modify_of_mem g k l _ hnd.2 p hp']
      have hne : k q ≠ k p := fun e => hnd.1 (e ▸ List.mem_map_of_mem k hp')
      rw [List.getElem?_modify_ne _ _ hne]

theorem sum_map_modify_add {α : Type} (φ : α → ℚ) (g : α → α) (w : ℚ)
    (hg : ∀ x, φ (g x) = φ x + w) :
    ∀ (l : List α) (k : Nat), k < l.length →
      ((l.modify g k).map φ).sum = (l.map φ).sum + w
  | [], k, h => by simp at h
  | a :: l, 0, _ => by
    simp only [List.modify_zero_cons, List.map_cons, List.sum_cons, hg]
    ring
  | a :: l, k + 1, h => by
    simp only [List.modify_succ_cons, List.map_cons, List.sum_cons]
    rw [sum_map_modify_add φ g w hg l k (by simpa using h)]
    ring

/-- When every update adds `w p` to the quantity `φ` of its cell, the total of `φ` grows by
the sum of the `w p`. -/
theorem sum_map_foldl_modify {α β : Type} (φ : α → ℚ) (g : β → α → α) (k : β → Nat)
    (w : β → ℚ) (hg : ∀ p x, φ (g p x) = φ x + w p) :
    ∀ (l : List β) (px : List α), (∀ p ∈ l, k p < px.length) →
      ((l.foldl (fun px p => px.modify (g p) (k p)) px).map φ).sum =
        (px.map φ).sum + (l.map w).sum
  | [], _, _ => by simp
  | p :: l, px, h => by
    simp only [List.foldl_cons, List.map_cons, List.sum_cons]
    rw [sum_map_foldl_modify φ g k w hg l _ (fun q hq => by
      rw [List.length_modify]; exact h q (List.mem_cons_of_mem _ hq))]
    rw [sum_map_modify_add φ (g p) (w p) (hg p) px (k p) (h p (List.mem_cons_self _ _))]
    ring

/-- Two in-place updates commute when their functions commute. -/
theorem modify_modify_comm {α : Type} (g h : α → α) (hc : ∀ x, g (h x) = h (g x))
    (i j : Nat) (px : List α) :
    (px.modify h j).modify g i = (px.modify g i).modify h j := by
  by_cases hij : i = j
  · subst hij
    rw [List.modify_modify_eq, List.modify_modify_eq]
    congr 1
    funext x
    exact hc x
  · exact (List.modify_modify_ne g h px hij).symm

/-- Two sequences of in-place updates commute when their functions commute pairwise. -/
theorem foldl_modify_comm {α β γ : Type} (g : β → α → α) (k : β → Nat) (g' : γ → α → α)
    (k' : γ → Nat) (hc : ∀ p q x, g p (g' q x) = g' q (g p x)) :
    ∀ (l : List β) (l' : List γ) (px : List α),
      l.foldl (fun px p => px.modify (g p) (k p))
          (l'.foldl (fun px q => px.modify (g' q) (k' q)) px) =
        l'.foldl (fun px q => px.modify (g' q) (k' q))
          (l.foldl (fun px p => px.modify (g p) (k p)) px)
  | [], _, _ => rfl
  | p :: l, l', px => by
    simp only [List.foldl_cons]
    rw [← foldl_modify_comm g k g' k' hc l l' (px.modify (g p) (k p))]
    congr 1
    clear l
    induction l' generalizing px with
    | nil => rfl
    | cons q l' ih =>
      simp only [List.foldl_cons]
      rw [ih (px.modify (g' q) (k' q)), modify_modify_comm (g p) (g' q) (hc p q)]

/-! ## `CvFilmTile`: accessors and `AddSample` -/

theorem tile_offset_lt (t : CvFilmTile)
    (hlen : t.pixels.length = (max 0 t.pixelBounds.Area).toNat) (p : Point2i)
    (hp : InsideExclusive p t.pixelBounds = true) :
    0 ≤ t.pixelBounds.offset p ∧ (t.pixelBounds.offset p).toNat < t.pixels.length := by
  obtain ⟨h0, h1, h2⟩ := offset_bounds t.pixelBounds p hp
  refine ⟨h0, ?_⟩
  rw [hlen]
  omega

/-- Inside the pixel bounds `GetPixel` reads the cell at the linear offset. -/
theorem GetPixel_of_inside (t : CvFilmTile)
    (hlen : t.pixels.length = (max 0 t.pixelBounds.Area).toNat) (p : Point2i)
    (hp : InsideExclusive p t.pixelBounds = true) :
    t.GetPixel p = t.pixels[(t.pixelBounds.offset p).toNat]? ∧ (t.GetPixel p).isSome = true := by
  obtain ⟨h0, h1⟩ := tile_offset_lt t hlen p hp
  have e : t.GetPixel p = t.pixels[(t.pixelBounds.offset p).toNat]? := by
    unfold CvFilmTile.GetPixel
    rw [if_pos hp]
    exact arrayGet_of_nonneg _ _ h0
  refine ⟨e, ?_⟩
  rw [e, List.getElem?_eq_getElem h1]
  rfl

theorem ifx_bounds (t : CvFilmTile) (h1 : 1 ≤ t.filterTableSize) (pFilm : Point2f) (x : Int) :
    0 ≤ t.ifx pFilm x ∧ t.ifx pFilm x ≤ t.filterTableSize - 1 := by
  unfold CvFilmTile.ifx
  have h := Int.floor_nonneg.2 (abs_nonneg
    (((x : ℚ) - (pFilm.x - 1 / 2)) * t.invFilterRadius.x * (t.filterTableSize : ℚ)))
  constructor
  · exact le_min h (by omega)
  · exact min_le_right _ _

theorem ify_bounds (t : CvFilmTile) (h1 : 1 ≤ t.filterTableSize) (pFilm : Point2f) (y : Int) :
    0 ≤ t.ify pFilm y ∧ t.ify pFilm y ≤ t.filterTableSize - 1 := by
  unfold CvFilmTile.ify
  have h := Int.floor_nonneg.2 (abs_nonneg
    (((y : ℚ) - (pFilm.y - 1 / 2)) * t.invFilterRadius.y * (t.filterTableSize : ℚ)))
  constructor
  · exact le_min h (by omega)
  · exact min_le_right _ _

/-- The filter table offset of `AddSample` lies in `[0, filterTableSize^2)`. -/
theorem filterOffset_bounds (t : CvFilmTile) (h1 : 1 ≤ t.filterTableSize) (pFilm : Point2f)
    (p : Point2i) :
    0 ≤ t.filterOffset pFilm p ∧
      t.filterOffset pFilm p < t.filterTableSize * t.filterTableSize := by
  obtain ⟨hx0, hx1⟩ := ifx_bounds t h1 pFilm p.x
  obtain ⟨hy0, hy1⟩ := ify_bounds t h1 pFilm p.y
  unfold CvFilmTile.filterOffset
  have e1 : 0 ≤ t.ify pFilm p.y * t.filterTableSize := Int.mul_nonneg hy0 (by omega)
  have e2 : t.ify pFilm p.y * t.filterTableSize ≤ (t.filterTableSize - 1) * t.filterTableSize :=
    Int.mul_le_mul_of_nonneg_right hy1 (by omega)
  have e3 : (t.filterTableSize - 1) * t.filterTableSize =
      t.filterTableSize * t.filterTableSize - t.filterTableSize := by ring
  constructor <;> omega

/-- With a table of `filterTableSize^2` entries every lookup of `AddSample` succeeds. -/
theorem filterTable_lookup (t : CvFilmTile) (hwf : t.WellFormed) (pFilm : Point2f)
    (p : Point2i) :
    arrayGet t.filterTable (t.filterOffset pFilm p) = some (t.filterWeight pFilm p) := by
  obtain ⟨h0, h1⟩ := filterOffset_bounds t hwf.2.1 pFilm p
  have h2 : (t.filterOffset pFilm p).toNat < t.filterTable.length := by
    have := hwf.2.2
    omega
  unfold CvFilmTile.filterWeight
  rw [arrayGet_of_nonneg _ _ h0, List.getElem?_eq_getElem h2]
  rfl

/-- One pass of `AddSample`'s inner loop, for a pixel inside the tile. -/
theorem addSampleAt_eq (t0 : CvFilmTile) (hwf : t0.WellFormed) (pFilm : Point2f)
    (splat : CvDualPixel) (px : List CvDualPixel) (hlen : px.length = t0.pixels.length)
    (p : Point2i) (hp : InsideExclusive p t0.pixelBounds = true) :
    CvFilmTile.addSampleAt pFilm splat { t0 with pixels := px } p =
      some { t0 with
        pixels := px.modify (fun x => x.AddPixel splat (t0.filterWeight pFilm p))
                    (t0.pixelBounds.offset p).toNat } := by
  have hl := filterTable_lookup t0 hwf pFilm p
  obtain ⟨h0, h1⟩ := tile_offset_lt t0 hwf.1 p hp
  rw [← hlen] at h1
  have hb := get_bind_set px (t0.pixelBounds.offset p)
    (fun x => x.AddPixel splat (t0.filterWeight pFilm p)) h0 h1
  unfold CvFilmTile.addSampleAt
  have hl' : arrayGet ({ t0 with pixels := px } : CvFilmTile).filterTable
      (({ t0 with pixels := px } : CvFilmTile).filterOffset pFilm p) =
      some (t0.filterWeight pFilm p) := hl
  simp only [Option.bind_eq_bind, hl', Option.some_bind, CvFilmTile.GetPixel,
    CvFilmTile.setPixel, hp, if_true]
  have e : ({ t0 with pixels := px } : CvFilmTile).pixelOffset p = t0.pixelBounds.offset p := rfl
  rw [e]
  cases hg : arrayGet px (t0.pixelBounds.offset p) with
  | none => rw [hg] at hb; simp at hb
  | some v =>
    rw [hg] at hb
    simp only [Option.some_bind] at hb ⊢
    rw [hb]
    rfl

theorem mem_footprint_inside (t : CvFilmTile) (pFilm : Point2f) (p : Point2i)
    (hp : p ∈ t.footprint pFilm) : InsideExclusive p t.pixelBounds = true := by
  have h : p ∈ (Bounds2i.mk (t.sampleP0 pFilm) (t.sampleP1 pFilm)).points := hp
  rw [mem_points, insideExclusive_iff] at h
  rw [insideExclusive_iff]
  simp only [CvFilmTile.sampleP0, CvFilmTile.sampleP1] at h
  omega

theorem foldlM_addSampleAt (t0 : CvFilmTile) (hwf : t0.WellFormed) (pFilm : Point2f)
    (splat : CvDualPixel) :
    ∀ (l : List Point2i) (px : List CvDualPixel), px.length = t0.pixels.length →
      (∀ p ∈ l, InsideExclusive p t0.pixelBounds = true) →
      l.foldlM (CvFilmTile.addSampleAt pFilm splat) { t0 with pixels := px } =
        some { t0 with pixels := t0.splatPixels pFilm splat l px }
  | [], _, _, _ => rfl
  | p :: l, px, hlen, hin => by
    rw [List.foldlM_cons, addSampleAt_eq t0 hwf pFilm splat px hlen p
      (hin p (List.mem_cons_self _ _))]
    simp only [Option.bind_eq_bind, Option.some_bind]
    rw [foldlM_addSampleAt t0 hwf pFilm splat l _ (by rw [List.length_modify]; exact hlen)
      (fun q hq => hin q (List.mem_cons_of_mem _ hq))]
    rfl

/-- On a well-formed tile, for a film position whose clamped filter support is not
inverted, `AddSample` with sample weight 1 returns, and its effect on the pixel array is
`splatPixels` over the footprint. -/
theorem AddSample_eq (t : CvFilmTile) (hwf : t.WellFormed) (pFilm : Point2f)
    (hsup : t.SupportOk pFilm) (splat : CvDualPixel) :
    t.AddSample pFilm splat 1 =
      some { t with pixels := t.splatPixels pFilm splat (t.footprint pFilm) t.pixels } := by
  have hcount : ¬ ((t.sampleP1 pFilm).x - (t.sampleP0 pFilm).x < 0 ∨
      (t.sampleP1 pFilm).y - (t.sampleP0 pFilm).y < 0) := by
    obtain ⟨h1, h2⟩ := hsup
    omega
  unfold CvFilmTile.AddSample CvFilmTile.AddSampleResult
  rw [if_pos rfl, if_neg hcount,
    foldlM_addSampleAt t hwf pFilm splat (t.footprint pFilm) t.pixels rfl
      (fun p hp => mem_footprint_inside t pFilm p hp)]

/-- A call of `AddSample` that returns had sample weight 1 and a filter support that is not
inverted. -/
theorem AddSample_of_some (t t' : CvFilmTile) (pFilm : Point2f) (splat : CvDualPixel)
    (w : ℚ) (h : t.AddSample pFilm splat w = some t') : w = 1 ∧ t.SupportOk pFilm := by
  unfold CvFilmTile.AddSample CvFilmTile.AddSampleResult at h
  by_cases hw : w = 1
  · by_cases hc : (t.sampleP1 pFilm).x - (t.sampleP0 pFilm).x < 0 ∨
        (t.sampleP1 pFilm).y - (t.sampleP0 pFilm).y < 0
    · rw [if_pos hw, if_pos hc] at h
      cases h
    · refine ⟨hw, ?_⟩
      unfold CvFilmTile.SupportOk
      omega
  · rw [if_neg hw] at h
    cases h

/-- A call of `AddSample` with an inverted filter support does not return. -/
theorem AddSample_inverted (t : CvFilmTile) (pFilm : Point2f) (splat : CvDualPixel) (w : ℚ)
    (h : ¬ t.SupportOk pFilm) : t.AddSample pFilm splat w = none := by
  cases hr : t.AddSample pFilm splat w with
  | none => rfl
  | some t' => exact absurd (AddSample_of_some t t' pFilm splat w hr).2 h

theorem footprint_offset_nodup (t : CvFilmTile) (pFilm : Point2f) :
    ((t.footprint pFilm).map (fun p => (t.pixelBounds.offset p).toNat)).Nodup := by
  have hnd : (t.footprint pFilm).Nodup :=
    points_nodup (Bounds2i.mk (t.sampleP0 pFilm) (t.sampleP1 pFilm))
  refine List.Nodup.map_on ?_ hnd
  intro p hp q hq h
  exact offset_injective t.pixelBounds p q (mem_footprint_inside t pFilm p hp)
    (mem_footprint_inside t pFilm q hq) h

theorem splatPixels_length (t : CvFilmTile) (pFilm : Point2f) (splat : CvDualPixel)
    (l : List Point2i) (px : List CvDualPixel) :
    (t.splatPixels pFilm splat l px).length = px.length :=
  length_foldl_modify _ _ l px

/-- After `AddSample` a pixel of the footprint holds its old record plus the weighted
splat. -/
theorem AddSample_GetPixel_footprint (t t' : CvFilmTile) (hwf : t.WellFormed)
    (pFilm : Point2f) (splat : CvDualPixel) (h : t.AddSample pFilm splat 1 = some t')
    (p : Point2i) (hp : p ∈ t.footprint pFilm) :
    t'.GetPixel p =
      (t.GetPixel p).map (fun x => x.AddPixel splat (t.filterWeight pFilm p)) := by
  rw [AddSample_eq t hwf pFilm (AddSample_of_some t t' pFilm splat 1 h).2] at h
  have ht' := (Option.some.inj h).symm
  subst ht'
  have hin := mem_footprint_inside t pFilm p hp
  have hlen' : (t.splatPixels pFilm splat (t.footprint pFilm) t.pixels).length =
      (max 0 t.pixelBounds.Area).toNat := by rw [splatPixels_length]; exact hwf.1
  rw [(GetPixel_of_inside t hwf.1 p hin).1,
    (GetPixel_of_inside { t with pixels := t.splatPixels pFilm splat (t.footprint pFilm) t.pixels }
      hlen' p hin).1]
  exact getElem?_foldl_modify_of_mem
    (fun p x => x.AddPixel splat (t.filterWeight pFilm p))
    (fun p => (t.pixelBounds.offset p).toNat) (t.footprint pFilm) t.pixels
    (footprint_offset_nodup t pFilm) p hp

/-! ## `CvFilm`: accessors and `MergeFilmTile` -/

theorem film_offset_lt (f : CvFilm) (hwf : f.WellFormed) (p : Point2i)
    (hp : InsideExclusive p f.croppedPixelBounds = true) :
    0 ≤ f.croppedPixelBounds.offset p ∧
      (f.croppedPixelBounds.offset p).toNat < f.cvPixels.length := by
  obtain ⟨h0, h1, _⟩ := offset_bounds f.croppedPixelBounds p hp
  refine ⟨h0, ?_⟩
  rw [hwf]
  omega

/-- Inside the cropped bounds `GetCvPixel` reads the cell at the linear offset. -/
theorem GetCvPixel_of_inside (f : CvFilm) (hwf : f.WellFormed) (p : Point2i)
    (hp : InsideExclusive p f.croppedPixelBounds = true) :
    f.GetCvPixel p = f.cvPixels[(f.croppedPixelBounds.offset p).toNat]? ∧
      (f.GetCvPixel p).isSome = true := by
  obtain ⟨h0, h1⟩ := film_offset_lt f hwf p hp
  have e : f.GetCvPixel p = f.cvPixels[(f.croppedPixelBounds.offset p).toNat]? := by
    unfold CvFilm.GetCvPixel
    rw [if_pos hp]
    exact arrayGet_of_nonneg _ _ h0
  refine ⟨e, ?_⟩
  rw [e, List.getElem?_eq_getElem h1]
  rfl

/-- The two statements of the merge loop commute with each other for any two tile
records. -/
theorem mergeRecord_comm (a b x : CvDualPixel) :
    CvFilm.mergeRecord a (CvFilm.mergeRecord b x) =
      CvFilm.mergeRecord b (CvFilm.mergeRecord a x) := by
  ext <;> simp only [CvFilm.mergeRecord, CvDualPixel.AddPixel] <;> ring

/-- One pass of the merge loop, for a pixel inside both the tile and the frame. -/
theorem mergeAt_eq (tile : CvFilmTile)
    (hlen : tile.pixels.length = (max 0 tile.pixelBounds.Area).toNat) (f0 : CvFilm)
    (hwf : f0.WellFormed) (px : List CvDualPixel) (hpx : px.length = f0.cvPixels.length)
    (p : Point2i) (hpt : InsideExclusive p tile.pixelBounds = true)
    (hpf : InsideExclusive p f0.croppedPixelBounds = true) :
    CvFilm.mergeAt tile { f0 with cvPixels := px } p =
      some { f0 with
        cvPixels := px.modify (CvFilm.mergeRecord (tile.pixelAt p))
                      (f0.croppedPixelBounds.offset p).toNat } := by
  obtain ⟨h0, h1⟩ := film_offset_lt f0 hwf p hpf
  rw [← hpx] at h1
  have hb := get_bind_set px (f0.croppedPixelBounds.offset p)
    (CvFilm.mergeRecord (tile.pixelAt p)) h0 h1
  have hsome := (GetPixel_of_inside tile hlen p hpt).2
  unfold CvFilm.mergeAt
  cases ht : tile.GetPixel p with
  | none => rw [ht] at hsome; simp at hsome
  | some tp =>
    have hat : tile.pixelAt p = tp := by simp [CvFilmTile.pixelAt, ht]
    rw [hat] at hb
    simp only [Option.bind_eq_bind, Option.some_bind, CvFilm.GetCvPixel, CvFilm.setCvPixel,
      hpf, if_true]
    have e : ({ f0 with cvPixels := px } : CvFilm).pixelOffset p =
        f0.croppedPixelBounds.offset p := rfl
    rw [e]
    cases hg : arrayGet px (f0.croppedPixelBounds.offset p) with
    | none => rw [hg] at hb; simp at hb
    | some v =>
      rw [hg] at hb
      simp only [Option.some_bind] at hb ⊢
      rw [hb, hat]
      rfl

theorem foldlM_mergeAt (tile : CvFilmTile)
    (hlen : tile.pixels.length = (max 0 tile.pixelBounds.Area).toNat) (f0 : CvFilm)
    (hwf : f0.WellFormed) :
    ∀ (l : List Point2i) (px : List CvDualPixel), px.length = f0.cvPixels.length →
      (∀ p ∈ l, InsideExclusive p tile.pixelBounds = true ∧
        InsideExclusive p f0.croppedPixelBounds = true) →
      l.foldlM (CvFilm.mergeAt tile) { f0 with cvPixels := px } =
        some { f0 with
          cvPixels := l.foldl (fun px p => px.modify (CvFilm.mergeRecord (tile.pixelAt p))
                        (f0.croppedPixelBounds.offset p).toNat) px }
  | [], _, _, _ => rfl
  | p :: l, px, hpx, hin => by
    obtain ⟨hpt, hpf⟩ := hin p (List.mem_cons_self _ _)
    rw [List.foldlM_cons, mergeAt_eq tile hlen f0 hwf px hpx p hpt hpf]
    simp only [Option.bind_eq_bind, Option.some_bind]
    rw [foldlM_mergeAt tile hlen f0 hwf l _ (by rw [List.length_modify]; exact hpx)
      (fun q hq => hin q (List.mem_cons_of_mem _ hq))]
    rfl

/-- For a tile whose pixel bounds lie inside the cropped bounds `MergeFilmTile` returns,
and its result is `mergeTotal`. -/
theorem MergeFilmTile_eq (f : CvFilm) (hwf : f.WellFormed) (tile : CvFilmTile)
    (hlen : tile.pixels.length = (max 0 tile.pixelBounds.Area).toNat)
    (hin : tile.pixelBounds.Within f.croppedPixelBounds) :
    f.MergeFilmTile tile = some (f.mergeTotal tile) := by
  unfold CvFilm.MergeFilmTile
  exact foldlM_mergeAt tile hlen f hwf tile.pixelBounds.points f.cvPixels rfl
    (fun p hp => ⟨(mem_points _ p).1 hp,
      insideExclusive_of_within hin p ((mem_points _ p).1 hp)⟩)

theorem mergeTotal_wellFormed (f : CvFilm) (hwf : f.WellFormed) (tile : CvFilmTile) :
    (f.mergeTotal tile).WellFormed := by
  unfold CvFilm.WellFormed CvFilm.mergeTotal
  simp only [length_foldl_modify]
  exact hwf

/-- Merging two tiles in either order gives the same frame. -/
theorem mergeTotal_comm (f : CvFilm) (t1 t2 : CvFilmTile) :
    (f.mergeTotal t1).mergeTotal t2 = (f.mergeTotal t2).mergeTotal t1 := by
  unfold CvFilm.mergeTotal
  simp only
  congr 1
  exact foldl_modify_comm (fun p => CvFilm.mergeRecord (t2.pixelAt p))
    (fun p => (f.croppedPixelBounds.offset p).toNat)
    (fun q => CvFilm.mergeRecord (t1.pixelAt q))
    (fun q => (f.croppedPixelBounds.offset q).toNat)
    (fun p q x => mergeRecord_comm (t2.pixelAt p) (t1.pixelAt q) x)
    t2.pixelBounds.points t1.pixelBounds.points f.cvPixels

theorem mergeAll_eq :
    ∀ (tiles : List CvFilmTile) (f : CvFilm), f.WellFormed →
      (∀ t ∈ tiles, t.pixels.length = (max 0 t.pixelBounds.Area).toNat ∧
        t.pixelBounds.Within f.croppedPixelBounds) →
      f.mergeAll tiles = some (tiles.foldl CvFilm.mergeTotal f)
  | [], _, _, _ => rfl
  | t :: tiles, f, hwf, h => by
    obtain ⟨hl, hw⟩ := h t (List.mem_cons_self _ _)
    unfold CvFilm.mergeAll
    rw [List.foldlM_cons, MergeFilmTile_eq f hwf t hl hw]
    simp only [Option.bind_eq_bind, Option.some_bind, List.foldl_cons]
    exact mergeAll_eq tiles (f.mergeTotal t) (mergeTotal_wellFormed f hwf t)
      (fun t' ht' => h t' (List.mem_cons_of_mem _ ht'))

theorem new_wellFormed (b : Bounds2i) (r : Vector2f) (tbl : List ℚ) (w : Int) (sc : ℚ) :
    (CvFilm.new b r tbl w sc).WellFormed := by
  simp [CvFilm.WellFormed, CvFilm.new]

/-- After a merge a frame pixel inside the tile's bounds holds `mergeRecord` of the tile's
record and its old record. -/
theorem MergeFilmTile_GetCvPixel_inside (f f' : CvFilm) (hwf : f.WellFormed)
    (tile : CvFilmTile) (hlen : tile.pixels.length = (max 0 tile.pixelBounds.Area).toNat)
    (hin : tile.pixelBounds.Within f.croppedPixelBounds)
    (h : f.MergeFilmTile tile = some f') (p : Point2i)
    (hp : InsideExclusive p tile.pixelBounds = true) :
    f'.GetCvPixel p = (f.GetCvPixel p).map (CvFilm.mergeRecord (tile.pixelAt p)) := by
  rw [MergeFilmTile_eq f hwf tile hlen hin] at h
  have hf' := (Option.some.inj h).symm
  subst hf'
  have hpf := insideExclusive_of_within hin p hp
  rw [(GetCvPixel_of_inside f hwf p hpf).1,
    (GetCvPixel_of_inside (f.mergeTotal tile) (mergeTotal_wellFormed f hwf tile) p hpf).1]
  refine getElem?_foldl_modify_of_mem
    (fun p x => CvFilm.mergeRecord (tile.pixelAt p) x)
    (fun p => (f.croppedPixelBounds.offset p).toNat) tile.pixelBounds.points f.cvPixels ?_ p
    ((mem_points _ p).2 hp)
  refine List.Nodup.map_on ?_ (points_nodup _)
  intro a ha b hb hab
  exact offset_injective f.croppedPixelBounds a b
    (insideExclusive_of_within hin a ((mem_points _ a).1 ha))
    (insideExclusive_of_within hin b ((mem_points _ b).1 hb)) hab

/-! ## Filter-weight conservation -/

/-- C6: on a tile as its constructor leaves it (pixel array of `max(0, Area)` records,
filter table of `filterTableSize^2 >= 1` entries), for every film position, sample and
sample weight: after a call of `AddSample` that returns, the sum of `filterWeightSum` over
all tile pixels has grown by the sum of the filter-table weights looked up over the clamped
footprint, and every footprint pixel's `filterWeightSum` has grown by its own looked-up
weight; the call with weight 1 does return whenever the clamped filter support is not
inverted (the counts of the two `ALLOCA` calls are not negative), and no call returns when
it is inverted. -/
theorem AddSample_filterWeight_conservation (t : CvFilmTile) (hwf : t.WellFormed)
    (pFilm : Point2f) (splat : CvDualPixel) :
    (∀ (sampleWeight : ℚ) (t' : CvFilmTile),
      t.AddSample pFilm splat sampleWeight = some t' →
      weightTotal t'.pixels =
        weightTotal t.pixels + ((t.footprint pFilm).map (t.filterWeight pFilm)).sum ∧
      ∀ p ∈ t.footprint pFilm,
        arrayGet t.filterTable (t.filterOffset pFilm p) = some (t.filterWeight pFilm p) ∧
        ∃ old new, t.GetPixel p = some old ∧ t'.GetPixel p = some new ∧
          new.filterWeightSum = old.filterWeightSum + t.filterWeight pFilm p) ∧
    (t.SupportOk pFilm → ∃ t', t.AddSample pFilm splat 1 = some t') ∧
    (¬ t.SupportOk pFilm → ∀ sampleWeight : ℚ, t.AddSample pFilm splat sampleWeight = none) := by
  refine ⟨?_, fun hsup => ⟨_, AddSample_eq t hwf pFilm hsup splat⟩,
    fun hinv w => AddSample_inverted t pFilm splat w hinv⟩
  intro sampleWeight t' hret
  obtain ⟨hw, hsup⟩ := AddSample_of_some t t' pFilm splat sampleWeight hret
  subst hw
  have ht' : t' = { t with pixels := t.splatPixels pFilm splat (t.footprint pFilm) t.pixels } := by
    rw [AddSample_eq t hwf pFilm hsup splat] at hret
    exact (Option.some.inj hret).symm
  constructor
  · rw [ht']
    exact sum_map_foldl_modify CvDualPixel.filterWeightSum
      (fun p x => x.AddPixel splat (t.filterWeight pFilm p))
      (fun p => (t.pixelBounds.offset p).toNat) (t.filterWeight pFilm) (fun _ _ => rfl)
      (t.footprint pFilm) t.pixels
      (fun p hp => (tile_offset_lt t hwf.1 p (mem_footprint_inside t pFilm p hp)).2)
  · intro p hp
    refine ⟨filterTable_lookup t hwf pFilm p, ?_⟩
    have hin := mem_footprint_inside t pFilm p hp
    have hnew := AddSample_GetPixel_footprint t t' hwf pFilm splat hret p hp
    cases hold : t.GetPixel p with
    | none =>
      have := (GetPixel_of_inside t hwf.1 p hin).2
      rw [hold] at this
      simp at this
    | some old =>
      rw [hold] at hnew
      exact ⟨old, _, rfl, hnew, rfl⟩

/-- C6 (witness): the statement at a fresh 3 by 2 tile: at the film position (1/2, 1/2)
the call returns; at the film position (-100000.5, 0.5) the clamped support is inverted
(`p0.x = 0`, `p1.x = -99999`) and the call does not return. -/
theorem AddSample_filterWeight_conservation_witness :
    exampleTile.WellFormed ∧ exampleTile.SupportOk ⟨1 / 2, 1 / 2⟩ ∧
    ((exampleTile.sampleP0 ⟨-200001 / 2, 1 / 2⟩).x, (exampleTile.sampleP1 ⟨-200001 / 2, 1 / 2⟩).x) =
      (0, -99999) ∧
    exampleTile.AddSample ⟨-200001 / 2, 1 / 2⟩ exampleSplat 1 = none ∧
    ∃ t', exampleTile.AddSample ⟨1 / 2, 1 / 2⟩ exampleSplat 1 = some t' ∧
      weightTotal t'.pixels =
        weightTotal exampleTile.pixels +
          ((exampleTile.footprint ⟨1 / 2, 1 / 2⟩).map
            (exampleTile.filterWeight ⟨1 / 2, 1 / 2⟩)).sum ∧
      ∀ p ∈ exampleTile.footprint ⟨1 / 2, 1 / 2⟩,
        arrayGet exampleTile.filterTable (exampleTile.filterOffset ⟨1 / 2, 1 / 2⟩ p) =
          some (exampleTile.filterWeight ⟨1 / 2, 1 / 2⟩ p) ∧
        ∃ old new, exampleTile.GetPixel p = some old ∧ t'.GetPixel p = some new ∧
          new.filterWeightSum = old.filterWeightSum + exampleTile.filterWeight ⟨1 / 2, 1 / 2⟩ p :=
  have hwf : exampleTile.WellFormed := by
    unfold CvFilmTile.WellFormed exampleTile CvFilmTile.new Bounds2i.Area
    simp
  have hsup : exampleTile.SupportOk ⟨1 / 2, 1 / 2⟩ := by decide!
  have h := AddSample_filterWeight_conservation exampleTile hwf ⟨1 / 2, 1 / 2⟩ exampleSplat
  have hfar := (AddSample_filterWeight_conservation exampleTile hwf ⟨-200001 / 2, 1 / 2⟩
    exampleSplat).2.2 (by decide!) 1
  let ⟨t', ht'⟩ := h.2.1 hsup
  ⟨hwf, hsup, by decide!, hfar, t', ht', h.1 1 t' ht'⟩

/-! ## Merging tiles into the frame -/

/-- C1 (evaluation at the failing input): merging the one-pixel tile whose record has
`filterWeightSum = 1` into the fresh one-pixel frame (`filterWeightSum = 0`) leaves the
frame pixel with `filterWeightSum = 2`, not 1: `AddPixel` with its default weight adds 1
before the tile's `filterWeightSum` is added. The seven weighted sums are the tile's. -/
theorem MergeFilmTile_filterWeightSum_evaluated :
    ∃ f', exampleFilm.MergeFilmTile splattedTile = some f' ∧
      (exampleFilm.GetCvPixel ⟨0, 0⟩).map CvDualPixel.filterWeightSum = some 0 ∧
      (splattedTile.GetPixel ⟨0, 0⟩).map CvDualPixel.filterWeightSum = some 1 ∧
      (f'.GetCvPixel ⟨0, 0⟩).map CvDualPixel.filterWeightSum = some 2 ∧
      (f'.GetCvPixel ⟨0, 0⟩).map CvDualPixel.L1 =
        (splattedTile.GetPixel ⟨0, 0⟩).map CvDualPixel.L1 := by
  have hwf : exampleFilm.WellFormed := new_wellFormed _ _ _ _ _
  have hlen : splattedTile.pixels.length = (max 0 splattedTile.pixelBounds.Area).toNat := by
    simp [splattedTile, CvFilmTile.new, Bounds2i.Area]
  have hin : splattedTile.pixelBounds.Within exampleFilm.croppedPixelBounds := by
    simp [Bounds2i.Within, splattedTile, exampleFilm, CvFilmTile.new, CvFilm.new]
  have hp : InsideExclusive ⟨0, 0⟩ splattedTile.pixelBounds = true := by
    simp [InsideExclusive, splattedTile, CvFilmTile.new]
  have hm := MergeFilmTile_eq exampleFilm hwf splattedTile hlen hin
  have hg := MergeFilmTile_GetCvPixel_inside exampleFilm _ hwf splattedTile hlen hin hm ⟨0, 0⟩ hp
  have h0 : exampleFilm.GetCvPixel ⟨0, 0⟩ = some CvDualPixel.SetZero := by
    simp [CvFilm.GetCvPixel, InsideExclusive, exampleFilm, CvFilm.new, CvFilm.pixelOffset,
      arrayGet, Bounds2i.Area]
  have ht : splattedTile.GetPixel ⟨0, 0⟩ =
      some (CvDualPixel.SetZero.AddPixel exampleSplat 1) := by
    simp [CvFilmTile.GetPixel, InsideExclusive, splattedTile, CvFilmTile.new,
      CvFilmTile.pixelOffset, arrayGet]
  refine ⟨_, hm, ?_, ?_, ?_, ?_⟩
  · rw [h0]; rfl
  · rw [ht]; simp [CvDualPixel.AddPixel, CvDualPixel.SetZero]
  · rw [hg, h0]
    simp only [CvFilmTile.pixelAt, ht, Option.getD_some, Option.map_some']
    norm_num [CvFilm.mergeRecord, CvDualPixel.AddPixel, CvDualPixel.SetZero]
  · rw [hg, h0, ht]
    simp only [CvFilmTile.pixelAt, ht, Option.getD_some, Option.map_some']
    congr 1
    funext i
    simp [CvFilm.mergeRecord, CvDualPixel.AddPixel, CvDualPixel.SetZero, Spectrum.const]

/-- C7: for a fresh all-zero frame over any cropped bounds and any list of tile buffers
whose pixel arrays have the size their constructor gives them and whose pixel bounds lie
inside the cropped bounds (overlapping or not), merging the tiles in the given order and
in any permuted order both return, and return the same frame. -/
theorem MergeFilmTile_order_independent (b : Bounds2i) (r : Vector2f) (tbl : List ℚ)
    (w : Int) (sc : ℚ) (tiles tiles' : List CvFilmTile) (hperm : tiles.Perm tiles')
    (htiles : ∀ t ∈ tiles, t.pixels.length = (max 0 t.pixelBounds.Area).toNat ∧
      t.pixelBounds.Within b) :
    ∃ f', (CvFilm.new b r tbl w sc).mergeAll tiles = some f' ∧
      (CvFilm.new b r tbl w sc).mergeAll tiles' = some f' := by
  have hwf := new_wellFormed b r tbl w sc
  have h1 := mergeAll_eq tiles (CvFilm.new b r tbl w sc) hwf htiles
  have h2 := mergeAll_eq tiles' (CvFilm.new b r tbl w sc) hwf
    (fun t ht => htiles t (hperm.mem_iff.2 ht))
  refine ⟨_, h1, ?_⟩
  rw [h2]
  congr 1
  exact (hperm.foldl_eq' (fun x _ y _ z => mergeTotal_comm z x y) _).symm

/-- C7 (witness): two overlapping tiles over a fresh 2 by 1 frame, merged in both
orders. -/
theorem MergeFilmTile_order_independent_witness :
    [tileA, tileB].Perm [tileB, tileA] ∧
    (∀ t ∈ [tileA, tileB], t.pixels.length = (max 0 t.pixelBounds.Area).toNat ∧
      t.pixelBounds.Within ⟨⟨0, 0⟩, ⟨2, 1⟩⟩) ∧
    ∃ f', (CvFilm.new ⟨⟨0, 0⟩, ⟨2, 1⟩⟩ ⟨1, 1⟩ [1] 1 1).mergeAll [tileA, tileB] = some f' ∧
      (CvFilm.new ⟨⟨0, 0⟩, ⟨2, 1⟩⟩ ⟨1, 1⟩ [1] 1 1).mergeAll [tileB, tileA] = some f' :=
  have hperm : [tileA, tileB].Perm [tileB, tileA] := List.Perm.swap tileB tileA []
  have htiles : ∀ t ∈ [tileA, tileB], t.pixels.length = (max 0 t.pixelBounds.Area).toNat ∧
      t.pixelBounds.Within ⟨⟨0, 0⟩, ⟨2, 1⟩⟩ := by
    intro t ht
    simp only [List.mem_cons, List.mem_singleton, List.not_mem_nil, or_false] at ht
    rcases ht with rfl | rfl <;>
      simp [tileA, tileB, CvFilmTile.new, Bounds2i.Area, Bounds2i.Within]
  ⟨hperm, htiles,
    MergeFilmTile_order_independent ⟨⟨0, 0⟩, ⟨2, 1⟩⟩ ⟨1, 1⟩ [1] 1 1 _ _ hperm htiles⟩

/-! ## The tile grid of `Render` -/

/-- C8: for sample bounds with non-negative extent and `nTiles = ceil(extent / 16)` per
axis, every tile index `0 <= tx < nTiles.x`, `0 <= ty < nTiles.y` gets the rectangle
`[x0, min(x0+16, pMax.x)) x [y0, min(y0+16, pMax.y))`, which is non-empty, at most 16 wide
and high and inside the sample bounds; and every pixel of the sample bounds lies in the
rectangle of exactly one tile index. -/
theorem tileBounds_partition (sb : Bounds2i) (hx : sb.pMin.x ≤ sb.pMax.x)
    (hy : sb.pMin.y ≤ sb.pMax.y) :
    (16 * ((CvPathIntegrator.nTiles sb).x - 1) < sb.pMax.x - sb.pMin.x ∧
      sb.pMax.x - sb.pMin.x ≤ 16 * (CvPathIntegrator.nTiles sb).x ∧
      16 * ((CvPathIntegrator.nTiles sb).y - 1) < sb.pMax.y - sb.pMin.y ∧
      sb.pMax.y - sb.pMin.y ≤ 16 * (CvPathIntegrator.nTiles sb).y) ∧
    (∀ tile : Point2i, 0 ≤ tile.x → tile.x < (CvPathIntegrator.nTiles sb).x →
      0 ≤ tile.y → tile.y < (CvPathIntegrator.nTiles sb).y →
      (CvPathIntegrator.tileBounds sb tile).pMin =
        ⟨sb.pMin.x + tile.x * 16, sb.pMin.y + tile.y * 16⟩ ∧
      (CvPathIntegrator.tileBounds sb tile).pMax =
        ⟨min (sb.pMin.x + tile.x * 16 + 16) sb.pMax.x,
         min (sb.pMin.y + tile.y * 16 + 16) sb.pMax.y⟩ ∧
      (CvPathIntegrator.tileBounds sb tile).pMin.x < (CvPathIntegrator.tileBounds sb tile).pMax.x ∧
      (CvPathIntegrator.tileBounds sb tile).pMin.y < (CvPathIntegrator.tileBounds sb tile).pMax.y ∧
      (CvPathIntegrator.tileBounds sb tile).pMax.x - (CvPathIntegrator.tileBounds sb tile).pMin.x
        ≤ 16 ∧
      (CvPathIntegrator.tileBounds sb tile).pMax.y - (CvPathIntegrator.tileBounds sb tile).pMin.y
        ≤ 16 ∧
      (CvPathIntegrator.tileBounds sb tile).Within sb) ∧
    (∀ p : Point2i, InsideExclusive p sb = true →
      ∃! tile : Point2i, (0 ≤ tile.x ∧ tile.x < (CvPathIntegrator.nTiles sb).x ∧
        0 ≤ tile.y ∧ tile.y < (CvPathIntegrator.nTiles sb).y) ∧
        InsideExclusive p (CvPathIntegrator.tileBounds sb tile) = true) := by
  have hnx : (CvPathIntegrator.nTiles sb).x = (sb.pMax.x - sb.pMin.x + 16 - 1) / 16 := by
    simp only [CvPathIntegrator.nTiles, CvPathIntegrator.tileSize, Bounds2i.Diagonal]
    exact Int.tdiv_eq_ediv (by omega) (by omega)
  have hny : (CvPathIntegrator.nTiles sb).y = (sb.pMax.y - sb.pMin.y + 16 - 1) / 16 := by
    simp only [CvPathIntegrator.nTiles, CvPathIntegrator.tileSize, Bounds2i.Diagonal]
    exact Int.tdiv_eq_ediv (by omega) (by omega)
  rw [hnx, hny]
  refine ⟨by omega, ?_, ?_⟩
  · intro tile h1 h2 h3 h4
    simp only [CvPathIntegrator.tileBounds, CvPathIntegrator.tileSize, Bounds2i.new,
      Bounds2i.Within, Point2i.mk.injEq]
    omega
  · intro p hp
    rw [insideExclusive_iff] at hp
    refine ⟨⟨(p.x - sb.pMin.x) / 16, (p.y - sb.pMin.y) / 16⟩, ⟨by simp only; omega, ?_⟩, ?_⟩
    · rw [insideExclusive_iff]
      simp only [CvPathIntegrator.tileBounds, CvPathIntegrator.tileSize, Bounds2i.new]
      omega
    · rintro ⟨tx, ty⟩ ⟨hidx, hin⟩
      rw [insideExclusive_iff] at hin
      simp only [CvPathIntegrator.tileBounds, CvPathIntegrator.tileSize, Bounds2i.new] at hin
      simp only at hidx
      simp only [Point2i.mk.injEq]
      omega

/-- C8 (witness): the statement for the 33 by 17 sample bounds `[0,33) x [0,17)`. -/
theorem tileBounds_partition_witness :
    ((0 : Int) ≤ 33 ∧ (0 : Int) ≤ 17) ∧
    (∀ p : Point2i, InsideExclusive p ⟨⟨0, 0⟩, ⟨33, 17⟩⟩ = true →
      ∃! tile : Point2i,
        (0 ≤ tile.x ∧ tile.x < (CvPathIntegrator.nTiles ⟨⟨0, 0⟩, ⟨33, 17⟩⟩).x ∧
        0 ≤ tile.y ∧ tile.y < (CvPathIntegrator.nTiles ⟨⟨0, 0⟩, ⟨33, 17⟩⟩).y) ∧
        InsideExclusive p (CvPathIntegrator.tileBounds ⟨⟨0, 0⟩, ⟨33, 17⟩⟩ tile) = true) :=
  ⟨⟨by decide, by decide⟩,
    (tileBounds_partition ⟨⟨0, 0⟩, ⟨33, 17⟩⟩ (by decide) (by decide)).2.2⟩

/-! ## The estimator at `maxDepth = 0` -/

/-- The loop over the infinite lights adds their summed emission, weighted by the two
throughputs, and changes nothing else. -/
theorem foldl_addLe (lights : List (Ray → Spectrum)) :
    ∀ s : PathState,
      lights.foldl (fun s light => CvPathIntegrator.addLe s (light s.ray)) s =
        { s with
          L1 := fun i => s.L1 i + s.betas 0 i * (lights.map (fun light => light s.ray)).sum i
          L2 := fun i => s.L2 i + s.betas 1 i * (lights.map (fun light => light s.ray)).sum i } := by
  induction lights with
  | nil => intro s; simp
  | cons l lights ih =>
    intro s
    rw [List.foldl_cons, ih]
    simp only [CvPathIntegrator.addLe, List.map_cons, List.sum_cons, Pi.add_apply]
    congr 1 <;> funext i <;> ring

/-- With `maxDepth = 0` the first pass through the loop body ends in a `break`, with both
accumulators equal to the direct emission and everything else as at loop entry. -/
theorem iteration_maxDepth_zero (rrThreshold : ℚ) (r : Ray) (scene : Scene) (sampler : Sampler)
    (materialId : Int) :
    CvPathIntegrator.iteration 0 rrThreshold scene
        (CvPathIntegrator.initialState r sampler materialId) =
      LoopStep.exit { CvPathIntegrator.initialState r sampler materialId with
        L1 := directEmission scene r
        L2 := directEmission scene r } := by
  unfold CvPathIntegrator.iteration directEmission
  cases hI : scene.Intersect (CvPathIntegrator.initialState r sampler materialId).ray with
  | none =>
    have hI' : scene.Intersect r = none := hI
    simp only [hI']
    rw [foldl_addLe]
    congr 2 <;> funext i <;>
      simp [CvPathIntegrator.initialState, Spectrum.const]
  | some isect =>
    have hI' : scene.Intersect r = some isect := hI
    simp only [hI']
    by_cases hb : (isect.Le (-r.d)).IsBlack = true
    · have hz : isect.Le (-r.d) = Spectrum.const 0 := by
        simp only [Spectrum.IsBlack, decide_eq_true_eq] at hb
        funext i
        fin_cases i
        · exact hb.1
        · exact hb.2.1
        · exact hb.2.2
      have hray : (CvPathIntegrator.initialState r sampler materialId).ray.d = r.d := rfl
      simp only [hray, hb, Bool.not_true, Bool.false_eq_true, if_false]
      rw [if_pos (by simp [CvPathIntegrator.initialState])]
      rw [hz]
      rfl
    · have hray : (CvPathIntegrator.initialState r sampler materialId).ray.d = r.d := rfl
      simp only [hray, hb, Bool.not_false, if_true]
      simp [CvPathIntegrator.addLe, CvPathIntegrator.initialState, Spectrum.const]

/-- C9: with `maxDepth = 0`, for every scene, ray, sampler, Russian-roulette threshold and
material id at the call, `LiControlVariate` returns after the first pass through the loop
(any positive bound on the passes is enough); it has drawn no sampler value, has not called
`ComputeScatteringFunctions` and has counted no bounce; and the record returned is
`CvDualPixel(Le, Le, 1)` with `Le` the emission of the surface hit (zero when it does not
emit) or the summed emission of the infinite lights when the ray escapes, so that primary
and secondary coincide and the reciprocal pdf is 1. -/
theorem LiControlVariate_maxDepth_zero (rrThreshold : ℚ) (fuel : Nat) (r : Ray) (scene : Scene)
    (sampler : Sampler) (materialId : Int) :
    ∃ final : PathState,
      CvPathIntegrator.LiControlVariate 0 rrThreshold (fuel + 1) r scene sampler materialId =
        some (PathResult.returned
          (CvDualPixel.new (directEmission scene r) (directEmission scene r) 1) final) ∧
      final.sampler = sampler ∧ final.nScattering = 0 ∧ final.bounces = 0 ∧
      (CvDualPixel.new (directEmission scene r) (directEmission scene r) 1).L1 =
        (CvDualPixel.new (directEmission scene r) (directEmission scene r) 1).L2 ∧
      (CvDualPixel.new (directEmission scene r) (directEmission scene r) 1).reciprocal_pdf = 1 ∧
      (∀ isect, scene.Intersect r = some isect →
        directEmission scene r = isect.Le (-r.d)) ∧
      (scene.Intersect r = none →
        directEmission scene r = (scene.infiniteLights.map (fun light => light r)).sum) := by
  refine ⟨{ CvPathIntegrator.initialState r sampler materialId with
      L1 := directEmission scene r
      L2 := directEmission scene r }, ?_, rfl, rfl, rfl, rfl, rfl, ?_, ?_⟩
  · unfold CvPathIntegrator.LiControlVariate CvPathIntegrator.loop
    rw [iteration_maxDepth_zero]
    rfl
  · intro isect h
    simp [directEmission, h]
  · intro h
    simp [directEmission, h]

/-! ## Export: the first pass of `WriteImage` -/

theorem addChannels_apply (a : Nat → ℚ) (o : Nat) (ss : ℚ) (v : Spectrum) (w : ℚ) (n : Nat) :
    addChannels a o ss v w n =
      if n = 3 * o then a n + ss * v 0 * w
      else if n = 3 * o + 1 then a n + ss * v 1 * w
      else if n = 3 * o + 2 then a n + ss * v 2 * w
      else a n := by
  unfold addChannels addAt
  by_cases h0 : n = 3 * o
  · subst h0; simp [Function.update]
  · by_cases h1 : n = 3 * o + 1
    · subst h1; simp [Function.update]
    · by_cases h2 : n = 3 * o + 2
      · subst h2; simp [Function.update]
      · simp [Function.update, h0, h1, h2]

theorem scaleChannels_apply (a : Nat → ℚ) (o : Nat) (k : ℚ) (n : Nat) :
    scaleChannels a o k n =
      if n = 3 * o ∨ n = 3 * o + 1 ∨ n = 3 * o + 2 then a n * k else a n := by
  unfold scaleChannels mulAt
  by_cases h0 : n = 3 * o
  · subst h0; simp [Function.update]
  · by_cases h1 : n = 3 * o + 1
    · subst h1; simp [Function.update]
    · by_cases h2 : n = 3 * o + 2
      · subst h2; simp [Function.update]
      · simp [Function.update, h0, h1, h2]

/-- The value the loop body leaves in a scaled output array at the three indices of the
current pixel. -/
theorem write_at (a : Nat → ℚ) (o : Nat) (ss : ℚ) (v : Spectrum) (w k : ℚ) (c : Fin 3) :
    scaleChannels (addChannels a o ss v w) o k (3 * o + c.val) =
      (a (3 * o + c.val) + ss * v c * w) * k := by
  rw [scaleChannels_apply, addChannels_apply]
  fin_cases c <;> simp

/-- The loop body leaves every other index of a scaled output array alone. -/
theorem write_other (a : Nat → ℚ) (o : Nat) (ss : ℚ) (v : Spectrum) (w k : ℚ) (n : Nat)
    (h : n < 3 * o ∨ 3 * (o + 1) ≤ n) :
    scaleChannels (addChannels a o ss v w) o k n = a n := by
  rw [scaleChannels_apply, addChannels_apply]
  have h0 : n ≠ 3 * o := by omega
  have h1 : n ≠ 3 * o + 1 := by omega
  have h2 : n ≠ 3 * o + 2 := by omega
  simp [h0, h1, h2]

theorem add_at (a : Nat → ℚ) (o : Nat) (ss : ℚ) (v : Spectrum) (w : ℚ) (c : Fin 3) :
    addChannels a o ss v w (3 * o + c.val) = a (3 * o + c.val) + ss * v c * w := by
  rw [addChannels_apply]
  fin_cases c <;> simp

theorem add_other (a : Nat → ℚ) (o : Nat) (ss : ℚ) (v : Spectrum) (w : ℚ) (n : Nat)
    (h : n < 3 * o ∨ 3 * (o + 1) ≤ n) : addChannels a o ss v w n = a n := by
  rw [addChannels_apply]
  have h0 : n ≠ 3 * o := by omega
  have h1 : n ≠ 3 * o + 1 := by omega
  have h2 : n ≠ 3 * o + 2 := by omega
  simp [h0, h1, h2]

/-- The running index after the loop over a list of records. -/
theorem foldl_exportStep_offset (sc ss : ℚ) :
    ∀ (recs : List CvDualPixel) (s : ExportState),
      (recs.foldl (CvFilm.exportStep sc ss) s).offset = s.offset + recs.length
  | [], _ => rfl
  | px :: recs, s => by
    rw [List.foldl_cons, foldl_exportStep_offset sc ss recs]
    simp only [CvFilm.exportStep, List.length_cons]
    omega

/-- Output indices outside the range of the records still to be processed keep their
content: below the running index, and from the end of the range on. -/
theorem foldl_exportStep_other (sc ss : ℚ) (n : Nat) :
    ∀ (recs : List CvDualPixel) (s : ExportState),
      n < 3 * s.offset ∨ 3 * (s.offset + recs.length) ≤ n →
      (recs.foldl (CvFilm.exportStep sc ss) s).buf.rgb1 n = s.buf.rgb1 n ∧
      (recs.foldl (CvFilm.exportStep sc ss) s).buf.rgb1Squared n = s.buf.rgb1Squared n ∧
      (recs.foldl (CvFilm.exportStep sc ss) s).buf.rgb2 n = s.buf.rgb2 n ∧
      (recs.foldl (CvFilm.exportStep sc ss) s).buf.rgb2Squared n = s.buf.rgb2Squared n ∧
      (recs.foldl (CvFilm.exportStep sc ss) s).buf.diff n = s.buf.diff n ∧
      (recs.foldl (CvFilm.exportStep sc ss) s).buf.diffSquared n = s.buf.diffSquared n ∧
      (recs.foldl (CvFilm.exportStep sc ss) s).buf.recipPdfs n = s.buf.recipPdfs n
  | [], _, _ => ⟨rfl, rfl, rfl, rfl, rfl, rfl, rfl⟩
  | px :: recs, s, h => by
    rw [List.foldl_cons]
    have h' : n < 3 * (CvFilm.exportStep sc ss s px).offset ∨
        3 * ((CvFilm.exportStep sc ss s px).offset + recs.length) ≤ n := by
      simp only [CvFilm.exportStep, List.length_cons] at h ⊢
      omega
    have hn : n < 3 * s.offset ∨ 3 * (s.offset + 1) ≤ n := by
      simp only [List.length_cons] at h
      omega
    obtain ⟨i1, i2, i3, i4, i5, i6, i7⟩ := foldl_exportStep_other sc ss n recs _ h'
    rw [i1, i2, i3, i4, i5, i6, i7]
    simp only [CvFilm.exportStep, CvFilm.writePixel]
    exact ⟨write_other _ _ _ _ _ _ n hn, write_other _ _ _ _ _ _ n hn,
      write_other _ _ _ _ _ _ n hn, write_other _ _ _ _ _ _ n hn,
      write_other _ _ _ _ _ _ n hn, write_other _ _ _ _ _ _ n hn,
      add_other _ _ _ _ _ n hn⟩

/-- The content of the output arrays at the three indices of the `i`-th record after the
loop over a list of records. -/
theorem foldl_exportStep_at (sc ss : ℚ) (c : Fin 3) :
    ∀ (recs : List CvDualPixel) (s : ExportState) (i : Nat) (px : CvDualPixel),
      recs[i]? = some px →
      (recs.foldl (CvFilm.exportStep sc ss) s).buf.rgb1 (3 * (s.offset + i) + c.val) =
        (s.buf.rgb1 (3 * (s.offset + i) + c.val) + ss * px.L1 c * CvFilm.invWt px) * sc ∧
      (recs.foldl (CvFilm.exportStep sc ss) s).buf.rgb1Squared (3 * (s.offset + i) + c.val) =
        (s.buf.rgb1Squared (3 * (s.offset + i) + c.val) +
          ss * px.L1square c * CvFilm.invWt px) * (sc * sc) ∧
      (recs.foldl (CvFilm.exportStep sc ss) s).buf.rgb2 (3 * (s.offset + i) + c.val) =
        (s.buf.rgb2 (3 * (s.offset + i) + c.val) + ss * px.L2 c * CvFilm.invWt px) * sc ∧
      (recs.foldl (CvFilm.exportStep sc ss) s).buf.rgb2Squared (3 * (s.offset + i) + c.val) =
        (s.buf.rgb2Squared (3 * (s.offset + i) + c.val) +
          ss * px.L2square c * CvFilm.invWt px) * (sc * sc) ∧
      (recs.foldl (CvFilm.exportStep sc ss) s).buf.diff (3 * (s.offset + i) + c.val) =
        (s.buf.diff (3 * (s.offset + i) + c.val) + ss * px.D c * CvFilm.invWt px) * sc ∧
      (recs.foldl (CvFilm.exportStep sc ss) s).buf.diffSquared (3 * (s.offset + i) + c.val) =
        (s.buf.diffSquared (3 * (s.offset + i) + c.val) +
          ss * px.Dsquare c * CvFilm.invWt px) * (sc * sc) ∧
      (recs.foldl (CvFilm.exportStep sc ss) s).buf.recipPdfs (3 * (s.offset + i) + c.val) =
        s.buf.recipPdfs (3 * (s.offset + i) + c.val) +
          ss * px.reciprocal_pdf * CvFilm.invWt px
  | [], _, _, _, h => by simp at h
  | q :: recs, s, 0, px, h => by
    simp only [List.getElem?_cons_zero, Option.some.injEq] at h
    subst h
    rw [List.foldl_cons]
    have hc := c.isLt
    obtain ⟨i1, i2, i3, i4, i5, i6, i7⟩ := foldl_exportStep_other sc ss
      (3 * (s.offset + 0) + c.val) recs (CvFilm.exportStep sc ss s q)
      (Or.inl (by simp only [CvFilm.exportStep]; omega))
    rw [i1, i2, i3, i4, i5, i6, i7]
    simp only [CvFilm.exportStep, CvFilm.writePixel, Nat.add_zero]
    exact ⟨write_at _ _ _ _ _ _ c, write_at _ _ _ _ _ _ c, write_at _ _ _ _ _ _ c,
      write_at _ _ _ _ _ _ c, write_at _ _ _ _ _ _ c, write_at _ _ _ _ _ _ c,
      add_at _ _ _ _ _ c⟩
  | q :: recs, s, i + 1, px, h => by
    simp only [List.getElem?_cons_succ] at h
    rw [List.foldl_cons]
    have hc := c.isLt
    have e : 3 * (s.offset + (i + 1)) + c.val =
        3 * ((CvFilm.exportStep sc ss s q).offset + i) + c.val := by
      simp only [CvFilm.exportStep]
      omega
    rw [e]
    obtain ⟨i1, i2, i3, i4, i5, i6, i7⟩ :=
      foldl_exportStep_at sc ss c recs (CvFilm.exportStep sc ss s q) i px h
    rw [i1, i2, i3, i4, i5, i6, i7]
    have hn : 3 * ((CvFilm.exportStep sc ss s q).offset + i) + c.val < 3 * s.offset ∨
        3 * (s.offset + 1) ≤ 3 * ((CvFilm.exportStep sc ss s q).offset + i) + c.val := by
      simp only [CvFilm.exportStep]
      omega
    simp only [CvFilm.exportStep, CvFilm.writePixel] at hn ⊢
    rw [write_other _ _ _ _ _ _ _ hn, write_other _ _ _ _ _ _ _ hn,
      write_other _ _ _ _ _ _ _ hn, write_other _ _ _ _ _ _ _ hn,
      write_other _ _ _ _ _ _ _ hn, write_other _ _ _ _ _ _ _ hn, add_other _ _ _ _ _ _ hn]
    exact ⟨rfl, rfl, rfl, rfl, rfl, rfl, rfl⟩

/-- With a zero `recipPdfs` array from the running index on, the loop adds the normalised
reciprocal pdf of every record to `avgRecipPdf`. -/
theorem foldl_exportStep_avg (sc ss : ℚ) :
    ∀ (recs : List CvDualPixel) (s : ExportState),
      (∀ n, 3 * s.offset ≤ n → s.buf.recipPdfs n = 0) →
      (recs.foldl (CvFilm.exportStep sc ss) s).avgRecipPdf =
        s.avgRecipPdf +
          (recs.map (fun px => ss * px.reciprocal_pdf * CvFilm.invWt px)).sum
  | [], _, _ => by simp
  | px :: recs, s, h => by
    rw [List.foldl_cons, foldl_exportStep_avg sc ss recs]
    · have e := add_at s.buf.recipPdfs s.offset ss (Spectrum.const px.reciprocal_pdf)
        (CvFilm.invWt px) 0
      simp only [Fin.val_zero, Nat.add_zero] at e
      simp only [CvFilm.exportStep, CvFilm.writePixel, List.map_cons, List.sum_cons]
      rw [e, h _ (le_refl _)]
      simp only [Spectrum.const]
      ring
    · intro n hn
      simp only [CvFilm.exportStep, CvFilm.writePixel] at hn ⊢
      rw [add_other _ _ _ _ _ n (Or.inr hn)]
      exact h n (by omega)

/-- The pixel at position `offset p` of the enumeration of a rectangle is `p`. -/
theorem points_getElem?_offset (b : Bounds2i) (p : Point2i)
    (hp : InsideExclusive p b = true) : b.points[(b.offset p).toNat]? = some p := by
  obtain ⟨j, hj, hpj⟩ := List.getElem_of_mem ((mem_points b p).2 hp)
  have h1 : (b.points.map (fun p => (b.offset p).toNat))[j]? = some (b.offset p).toNat := by
    rw [List.getElem?_map, List.getElem?_eq_getElem hj, hpj]
    rfl
  rw [points_map_offset] at h1
  have hj' : j < (b.pMax.y - b.pMin.y).toNat * (b.pMax.x - b.pMin.x).toNat := by
    rw [← points_length]; exact hj
  rw [List.getElem?_range hj'] at h1
  have h2 : (b.offset p).toNat = j := (Option.some.inj h1).symm
  rw [h2, List.getElem?_eq_getElem hj, hpj]

/-- One iteration of the first pass, for a pixel inside the cropped bounds. -/
theorem writeImageAt_eq (f : CvFilm) (hwf : f.WellFormed) (ss : ℚ) (s : ExportState)
    (p : Point2i) (hp : InsideExclusive p f.croppedPixelBounds = true) :
    f.writeImageAt ss s p = some (CvFilm.exportStep f.scale ss s (f.pixelAt p)) := by
  have hsome := (GetCvPixel_of_inside f hwf p hp).2
  unfold CvFilm.writeImageAt CvFilm.pixelAt
  cases hg : f.GetCvPixel p with
  | none => rw [hg] at hsome; simp at hsome
  | some v => rfl

theorem foldlM_writeImageAt (f : CvFilm) (hwf : f.WellFormed) (ss : ℚ) :
    ∀ (l : List Point2i) (s : ExportState),
      (∀ p ∈ l, InsideExclusive p f.croppedPixelBounds = true) →
      l.foldlM (f.writeImageAt ss) s =
        some ((l.map f.pixelAt).foldl (CvFilm.exportStep f.scale ss) s)
  | [], _, _ => rfl
  | p :: l, s, h => by
    rw [List.foldlM_cons, writeImageAt_eq f hwf ss s p (h p (List.mem_cons_self _ _))]
    simp only [Option.bind_eq_bind, Option.some_bind, List.map_cons, List.foldl_cons]
    exact foldlM_writeImageAt f hwf ss l _ (fun q hq => h q (List.mem_cons_of_mem _ hq))

/-- C10: on a frame as its constructor allocates it, the first pass of `WriteImage` with
`splatScale = 1` and output arrays that start as zero returns; for every pixel `p`, with
`invWeight = 1 / (filterWeightSum + 1e-8)`, the primary, secondary and difference arrays
hold `field * invWeight * scale` at the three indices of `p`, the three squared arrays hold
`squared field * invWeight * scale^2`, and `avgRecipPdf` is the sum over all pixels of
`reciprocal_pdf * invWeight` divided by the number of pixels. (Division is the total
division of `ℚ`.) -/
theorem WriteImagePass1_values (f : CvFilm) (hwf : f.WellFormed) :
    ∃ s, f.WriteImagePass1 1 ImageBuffers.zero = some s ∧
      (∀ p, InsideExclusive p f.croppedPixelBounds = true →
        ∃ pixel, f.GetCvPixel p = some pixel ∧ ∀ c : Fin 3,
          s.buf.rgb1 (3 * (f.pixelOffset p).toNat + c.val) =
            pixel.L1 c * (1 / (pixel.filterWeightSum + 1 / 100000000)) * f.scale ∧
          s.buf.rgb2 (3 * (f.pixelOffset p).toNat + c.val) =
            pixel.L2 c * (1 / (pixel.filterWeightSum + 1 / 100000000)) * f.scale ∧
          s.buf.diff (3 * (f.pixelOffset p).toNat + c.val) =
            pixel.D c * (1 / (pixel.filterWeightSum + 1 / 100000000)) * f.scale ∧
          s.buf.rgb1Squared (3 * (f.pixelOffset p).toNat + c.val) =
            pixel.L1square c * (1 / (pixel.filterWeightSum + 1 / 100000000)) * f.scale ^ 2 ∧
          s.buf.rgb2Squared (3 * (f.pixelOffset p).toNat + c.val) =
            pixel.L2square c * (1 / (pixel.filterWeightSum + 1 / 100000000)) * f.scale ^ 2 ∧
          s.buf.diffSquared (3 * (f.pixelOffset p).toNat + c.val) =
            pixel.Dsquare c * (1 / (pixel.filterWeightSum + 1 / 100000000)) * f.scale ^ 2) ∧
      s.avgRecipPdf =
        (f.croppedPixelBounds.points.map (fun p => (f.pixelAt p).reciprocal_pdf *
          (1 / ((f.pixelAt p).filterWeightSum + 1 / 100000000)))).sum /
          (f.croppedPixelBounds.points.length : ℚ) := by
  have hfold := foldlM_writeImageAt f hwf 1 f.croppedPixelBounds.points ⟨ImageBuffers.zero, 0, 0⟩
    (fun p hp => (mem_points _ p).1 hp)
  refine ⟨{ (f.croppedPixelBounds.points.map f.pixelAt).foldl (CvFilm.exportStep f.scale 1)
              ⟨ImageBuffers.zero, 0, 0⟩ with
            avgRecipPdf :=
              ((f.croppedPixelBounds.points.map f.pixelAt).foldl (CvFilm.exportStep f.scale 1)
                ⟨ImageBuffers.zero, 0, 0⟩).avgRecipPdf /
              ((((f.croppedPixelBounds.points.map f.pixelAt).foldl (CvFilm.exportStep f.scale 1)
                ⟨ImageBuffers.zero, 0, 0⟩).offset : Nat) : ℚ) },
    by unfold CvFilm.WriteImagePass1; rw [hfold]; rfl, ?_, ?_⟩
  · intro p hp
    have hsome := (GetCvPixel_of_inside f hwf p hp).2
    cases hg : f.GetCvPixel p with
    | none => rw [hg] at hsome; simp at hsome
    | some pixel =>
      refine ⟨pixel, rfl, fun c => ?_⟩
      have hidx : (f.croppedPixelBounds.points.map f.pixelAt)[(f.pixelOffset p).toNat]? =
          some pixel := by
        have e : f.pixelOffset p = f.croppedPixelBounds.offset p := rfl
        rw [e, List.getElem?_map, points_getElem?_offset _ p hp]
        simp [CvFilm.pixelAt, hg]
      obtain ⟨i1, i2, i3, i4, i5, i6, _⟩ := foldl_exportStep_at f.scale 1 c
        (f.croppedPixelBounds.points.map f.pixelAt) ⟨ImageBuffers.zero, 0, 0⟩
        (f.pixelOffset p).toNat pixel hidx
      simp only [Nat.zero_add] at i1 i2 i3 i4 i5 i6
      refine ⟨i1.trans ?_, i3.trans ?_, i5.trans ?_, i2.trans ?_, i4.trans ?_, i6.trans ?_⟩ <;>
        simp only [ImageBuffers.zero, CvFilm.invWt] <;> ring
  · show _ / _ = _ / _
    rw [foldl_exportStep_avg f.scale 1 _ _ (fun n _ => rfl), foldl_exportStep_offset]
    simp only [List.length_map, Nat.zero_add, zero_add, List.map_map, one_mul, CvFilm.invWt]
    rfl

/-- C10 (witness): the statement at a 2 by 1 frame with scale 3 and two non-zero
records. -/
theorem WriteImagePass1_values_witness :
    exampleFrame.WellFormed ∧
    ∃ s, exampleFrame.WriteImagePass1 1 ImageBuffers.zero = some s ∧
      (∀ p, InsideExclusive p exampleFrame.croppedPixelBounds = true →
        ∃ pixel, exampleFrame.GetCvPixel p = some pixel ∧ ∀ c : Fin 3,
          s.buf.rgb1 (3 * (exampleFrame.pixelOffset p).toNat + c.val) =
            pixel.L1 c * (1 / (pixel.filterWeightSum + 1 / 100000000)) * exampleFrame.scale ∧
          s.buf.rgb2 (3 * (exampleFrame.pixelOffset p).toNat + c.val) =
            pixel.L2 c * (1 / (pixel.filterWeightSum + 1 / 100000000)) * exampleFrame.scale ∧
          s.buf.diff (3 * (exampleFrame.pixelOffset p).toNat + c.val) =
            pixel.D c * (1 / (pixel.filterWeightSum + 1 / 100000000)) * exampleFrame.scale ∧
          s.buf.rgb1Squared (3 * (exampleFrame.pixelOffset p).toNat + c.val) =
            pixel.L1square c * (1 / (pixel.filterWeightSum + 1 / 100000000)) *
              exampleFrame.scale ^ 2 ∧
          s.buf.rgb2Squared (3 * (exampleFrame.pixelOffset p).toNat + c.val) =
            pixel.L2square c * (1 / (pixel.filterWeightSum + 1 / 100000000)) *
              exampleFrame.scale ^ 2 ∧
          s.buf.diffSquared (3 * (exampleFrame.pixelOffset p).toNat + c.val) =
            pixel.Dsquare c * (1 / (pixel.filterWeightSum + 1 / 100000000)) *
              exampleFrame.scale ^ 2) ∧
      s.avgRecipPdf =
        (exampleFrame.croppedPixelBounds.points.map (fun p =>
          (exampleFrame.pixelAt p).reciprocal_pdf *
            (1 / ((exampleFrame.pixelAt p).filterWeightSum + 1 / 100000000)))).sum /
          (exampleFrame.croppedPixelBounds.points.length : ℚ) :=
  have hwf : exampleFrame.WellFormed := by
    simp [CvFilm.WellFormed, exampleFrame, CvFilm.new, Bounds2i.Area]
  ⟨hwf, WriteImagePass1_values exampleFrame hwf⟩

/-! ## End to end: one direct hit on an emitter -/

/-- C2 (evaluation at the failing input): one-pixel film with scale 1, filter radius 1/2 and
filter weight 1, one camera sample at the pixel centre whose ray hits an emitter of
radiance `E = (1, 2, 3)`. The estimator returns `CvDualPixel(E, E, 1)` (primary and
secondary `E`, reciprocal pdf 1, no filter weight yet), and the exported
primary value is `E * 100000000 / 200000001`, about `E / 2`, not `E * scale = E`: the frame
pixel's `filterWeightSum` is 2 instead of the splatted weight 1. -/
theorem direct_hit_export_evaluated :
    (CvPathIntegrator.LiControlVariate 5 1 1 exampleRay (emitterScene ![1, 2, 3])
        exampleSampler 0).bind
      (fun r => match r with
        | PathResult.returned pixel _ =>
          some ((pixel.L1 0, pixel.L1 1, pixel.L1 2), (pixel.L2 0, pixel.L2 1, pixel.L2 2),
            pixel.reciprocal_pdf, pixel.filterWeightSum)
        | _ => none) = some ((1, 2, 3), (1, 2, 3), 1, 0) ∧
    (renderOneSample 5 1 1 (emitterScene ![1, 2, 3]) exampleRay 1 ⟨1 / 2, 1 / 2⟩
        exampleSampler exampleFilm ⟨⟨0, 0⟩, ⟨1, 1⟩⟩).map
      (fun s => (s.buf.rgb1 0, s.buf.rgb1 1, s.buf.rgb1 2)) =
      some (100000000 / 200000001, 200000000 / 200000001, 300000000 / 200000001) := by
  constructor
  · decide!
  · decide!

/-! ## `AddSample`: accesses, footprint and frame -/

/-- The footprint of `AddSample` in terms of the clamped raster bounds of the source. -/
theorem mem_footprint_iff (t : CvFilmTile) (pFilm : Point2f) (p : Point2i) :
    p ∈ t.footprint pFilm ↔
      (max ⌈pFilm.x - 1 / 2 - t.filterRadius.x⌉ t.pixelBounds.pMin.x ≤ p.x ∧
        p.x < min (⌊pFilm.x - 1 / 2 + t.filterRadius.x⌋ + 1) t.pixelBounds.pMax.x) ∧
      (max ⌈pFilm.y - 1 / 2 - t.filterRadius.y⌉ t.pixelBounds.pMin.y ≤ p.y ∧
        p.y < min (⌊pFilm.y - 1 / 2 + t.filterRadius.y⌋ + 1) t.pixelBounds.pMax.y) := by
  have h : p ∈ t.footprint pFilm ↔
      p ∈ (Bounds2i.mk (t.sampleP0 pFilm) (t.sampleP1 pFilm)).points := Iff.rfl
  rw [h, mem_points, insideExclusive_iff]
  simp only [CvFilmTile.sampleP0, CvFilmTile.sampleP1]
  constructor
  · rintro ⟨h1, h2, h3, h4⟩
    exact ⟨⟨h1, h2⟩, h3, h4⟩
  · rintro ⟨⟨h1, h2⟩, h3, h4⟩
    exact ⟨h1, h2, h3, h4⟩

/-- After `AddSample` a tile pixel outside the footprint holds its old record. -/
theorem AddSample_GetPixel_other (t t' : CvFilmTile) (hwf : t.WellFormed)
    (pFilm : Point2f) (splat : CvDualPixel) (h : t.AddSample pFilm splat 1 = some t')
    (p : Point2i) (hin : InsideExclusive p t.pixelBounds = true)
    (hp : p ∉ t.footprint pFilm) : t'.GetPixel p = t.GetPixel p := by
  rw [AddSample_eq t hwf pFilm (AddSample_of_some t t' pFilm splat 1 h).2] at h
  have ht' := (Option.some.inj h).symm
  subst ht'
  have hlen' : (t.splatPixels pFilm splat (t.footprint pFilm) t.pixels).length =
      (max 0 t.pixelBounds.Area).toNat := by rw [splatPixels_length]; exact hwf.1
  rw [(GetPixel_of_inside t hwf.1 p hin).1,
    (GetPixel_of_inside { t with pixels := t.splatPixels pFilm splat (t.footprint pFilm) t.pixels }
      hlen' p hin).1]
  refine getElem?_foldl_modify_of_not_mem
    (fun p x => x.AddPixel splat (t.filterWeight pFilm p))
    (fun p => (t.pixelBounds.offset p).toNat) _ (t.footprint pFilm) t.pixels ?_
  intro hmem
  obtain ⟨q, hq, hqp⟩ := List.mem_map.1 hmem
  have := offset_injective t.pixelBounds q p (mem_footprint_inside t pFilm q hq) hin hqp
  exact hp (this ▸ hq)

/-- C12: on a tile whose pixel array has the size the constructor gives it and whose
`filterTableSize` is at least 1, for every film position, every pixel for which `AddSample`
calls `GetPixel` passes the `InsideExclusive` check and has a linear offset in
`[0, pixels.size())`, and every filter table offset `ify * filterTableSize + ifx` lies in
`[0, filterTableSize^2)`; and `GetPixel` fails exactly for the points that are not inside
the pixel bounds. (In exact arithmetic the sign of the filter radius plays no role.) -/
theorem AddSample_accesses_in_bounds (t : CvFilmTile)
    (hlen : t.pixels.length = (max 0 t.pixelBounds.Area).toNat)
    (hsize : 1 ≤ t.filterTableSize) (pFilm : Point2f) :
    (∀ p ∈ t.footprint pFilm,
      InsideExclusive p t.pixelBounds = true ∧
      0 ≤ t.pixelOffset p ∧ t.pixelOffset p < (t.pixels.length : Int) ∧
      (t.GetPixel p).isSome = true ∧
      0 ≤ t.filterOffset pFilm p ∧
      t.filterOffset pFilm p < t.filterTableSize * t.filterTableSize) ∧
    (∀ p, t.GetPixel p = none ↔ InsideExclusive p t.pixelBounds = false) := by
  constructor
  · intro p hp
    have hin := mem_footprint_inside t pFilm p hp
    obtain ⟨h0, h1⟩ := tile_offset_lt t hlen p hin
    obtain ⟨hf0, hf1⟩ := filterOffset_bounds t hsize pFilm p
    have e : t.pixelOffset p = t.pixelBounds.offset p := rfl
    refine ⟨hin, e ▸ h0, ?_, (GetPixel_of_inside t hlen p hin).2, hf0, hf1⟩
    rw [e]
    omega
  · intro p
    constructor
    · intro hnone
      by_contra hne
      have hin : InsideExclusive p t.pixelBounds = true := by
        simpa using hne
      have := (GetPixel_of_inside t hlen p hin).2
      rw [hnone] at this
      simp at this
    · intro hout
      simp [CvFilmTile.GetPixel, hout]

/-- C12 (witness): the statement at a fresh 3 by 2 tile, film position (1/2, 1/2). -/
theorem AddSample_accesses_in_bounds_witness :
    (exampleTile.pixels.length = (max 0 exampleTile.pixelBounds.Area).toNat ∧
      1 ≤ exampleTile.filterTableSize) ∧
    (∀ p ∈ exampleTile.footprint ⟨1 / 2, 1 / 2⟩,
      InsideExclusive p exampleTile.pixelBounds = true ∧
      0 ≤ exampleTile.pixelOffset p ∧
      exampleTile.pixelOffset p < (exampleTile.pixels.length : Int) ∧
      (exampleTile.GetPixel p).isSome = true ∧
      0 ≤ exampleTile.filterOffset ⟨1 / 2, 1 / 2⟩ p ∧
      exampleTile.filterOffset ⟨1 / 2, 1 / 2⟩ p <
        exampleTile.filterTableSize * exampleTile.filterTableSize) :=
  have hlen : exampleTile.pixels.length = (max 0 exampleTile.pixelBounds.Area).toNat := by
    simp [exampleTile, CvFilmTile.new, Bounds2i.Area]
  have hsize : 1 ≤ exampleTile.filterTableSize := by
    simp [exampleTile, CvFilmTile.new]
  ⟨⟨hlen, hsize⟩, (AddSample_accesses_in_bounds exampleTile hlen hsize ⟨1 / 2, 1 / 2⟩).1⟩

/-- C18 (counterexample): splatting `exampleSplat` (whose `filterWeightSum` is 0) at the
centre of pixel (0,0) of the fresh 3 by 2 tile leaves that pixel with `filterWeightSum = 1`,
the filter weight, whereas "old record plus weight times the splat" gives
`0 + 1 * 0 = 0`. -/
theorem AddSample_weight_sum_not_scaled :
    (exampleTile.AddSample ⟨1 / 2, 1 / 2⟩ exampleSplat 1).bind
        (fun t' => (t'.GetPixel ⟨0, 0⟩).map CvDualPixel.filterWeightSum) = some 1 ∧
    (exampleTile.GetPixel ⟨0, 0⟩).map
        (fun old => old.filterWeightSum +
          exampleTile.filterWeight ⟨1 / 2, 1 / 2⟩ ⟨0, 0⟩ * exampleSplat.filterWeightSum) =
      some 0 := by
  constructor
  · decide!
  · decide!

/-- C18 (amended): on a well-formed tile, a call `AddSample(pFilm, splat, 1)` that returns
keeps the pixel bounds; the tile pixels `(x, y)` with
`max(ceil(pFilm.x - 0.5 - radius.x), pMin.x) <= x < min(floor(pFilm.x - 0.5 + radius.x) + 1, pMax.x)`
and the analogous range in `y` are the ones it updates: each becomes
`old.AddPixel(splat, w)` with `w = filterTable[iy * filterTableSize + ix]`, that is, each of
the seven weighted sums grows by `w` times the splat's and `filterWeightSum` grows by `w`;
every other pixel of the tile keeps its record. The call returns whenever the two clamped
ranges are not inverted (the counts of the two `ALLOCA` calls are not negative). -/
theorem AddSample_footprint_frame (t : CvFilmTile) (hwf : t.WellFormed) (pFilm : Point2f)
    (splat : CvDualPixel) :
    (t.SupportOk pFilm → ∃ t', t.AddSample pFilm splat 1 = some t') ∧
    ∀ t', t.AddSample pFilm splat 1 = some t' → t'.pixelBounds = t.pixelBounds ∧
      ∀ p, InsideExclusive p t.pixelBounds = true →
        (((max ⌈pFilm.x - 1 / 2 - t.filterRadius.x⌉ t.pixelBounds.pMin.x ≤ p.x ∧
            p.x < min (⌊pFilm.x - 1 / 2 + t.filterRadius.x⌋ + 1) t.pixelBounds.pMax.x) ∧
          (max ⌈pFilm.y - 1 / 2 - t.filterRadius.y⌉ t.pixelBounds.pMin.y ≤ p.y ∧
            p.y < min (⌊pFilm.y - 1 / 2 + t.filterRadius.y⌋ + 1) t.pixelBounds.pMax.y)) →
          ∃ old w new, t.GetPixel p = some old ∧
            arrayGet t.filterTable
              (min ⌊|((p.y : ℚ) - (pFilm.y - 1 / 2)) * t.invFilterRadius.y *
                  (t.filterTableSize : ℚ)|⌋ (t.filterTableSize - 1) * t.filterTableSize +
                min ⌊|((p.x : ℚ) - (pFilm.x - 1 / 2)) * t.invFilterRadius.x *
                  (t.filterTableSize : ℚ)|⌋ (t.filterTableSize - 1)) = some w ∧
            t'.GetPixel p = some new ∧ new = old.AddPixel splat w ∧
            (∀ i, new.L1 i = old.L1 i + w * splat.L1 i) ∧
            (∀ i, new.L2 i = old.L2 i + w * splat.L2 i) ∧
            (∀ i, new.D i = old.D i + w * splat.D i) ∧
            (∀ i, new.L1square i = old.L1square i + w * splat.L1square i) ∧
            (∀ i, new.L2square i = old.L2square i + w * splat.L2square i) ∧
            (∀ i, new.Dsquare i = old.Dsquare i + w * splat.Dsquare i) ∧
            new.reciprocal_pdf = old.reciprocal_pdf + w * splat.reciprocal_pdf ∧
            new.filterWeightSum = old.filterWeightSum + w) ∧
        (¬((max ⌈pFilm.x - 1 / 2 - t.filterRadius.x⌉ t.pixelBounds.pMin.x ≤ p.x ∧
            p.x < min (⌊pFilm.x - 1 / 2 + t.filterRadius.x⌋ + 1) t.pixelBounds.pMax.x) ∧
          (max ⌈pFilm.y - 1 / 2 - t.filterRadius.y⌉ t.pixelBounds.pMin.y ≤ p.y ∧
            p.y < min (⌊pFilm.y - 1 / 2 + t.filterRadius.y⌋ + 1) t.pixelBounds.pMax.y)) →
          t'.GetPixel p = t.GetPixel p) := by
  refine ⟨fun hsup => ⟨_, AddSample_eq t hwf pFilm hsup splat⟩, ?_⟩
  intro t' hadd
  have hb : t'.pixelBounds = t.pixelBounds := by
    have h := hadd
    rw [AddSample_eq t hwf pFilm (AddSample_of_some t t' pFilm splat 1 hadd).2 splat] at h
    rw [← Option.some.inj h]
  refine ⟨hb, ?_⟩
  intro p hin
  constructor
  · intro hfoot
    have hp : p ∈ t.footprint pFilm := (mem_footprint_iff t pFilm p).2 hfoot
    have hnew := AddSample_GetPixel_footprint t _ hwf pFilm splat hadd p hp
    have hlook := filterTable_lookup t hwf pFilm p
    cases hold : t.GetPixel p with
    | none =>
      have := (GetPixel_of_inside t hwf.1 p hin).2
      rw [hold] at this
      simp at this
    | some old =>
      rw [hold] at hnew
      exact ⟨old, t.filterWeight pFilm p, old.AddPixel splat (t.filterWeight pFilm p), rfl,
        hlook, hnew, rfl, fun _ => rfl, fun _ => rfl, fun _ => rfl, fun _ => rfl,
        fun _ => rfl, fun _ => rfl, rfl, rfl⟩
  · intro hfoot
    exact AddSample_GetPixel_other t _ hwf pFilm splat hadd p hin
      (fun hp => hfoot ((mem_footprint_iff t pFilm p).1 hp))

/-- C18 (witness): the amended statement at a fresh 3 by 2 tile, for the footprint pixel
(0,0) and for the pixel (2,0) outside the footprint. -/
theorem AddSample_footprint_frame_witness :
    exampleTile.WellFormed ∧ exampleTile.SupportOk ⟨1 / 2, 1 / 2⟩ ∧
    (InsideExclusive ⟨0, 0⟩ exampleTile.pixelBounds = true ∧
      InsideExclusive ⟨2, 0⟩ exampleTile.pixelBounds = true) ∧
    ∃ t', exampleTile.AddSample ⟨1 / 2, 1 / 2⟩ exampleSplat 1 = some t' ∧
      (∃ old w new, exampleTile.GetPixel ⟨0, 0⟩ = some old ∧ t'.GetPixel ⟨0, 0⟩ = some new ∧
        new = old.AddPixel exampleSplat w ∧ new.filterWeightSum = old.filterWeightSum + w) ∧
      t'.GetPixel ⟨2, 0⟩ = exampleTile.GetPixel ⟨2, 0⟩ :=
  have hwf : exampleTile.WellFormed := by
    unfold CvFilmTile.WellFormed exampleTile CvFilmTile.new Bounds2i.Area
    simp
  have hin0 : InsideExclusive ⟨0, 0⟩ exampleTile.pixelBounds = true := by decide
  have hin2 : InsideExclusive ⟨2, 0⟩ exampleTile.pixelBounds = true := by decide
  have hsup : exampleTile.SupportOk ⟨1 / 2, 1 / 2⟩ := by decide!
  have h := AddSample_footprint_frame exampleTile hwf ⟨1 / 2, 1 / 2⟩ exampleSplat
  ⟨hwf, hsup, ⟨hin0, hin2⟩,
    let ⟨t', h1⟩ := h.1 hsup
    let ⟨_, h3⟩ := h.2 t' h1
    ⟨t', h1,
      (let ⟨old, w, new, a, _, c, d, _, _, _, _, _, _, _, e⟩ := (h3 ⟨0, 0⟩ hin0).1 (by decide!)
       ⟨old, w, new, a, c, d, e⟩),
      (h3 ⟨2, 0⟩ hin2).2 (by decide!)⟩⟩

/-! ## Pixel coverage of the tiles -/

theorem ceil_sub_half_sub (z : Int) (r : ℚ) (h0 : 0 ≤ r) (h1 : r < 1 / 2) :
    ⌈(z : ℚ) - 1 / 2 - r⌉ = z := by
  rw [Int.ceil_eq_iff]
  constructor <;> linarith

theorem floor_sub_half_add (z : Int) (r : ℚ) (h0 : 0 ≤ r) (h1 : r < 1 / 2) :
    ⌊(z : ℚ) - 1 / 2 + r⌋ + 1 = z := by
  have h : ⌊(z : ℚ) - 1 / 2 + r⌋ = z - 1 := by
    rw [Int.floor_eq_iff]
    push_cast
    constructor <;> linarith
  rw [h]
  ring

/-- The pixel bounds that `GetCvFilmTile` gives a tile lie inside the cropped bounds. -/
theorem GetCvFilmTile_within (f : CvFilm) (sampleBounds : Bounds2i) :
    (f.GetCvFilmTile sampleBounds).pixelBounds.Within f.croppedPixelBounds := by
  simp only [CvFilm.GetCvFilmTile, CvFilmTile.new, Intersect, Bounds2i.Within]
  refine ⟨le_max_right _ _, le_max_right _ _, min_le_right _ _, min_le_right _ _⟩

/-- With a filter radius below 1/2 the pixel bounds of a tile are its sample bounds cut to
the cropped bounds. -/
theorem GetCvFilmTile_pixelBounds_small_radius (f : CvFilm) (sampleBounds : Bounds2i)
    (hrx : 0 ≤ f.filterRadius.x ∧ f.filterRadius.x < 1 / 2)
    (hry : 0 ≤ f.filterRadius.y ∧ f.filterRadius.y < 1 / 2) :
    (f.GetCvFilmTile sampleBounds).pixelBounds =
      Intersect (Bounds2i.new sampleBounds.pMin sampleBounds.pMax) f.croppedPixelBounds := by
  simp only [CvFilm.GetCvFilmTile, CvFilmTile.new]
  rw [ceil_sub_half_sub _ _ hrx.1 hrx.2, ceil_sub_half_sub _ _ hry.1 hry.2,
    floor_sub_half_add _ _ hrx.1 hrx.2, floor_sub_half_add _ _ hry.1 hry.2]

/-- C19 (counterexample): on the 32 by 16 film with filter radius 1/2, pixel (15,0) lies in
the pixel bounds that `GetCvFilmTile` computes for tile (0,0) and in those it computes for
tile (1,0). -/
theorem tile_pixel_bounds_overlap :
    InsideExclusive ⟨15, 0⟩ (wideFilm.GetCvFilmTile
        (CvPathIntegrator.tileBounds ⟨⟨0, 0⟩, ⟨32, 16⟩⟩ ⟨0, 0⟩)).pixelBounds = true ∧
    InsideExclusive ⟨15, 0⟩ (wideFilm.GetCvFilmTile
        (CvPathIntegrator.tileBounds ⟨⟨0, 0⟩, ⟨32, 16⟩⟩ ⟨1, 0⟩)).pixelBounds = true := by
  constructor
  · decide!
  · decide!

/-- A pixel inside the sample bounds of a tile of the grid, cut to any rectangle, determines
the tile index. -/
theorem tile_index_of_inside (sb cropped : Bounds2i) (tile : Point2i)
    (h : 0 ≤ tile.x ∧ tile.x < (sb.pMax.x - sb.pMin.x + 16 - 1) / 16 ∧
      0 ≤ tile.y ∧ tile.y < (sb.pMax.y - sb.pMin.y + 16 - 1) / 16) (p : Point2i)
    (hin : InsideExclusive p (Intersect
      (Bounds2i.new (CvPathIntegrator.tileBounds sb tile).pMin
        (CvPathIntegrator.tileBounds sb tile).pMax) cropped) = true) :
    tile.x = (p.x - sb.pMin.x) / 16 ∧ tile.y = (p.y - sb.pMin.y) / 16 := by
  rw [insideExclusive_iff] at hin
  simp only [CvPathIntegrator.tileBounds, CvPathIntegrator.tileSize, Bounds2i.new,
    Intersect] at hin
  obtain ⟨a1, a2, a3, a4⟩ := hin
  obtain ⟨b1, b2, b3, b4⟩ := h
  constructor
  · clear a3 a4 b3 b4
    omega
  · clear a1 a2 b1 b2
    omega

/-- C19 (amended): when both filter radii lie in `[0, 1/2)`, the pixel bounds that
`GetCvFilmTile` computes for the sample bounds of two distinct tiles of the 16 by 16 grid
have no pixel in common. -/
theorem tile_pixel_bounds_disjoint (f : CvFilm) (sb : Bounds2i)
    (hrx : 0 ≤ f.filterRadius.x ∧ f.filterRadius.x < 1 / 2)
    (hry : 0 ≤ f.filterRadius.y ∧ f.filterRadius.y < 1 / 2)
    (hx : sb.pMin.x ≤ sb.pMax.x) (hy : sb.pMin.y ≤ sb.pMax.y) (t1 t2 : Point2i)
    (h1 : 0 ≤ t1.x ∧ t1.x < (CvPathIntegrator.nTiles sb).x ∧
      0 ≤ t1.y ∧ t1.y < (CvPathIntegrator.nTiles sb).y)
    (h2 : 0 ≤ t2.x ∧ t2.x < (CvPathIntegrator.nTiles sb).x ∧
      0 ≤ t2.y ∧ t2.y < (CvPathIntegrator.nTiles sb).y)
    (hne : t1 ≠ t2) (p : Point2i) :
    ¬(InsideExclusive p (f.GetCvFilmTile (CvPathIntegrator.tileBounds sb t1)).pixelBounds = true ∧
      InsideExclusive p (f.GetCvFilmTile (CvPathIntegrator.tileBounds sb t2)).pixelBounds = true) := by
  have hnx : (CvPathIntegrator.nTiles sb).x = (sb.pMax.x - sb.pMin.x + 16 - 1) / 16 := by
    simp only [CvPathIntegrator.nTiles, CvPathIntegrator.tileSize, Bounds2i.Diagonal]
    exact Int.tdiv_eq_ediv (by omega) (by omega)
  have hny : (CvPathIntegrator.nTiles sb).y = (sb.pMax.y - sb.pMin.y + 16 - 1) / 16 := by
    simp only [CvPathIntegrator.nTiles, CvPathIntegrator.tileSize, Bounds2i.Diagonal]
    exact Int.tdiv_eq_ediv (by omega) (by omega)
  rw [hnx, hny] at h1 h2
  rw [GetCvFilmTile_pixelBounds_small_radius f _ hrx hry,
    GetCvFilmTile_pixelBounds_small_radius f _ hrx hry]
  rintro ⟨ha, hb⟩
  obtain ⟨e1, e2⟩ := tile_index_of_inside sb f.croppedPixelBounds t1 h1 p ha
  obtain ⟨e3, e4⟩ := tile_index_of_inside sb f.croppedPixelBounds t2 h2 p hb
  exact hne (Point2i.ext (e1.trans e3.symm) (e2.trans e4.symm))

/-- C19 (witness): the amended statement on a 32 by 16 film with filter radius 1/4, for the
tiles (0,0) and (1,0) and pixel (15,0). -/
theorem tile_pixel_bounds_disjoint_witness :
    ((0 : ℚ) ≤ 1 / 4 ∧ (1 / 4 : ℚ) < 1 / 2) ∧ ((⟨0, 0⟩ : Point2i) ≠ ⟨1, 0⟩) ∧
    ¬(InsideExclusive ⟨15, 0⟩ ((CvFilm.new ⟨⟨0, 0⟩, ⟨32, 16⟩⟩ ⟨1 / 4, 1 / 4⟩ [1] 1 1).GetCvFilmTile
        (CvPathIntegrator.tileBounds ⟨⟨0, 0⟩, ⟨32, 16⟩⟩ ⟨0, 0⟩)).pixelBounds = true ∧
      InsideExclusive ⟨15, 0⟩ ((CvFilm.new ⟨⟨0, 0⟩, ⟨32, 16⟩⟩ ⟨1 / 4, 1 / 4⟩ [1] 1 1).GetCvFilmTile
        (CvPathIntegrator.tileBounds ⟨⟨0, 0⟩, ⟨32, 16⟩⟩ ⟨1, 0⟩)).pixelBounds = true) :=
  have hr : (0 : ℚ) ≤ 1 / 4 ∧ (1 / 4 : ℚ) < 1 / 2 := by norm_num
  have hne : (⟨0, 0⟩ : Point2i) ≠ ⟨1, 0⟩ := by decide
  ⟨hr, hne,
    tile_pixel_bounds_disjoint (CvFilm.new ⟨⟨0, 0⟩, ⟨32, 16⟩⟩ ⟨1 / 4, 1 / 4⟩ [1] 1 1)
      ⟨⟨0, 0⟩, ⟨32, 16⟩⟩ hr hr (by decide) (by decide) ⟨0, 0⟩ ⟨1, 0⟩ (by decide) (by decide)
      hne ⟨15, 0⟩⟩

/-! ## The difference channel of equal branch radiances -/

/-- A property of the records that every update preserves holds for every record after a
sequence of in-place updates. -/
theorem foldl_modify_forall {α β : Type} (P : α → Prop) (g : β → α → α) (k : β → Nat)
    (hg : ∀ p x, P x → P (g p x)) :
    ∀ (l : List β) (px : List α), (∀ x ∈ px, P x) →
      ∀ x ∈ l.foldl (fun px p => px.modify (g p) (k p)) px, P x
  | [], _, h => h
  | p :: l, px, h => by
    rw [List.foldl_cons]
    apply foldl_modify_forall P g k hg l
    intro x hx
    obtain ⟨i, hi⟩ := List.mem_iff_getElem?.1 hx
    rw [List.getElem?_modify] at hi
    cases hpx : px[i]? with
    | none => rw [hpx] at hi; simp at hi
    | some a =>
      rw [hpx] at hi
      have ha : P a := h a (List.mem_iff_getElem?.2 ⟨i, hpx⟩)
      simp only [Option.map_eq_map, Option.map_some', Option.some.injEq] at hi
      rw [← hi]
      split
      · exact hg p a ha
      · exact ha

theorem arrayGet_mem {α : Type} (a : List α) (i : Int) (x : α) (h : arrayGet a i = some x) :
    x ∈ a := by
  unfold arrayGet at h
  split at h
  · exact List.mem_iff_getElem?.2 ⟨_, h⟩
  · simp at h

/-- A property of the zero record and of all tile records holds for `pixelAt`. -/
theorem tile_pixelAt_forall (P : CvDualPixel → Prop) (t : CvFilmTile)
    (h0 : P CvDualPixel.SetZero) (h : ∀ x ∈ t.pixels, P x) (p : Point2i) : P (t.pixelAt p) := by
  unfold CvFilmTile.pixelAt CvFilmTile.GetPixel
  split
  · cases hg : arrayGet t.pixels (t.pixelOffset p) with
    | none => exact h0
    | some x => exact h x (arrayGet_mem _ _ _ hg)
  · exact h0

/-- A property of the zero record and of all frame records holds for `pixelAt`. -/
theorem film_pixelAt_forall (P : CvDualPixel → Prop) (f : CvFilm)
    (h0 : P CvDualPixel.SetZero) (h : ∀ x ∈ f.cvPixels, P x) (p : Point2i) : P (f.pixelAt p) := by
  unfold CvFilm.pixelAt CvFilm.GetCvPixel
  split
  · cases hg : arrayGet f.cvPixels (f.pixelOffset p) with
    | none => exact h0
    | some x => exact h x (arrayGet_mem _ _ _ hg)
  · exact h0

/-- The tile that `GetCvFilmTile` returns satisfies the constructor's invariants when the
film's filter table has `filterTableWidth^2 >= 1` entries. -/
theorem GetCvFilmTile_wellFormed (f : CvFilm) (hw : 1 ≤ f.filterTableWidth)
    (htbl : f.filterTableWidth * f.filterTableWidth ≤ (f.filterTable.length : Int))
    (sampleBounds : Bounds2i) : (f.GetCvFilmTile sampleBounds).WellFormed := by
  refine ⟨?_, hw, htbl⟩
  simp [CvFilm.GetCvFilmTile, CvFilmTile.new]

/-- Records with a zero difference field export a zero difference channel. -/
theorem foldl_exportStep_diff_zero (sc ss : ℚ) :
    ∀ (recs : List CvDualPixel) (s : ExportState),
      (∀ x ∈ recs, x.D = Spectrum.const 0) → (∀ n, s.buf.diff n = 0) →
      ∀ n, (recs.foldl (CvFilm.exportStep sc ss) s).buf.diff n = 0
  | [], _, _, h => h
  | x :: recs, s, hD, h => by
    rw [List.foldl_cons]
    apply foldl_exportStep_diff_zero sc ss recs
    · exact fun y hy => hD y (List.mem_cons_of_mem _ hy)
    · intro n
      have hx : x.D = Spectrum.const 0 := hD x (List.mem_cons_self _ _)
      simp only [CvFilm.exportStep, CvFilm.writePixel]
      rw [scaleChannels_apply, addChannels_apply, hx]
      simp [Spectrum.const, h n]

/-- A camera ray that directly hits an emitting surface ends the first pass of the loop
with both accumulators equal to the emission. -/
theorem iteration_direct_hit (maxDepth : Int) (rrThreshold : ℚ) (scene : Scene) (r : Ray)
    (sampler : Sampler) (materialId : Int) (isect : SurfaceInteraction)
    (hI : scene.Intersect r = some isect) (hE : (isect.Le (-r.d)).IsBlack = false) :
    CvPathIntegrator.iteration maxDepth rrThreshold scene
        (CvPathIntegrator.initialState r sampler materialId) =
      LoopStep.exit { CvPathIntegrator.initialState r sampler materialId with
        L1 := isect.Le (-r.d)
        L2 := isect.Le (-r.d) } := by
  unfold CvPathIntegrator.iteration
  have hI' : scene.Intersect (CvPathIntegrator.initialState r sampler materialId).ray =
      some isect := hI
  have hray : (CvPathIntegrator.initialState r sampler materialId).ray.d = r.d := rfl
  simp only [hI', hray, hE, Bool.not_false, if_true]
  simp [CvPathIntegrator.addLe, CvPathIntegrator.initialState, Spectrum.const]

/-- Splatting a sample with zero difference field into a tile (at a film position whose
filter support is not inverted), merging the tile into a frame and exporting on output
arrays that start as zero keeps the difference channel zero, when tile and frame records
have a zero difference field to start with. -/
theorem splat_merge_export_diff_zero (f : CvFilm) (hfwf : f.WellFormed)
    (hfD : ∀ x ∈ f.cvPixels, x.D = Spectrum.const 0) (t : CvFilmTile) (htwf : t.WellFormed)
    (htD : ∀ x ∈ t.pixels, x.D = Spectrum.const 0)
    (hin : t.pixelBounds.Within f.croppedPixelBounds) (pFilm : Point2f)
    (hsup : t.SupportOk pFilm) (splat : CvDualPixel)
    (hD : splat.D = Spectrum.const 0) :
    ∃ t' f' s, t.AddSample pFilm splat 1 = some t' ∧ f.MergeFilmTile t' = some f' ∧
      f'.WriteImagePass1 1 ImageBuffers.zero = some s ∧ ∀ n, s.buf.diff n = 0 := by
  have hzero : CvDualPixel.SetZero.D = Spectrum.const 0 := rfl
  have hadd := AddSample_eq t htwf pFilm hsup splat
  obtain ⟨t', ht'⟩ : ∃ t' : CvFilmTile,
      t' = { t with pixels := t.splatPixels pFilm splat (t.footprint pFilm) t.pixels } :=
    ⟨_, rfl⟩
  rw [← ht'] at hadd
  have hlen : t'.pixels.length = (max 0 t'.pixelBounds.Area).toNat := by
    rw [ht']
    show (t.splatPixels pFilm splat (t.footprint pFilm) t.pixels).length = _
    rw [splatPixels_length]
    exact htwf.1
  have hin' : t'.pixelBounds.Within f.croppedPixelBounds := by rw [ht']; exact hin
  have htile : ∀ x ∈ t'.pixels, x.D = Spectrum.const 0 := by
    rw [ht']
    refine foldl_modify_forall (fun x : CvDualPixel => x.D = Spectrum.const 0)
      (fun p x => x.AddPixel splat (t.filterWeight pFilm p))
      (fun p => (t.pixelBounds.offset p).toNat) ?_ (t.footprint pFilm) t.pixels htD
    intro p x hx
    funext i
    have hxi := congrFun hx i
    have hDi := congrFun hD i
    simp only [CvDualPixel.AddPixel, Spectrum.const] at hxi hDi ⊢
    rw [hxi, hDi]
    ring
  have hmerge := MergeFilmTile_eq f hfwf t' hlen hin'
  have hf'wf := mergeTotal_wellFormed f hfwf t'
  have hframe : ∀ x ∈ (f.mergeTotal t').cvPixels, x.D = Spectrum.const 0 := by
    refine foldl_modify_forall (fun x : CvDualPixel => x.D = Spectrum.const 0)
      (fun p x => CvFilm.mergeRecord (t'.pixelAt p) x)
      (fun p => (f.croppedPixelBounds.offset p).toNat) ?_ t'.pixelBounds.points f.cvPixels hfD
    intro p x hx
    have htp := tile_pixelAt_forall (fun x => x.D = Spectrum.const 0) t' hzero htile p
    funext i
    have hxi := congrFun hx i
    have hti := congrFun htp i
    simp only [CvFilm.mergeRecord, CvDualPixel.AddPixel, Spectrum.const] at hxi hti ⊢
    rw [hxi, hti]
    ring
  have hfold := foldlM_writeImageAt (f.mergeTotal t') hf'wf 1
    (f.mergeTotal t').croppedPixelBounds.points ⟨ImageBuffers.zero, 0, 0⟩
    (fun p hp => (mem_points _ p).1 hp)
  refine ⟨t', f.mergeTotal t', _, hadd, hmerge,
    by unfold CvFilm.WriteImagePass1; rw [hfold]; rfl, ?_⟩
  intro n
  refine foldl_exportStep_diff_zero f.scale 1
    ((f.mergeTotal t').croppedPixelBounds.points.map (f.mergeTotal t').pixelAt)
    ⟨ImageBuffers.zero, 0, 0⟩ ?_ (fun _ => rfl) n
  intro x hx
  obtain ⟨p, _, rfl⟩ := List.mem_map.1 hx
  exact film_pixelAt_forall (fun x => x.D = Spectrum.const 0) _ hzero hframe p

/-- C11 (evaluation at the failing input): a sample whose two branch radiances are equal
has a zero `D` field, for every radiance and reciprocal pdf. One-pixel film with scale 1,
one camera sample at the pixel centre whose ray hits an emitter of radiance `(1, 2, 3)`:
the sample is splatted into the fresh tile and the tile merged into the fresh frame, and
the frame record has `D = 0`; the first pass of `WriteImage` on output arrays that hold 0
leaves the difference channel `(0, 0, 0)`, but on output arrays that hold 1 it leaves
`(1, 1, 1)`: the pass adds to the content of the arrays, which the source never
initialises. -/
theorem difference_channel_evaluated :
    (∀ (E : Spectrum) (recip_pdf : ℚ), (CvDualPixel.new E E recip_pdf).D = Spectrum.const 0) ∧
    ((CvPathIntegrator.renderSample 5 1 1 (emitterScene ![1, 2, 3]) exampleRay 1
        ⟨1 / 2, 1 / 2⟩ exampleSampler 0 (exampleFilm.GetCvFilmTile ⟨⟨0, 0⟩, ⟨1, 1⟩⟩)).bind
      (fun t => (exampleFilm.MergeFilmTile t).bind (fun f => f.GetCvPixel ⟨0, 0⟩))).map
      (fun x => (x.D 0, x.D 1, x.D 2)) = some (0, 0, 0) ∧
    ((CvPathIntegrator.renderSample 5 1 1 (emitterScene ![1, 2, 3]) exampleRay 1
        ⟨1 / 2, 1 / 2⟩ exampleSampler 0 (exampleFilm.GetCvFilmTile ⟨⟨0, 0⟩, ⟨1, 1⟩⟩)).bind
      (fun t => (exampleFilm.MergeFilmTile t).bind
        (fun f => f.WriteImagePass1 1 ImageBuffers.zero))).map
      (fun s => (s.buf.diff 0, s.buf.diff 1, s.buf.diff 2)) = some (0, 0, 0) ∧
    ((CvPathIntegrator.renderSample 5 1 1 (emitterScene ![1, 2, 3]) exampleRay 1
        ⟨1 / 2, 1 / 2⟩ exampleSampler 0 (exampleFilm.GetCvFilmTile ⟨⟨0, 0⟩, ⟨1, 1⟩⟩)).bind
      (fun t => (exampleFilm.MergeFilmTile t).bind
        (fun f => f.WriteImagePass1 1 onesBuffers))).map
      (fun s => (s.buf.diff 0, s.buf.diff 1, s.buf.diff 2)) = some (1, 1, 1) := by
  refine ⟨?_, ?_, ?_, ?_⟩
  · intro E recip_pdf
    funext i
    simp [CvDualPixel.new, Spectrum.const]
  · decide!
  · decide!
  · decide!

/-! ## The bounce loop: passes, exits and invariants -/

theorem roulette_eq (rrThreshold : ℚ) (s : PathState) :
    CvPathIntegrator.roulette rrThreshold s =
      if CvPathIntegrator.rouletteApplies rrThreshold s then
        if s.sampler.Get1D.1 < CvPathIntegrator.rouletteQ s then
          LoopStep.exit { s with
            sampler := s.sampler.Get1D.2
            reciprocal_pdfs := fun i => s.reciprocal_pdfs i / CvPathIntegrator.rouletteQ s }
        else
          LoopStep.next { s with
            sampler := s.sampler.Get1D.2
            reciprocal_pdfs := fun i => s.reciprocal_pdfs i / (1 - CvPathIntegrator.rouletteQ s) }
      else LoopStep.next s := rfl

theorem scatter_eq (rrThreshold : ℚ) (isect : SurfaceInteraction) (bsdf0 : BSDF)
    (wo : Vector3f) (smp : BSDFSample) (f1 : Spectrum) (pdf1 : ℚ) (s : PathState) :
    CvPathIntegrator.scatter rrThreshold isect bsdf0 wo smp f1 pdf1 s =
      if isect.bssrdf ∧ smp.flag.transmission then
        LoopStep.fatal (CvPathIntegrator.preRoulette isect bsdf0 wo smp f1 pdf1 s)
      else
        CvPathIntegrator.roulette rrThreshold
          (CvPathIntegrator.preRoulette isect bsdf0 wo smp f1 pdf1 s) := rfl

/-- A pass that finds a non-emitting surface with non-null scattering functions below the
depth limit samples a direction and then either ends the path at the degenerate-sample
test or goes on to the throughput update. -/
theorem iteration_of_surfaceHit (maxDepth : Int) (rrThreshold : ℚ) (scene : Scene)
    (s : PathState) (isect : SurfaceInteraction) (bsdf0 bsdf1 : BSDF)
    (h : CvPathIntegrator.SurfaceHit scene s isect bsdf0 bsdf1) (hd : s.bounces < maxDepth) :
    CvPathIntegrator.iteration maxDepth rrThreshold scene s =
      if (bsdf0.Sample_f (-s.ray.d) s.sampler.Get2D.1).f.IsBlack ∨
          (bsdf1.f_pdf (-s.ray.d) (bsdf0.Sample_f (-s.ray.d) s.sampler.Get2D.1).wi).1.IsBlack ∨
          (bsdf0.Sample_f (-s.ray.d) s.sampler.Get2D.1).pdf = 0 ∨
          (bsdf1.f_pdf (-s.ray.d) (bsdf0.Sample_f (-s.ray.d) s.sampler.Get2D.1).wi).2 = 0 then
        LoopStep.exit (CvPathIntegrator.sampledState s)
      else
        CvPathIntegrator.scatter rrThreshold isect bsdf0 (-s.ray.d)
          (bsdf0.Sample_f (-s.ray.d) s.sampler.Get2D.1)
          (bsdf1.f_pdf (-s.ray.d) (bsdf0.Sample_f (-s.ray.d) s.sampler.Get2D.1).wi).1
          (bsdf1.f_pdf (-s.ray.d) (bsdf0.Sample_f (-s.ray.d) s.sampler.Get2D.1).wi).2
          (CvPathIntegrator.sampledState s) := by
  obtain ⟨h1, h2, h3, h4, h5⟩ := h
  obtain ⟨bm, hbm⟩ := Option.isSome_iff_exists.1 h3
  unfold CvPathIntegrator.iteration
  simp only [h1, h2, Bool.not_true, Bool.false_eq_true, if_false, not_le.2 hd, ge_iff_le, hbm,
    h4, h5]
  rfl

/-- Passes chain: once the loop has reached pass `k` in state `s`, it goes on as the loop
started in `s`. -/
theorem loop_of_stateAt (maxDepth : Int) (rrThreshold : ℚ) (scene : Scene) (s0 : PathState) :
    ∀ (k : Nat) (s : PathState) (fuel : Nat),
      CvPathIntegrator.stateAt maxDepth rrThreshold scene s0 k = some s →
      CvPathIntegrator.loop maxDepth rrThreshold scene (k + fuel) s0 =
        CvPathIntegrator.loop maxDepth rrThreshold scene fuel s
  | 0, s, fuel, h => by
    simp only [CvPathIntegrator.stateAt, Option.some.injEq] at h
    rw [h, Nat.zero_add]
  | k + 1, s, fuel, h => by
    simp only [CvPathIntegrator.stateAt] at h
    cases hk : CvPathIntegrator.stateAt maxDepth rrThreshold scene s0 k with
    | none => rw [hk] at h; simp at h
    | some sk =>
      rw [hk] at h
      simp only at h
      cases hi : CvPathIntegrator.iteration maxDepth rrThreshold scene sk with
      | next s' =>
        rw [hi] at h
        simp only [Option.some.injEq] at h
        have e : k + 1 + fuel = k + (fuel + 1) := by omega
        rw [e, loop_of_stateAt maxDepth rrThreshold scene s0 k sk (fuel + 1) hk]
        simp only [CvPathIntegrator.loop, hi]
        rw [h]
      | exit s' => rw [hi] at h; simp at h
      | nullBsdf s' => rw [hi] at h; simp at h
      | fatal s' => rw [hi] at h; simp at h

/-- A pass that ends in a `break` makes `LiControlVariate` return the record built from the
state at the `break`. -/
theorem LiControlVariate_of_exit (maxDepth : Int) (rrThreshold : ℚ) (scene : Scene) (r : Ray)
    (sampler : Sampler) (materialId : Int) (k : Nat) (s s' : PathState)
    (hs : CvPathIntegrator.stateAt maxDepth rrThreshold scene
      (CvPathIntegrator.initialState r sampler materialId) k = some s)
    (hi : CvPathIntegrator.iteration maxDepth rrThreshold scene s = LoopStep.exit s')
    (fuel : Nat) :
    CvPathIntegrator.LiControlVariate maxDepth rrThreshold (k + (fuel + 1)) r scene sampler
        materialId =
      some (PathResult.returned (CvDualPixel.new s'.L1 s'.L2 (s'.reciprocal_pdfs 0)) s') := by
  unfold CvPathIntegrator.LiControlVariate
  rw [loop_of_stateAt maxDepth rrThreshold scene _ k s (fuel + 1) hs]
  simp only [CvPathIntegrator.loop, hi]

/-- What the throughput update leaves alone, and what it does to throughputs and reciprocal
pdfs. -/
theorem preRoulette_fields (isect : SurfaceInteraction) (bsdf0 : BSDF) (wo : Vector3f)
    (smp : BSDFSample) (f1 : Spectrum) (pdf1 : ℚ) (s : PathState) :
    (CvPathIntegrator.preRoulette isect bsdf0 wo smp f1 pdf1 s).L1 = s.L1 ∧
    (CvPathIntegrator.preRoulette isect bsdf0 wo smp f1 pdf1 s).L2 = s.L2 ∧
    (CvPathIntegrator.preRoulette isect bsdf0 wo smp f1 pdf1 s).bounces = s.bounces ∧
    (CvPathIntegrator.preRoulette isect bsdf0 wo smp f1 pdf1 s).nSampled = s.nSampled ∧
    (CvPathIntegrator.preRoulette isect bsdf0 wo smp f1 pdf1 s).sampler = s.sampler ∧
    (CvPathIntegrator.preRoulette isect bsdf0 wo smp f1 pdf1 s).ray = isect.SpawnRay smp.wi ∧
    (CvPathIntegrator.preRoulette isect bsdf0 wo smp f1 pdf1 s).materialId = s.materialId ∧
    (∀ i, (CvPathIntegrator.preRoulette isect bsdf0 wo smp f1 pdf1 s).betas 0 i =
      s.betas 0 i * (smp.f i * AbsDot smp.wi isect.shading_n)) ∧
    (∀ i, (CvPathIntegrator.preRoulette isect bsdf0 wo smp f1 pdf1 s).betas 1 i =
      s.betas 1 i * (f1 i * AbsDot smp.wi isect.shading_n)) ∧
    (CvPathIntegrator.preRoulette isect bsdf0 wo smp f1 pdf1 s).reciprocal_pdfs 0 =
      s.reciprocal_pdfs 0 / smp.pdf ∧
    (CvPathIntegrator.preRoulette isect bsdf0 wo smp f1 pdf1 s).reciprocal_pdfs 1 =
      s.reciprocal_pdfs 1 / pdf1 := by
  unfold CvPathIntegrator.preRoulette
  refine ⟨?_, ?_, ?_, ?_, ?_, ?_, ?_, ?_, ?_, ?_, ?_⟩ <;> (try intro i) <;> dsimp only <;>
    split <;> rfl

/-- The roulette block never touches accumulators, throughputs, bounce count or the
sampling counter, and it ends in `break` or at the bottom of the body. -/
theorem roulette_fields (rrThreshold : ℚ) (x : PathState) :
    ((∃ x', CvPathIntegrator.roulette rrThreshold x = LoopStep.next x') ∨
      (∃ x', CvPathIntegrator.roulette rrThreshold x = LoopStep.exit x')) ∧
    (CvPathIntegrator.roulette rrThreshold x).state.L1 = x.L1 ∧
    (CvPathIntegrator.roulette rrThreshold x).state.L2 = x.L2 ∧
    (CvPathIntegrator.roulette rrThreshold x).state.bounces = x.bounces ∧
    (CvPathIntegrator.roulette rrThreshold x).state.nSampled = x.nSampled ∧
    (CvPathIntegrator.roulette rrThreshold x).state.betas = x.betas := by
  rw [roulette_eq]
  by_cases ha : CvPathIntegrator.rouletteApplies rrThreshold x
  · by_cases hu : x.sampler.Get1D.1 < CvPathIntegrator.rouletteQ x
    · rw [if_pos ha, if_pos hu]
      exact ⟨Or.inr ⟨_, rfl⟩, rfl, rfl, rfl, rfl, rfl⟩
    · rw [if_pos ha, if_neg hu]
      exact ⟨Or.inl ⟨_, rfl⟩, rfl, rfl, rfl, rfl, rfl⟩
  · rw [if_neg ha]
    exact ⟨Or.inl ⟨_, rfl⟩, rfl, rfl, rfl, rfl, rfl⟩

/-- A pass that samples a direction calls `Sample_f` exactly once and changes neither the
accumulators nor the bounce count. -/
theorem sampled_pass_fields (maxDepth : Int) (rrThreshold : ℚ) (scene : Scene)
    (s : PathState) (isect : SurfaceInteraction) (bsdf0 bsdf1 : BSDF)
    (h : CvPathIntegrator.SurfaceHit scene s isect bsdf0 bsdf1) (hd : s.bounces < maxDepth) :
    (CvPathIntegrator.iteration maxDepth rrThreshold scene s).state.L1 = s.L1 ∧
    (CvPathIntegrator.iteration maxDepth rrThreshold scene s).state.L2 = s.L2 ∧
    (CvPathIntegrator.iteration maxDepth rrThreshold scene s).state.bounces = s.bounces ∧
    (CvPathIntegrator.iteration maxDepth rrThreshold scene s).state.nSampled =
      s.nSampled + 1 ∧
    ∀ s', CvPathIntegrator.iteration maxDepth rrThreshold scene s ≠ LoopStep.nullBsdf s' := by
  rw [iteration_of_surfaceHit maxDepth rrThreshold scene s isect bsdf0 bsdf1 h hd]
  split
  · exact ⟨rfl, rfl, rfl, rfl, fun _ hc => by cases hc⟩
  · rw [scatter_eq]
    obtain ⟨p1, p2, p3, p4, _⟩ := preRoulette_fields isect bsdf0 (-s.ray.d)
      (bsdf0.Sample_f (-s.ray.d) s.sampler.Get2D.1)
      (bsdf1.f_pdf (-s.ray.d) (bsdf0.Sample_f (-s.ray.d) s.sampler.Get2D.1).wi).1
      (bsdf1.f_pdf (-s.ray.d) (bsdf0.Sample_f (-s.ray.d) s.sampler.Get2D.1).wi).2
      (CvPathIntegrator.sampledState s)
    split
    · exact ⟨p1, p2, p3, p4, fun _ hc => by cases hc⟩
    · obtain ⟨q0, q1, q2, q3, q4, _⟩ := roulette_fields rrThreshold
        (CvPathIntegrator.preRoulette isect bsdf0 (-s.ray.d)
          (bsdf0.Sample_f (-s.ray.d) s.sampler.Get2D.1)
          (bsdf1.f_pdf (-s.ray.d) (bsdf0.Sample_f (-s.ray.d) s.sampler.Get2D.1).wi).1
          (bsdf1.f_pdf (-s.ray.d) (bsdf0.Sample_f (-s.ray.d) s.sampler.Get2D.1).wi).2
          (CvPathIntegrator.sampledState s))
      refine ⟨q1.trans p1, q2.trans p2, q3.trans p3, q4.trans p4, ?_⟩
      intro s' hc
      rcases q0 with ⟨x', hx⟩ | ⟨x', hx⟩ <;> rw [hx] at hc <;> cases hc

/-- The ways a pass of the bounce loop can go: it leaves the loop without sampling (escaped
ray, emitter, depth limit), skips a surface with null scattering functions, dereferences
the null scattering functions of material 1, or samples a direction at a surface hit. -/
theorem iteration_cases (maxDepth : Int) (rrThreshold : ℚ) (scene : Scene) (s : PathState) :
    (∃ s', CvPathIntegrator.iteration maxDepth rrThreshold scene s = LoopStep.exit s' ∧
      s'.nSampled = s.nSampled ∧ s'.bounces = s.bounces ∧ s'.betas = s.betas ∧
      s'.reciprocal_pdfs = s.reciprocal_pdfs ∧ s'.sampler = s.sampler) ∨
    (∃ s' isect id, CvPathIntegrator.iteration maxDepth rrThreshold scene s = LoopStep.next s' ∧
      scene.Intersect s.ray = some isect ∧ isect.bsdf id = none ∧ s.bounces < maxDepth ∧
      s'.nSampled = s.nSampled ∧ s'.bounces = s.bounces - 1 ∧ s'.L1 = s.L1 ∧ s'.L2 = s.L2 ∧
      s'.betas = s.betas ∧ s'.reciprocal_pdfs = s.reciprocal_pdfs ∧ s'.sampler = s.sampler) ∨
    (∃ s' isect, CvPathIntegrator.iteration maxDepth rrThreshold scene s = LoopStep.nullBsdf s' ∧
      scene.Intersect s.ray = some isect ∧ isect.bsdf 1 = none ∧ s.bounces < maxDepth ∧
      s'.nSampled = s.nSampled + 1 ∧ s'.reciprocal_pdfs = s.reciprocal_pdfs) ∨
    (∃ isect bsdf0 bsdf1, CvPathIntegrator.SurfaceHit scene s isect bsdf0 bsdf1 ∧
      s.bounces < maxDepth) := by
  cases hI : scene.Intersect s.ray with
  | none =>
    left
    have e : CvPathIntegrator.iteration maxDepth rrThreshold scene s =
        LoopStep.exit { s with
          L1 := fun i => s.L1 i + s.betas 0 i *
            (scene.infiniteLights.map (fun light => light s.ray)).sum i
          L2 := fun i => s.L2 i + s.betas 1 i *
            (scene.infiniteLights.map (fun light => light s.ray)).sum i } := by
      unfold CvPathIntegrator.iteration
      simp only [hI]
      rw [foldl_addLe]
    exact ⟨_, e, rfl, rfl, rfl, rfl, rfl⟩
  | some isect =>
    by_cases hb : (isect.Le (-s.ray.d)).IsBlack = true
    · by_cases hd : s.bounces < maxDepth
      · cases hm : isect.bsdf s.materialId with
        | none =>
          right; left
          have e : CvPathIntegrator.iteration maxDepth rrThreshold scene s =
              LoopStep.next { s with
                ray := isect.SpawnRay s.ray.d
                bounces := s.bounces - 1
                nScattering := s.nScattering + 1 } := by
            unfold CvPathIntegrator.iteration
            simp only [hI, hb, Bool.not_true, Bool.false_eq_true, if_false, not_le.2 hd,
              ge_iff_le, hm]
          exact ⟨_, isect, s.materialId, e, rfl, hm, hd, rfl, rfl, rfl, rfl, rfl, rfl, rfl⟩
        | some bm =>
          cases h0 : isect.bsdf 0 with
          | none =>
            right; left
            have e : CvPathIntegrator.iteration maxDepth rrThreshold scene s =
                LoopStep.next { s with
                  ray := isect.SpawnRay s.ray.d
                  bounces := s.bounces - 1
                  materialId := 0
                  nScattering := s.nScattering + 1 + 1 } := by
              unfold CvPathIntegrator.iteration
              simp only [hI, hb, Bool.not_true, Bool.false_eq_true, if_false, not_le.2 hd,
                ge_iff_le, hm, h0]
            exact ⟨_, isect, 0, e, rfl, h0, hd, rfl, rfl, rfl, rfl, rfl, rfl, rfl⟩
          | some bsdf0 =>
            cases h1 : isect.bsdf 1 with
            | none =>
              right; right; left
              have e : CvPathIntegrator.iteration maxDepth rrThreshold scene s =
                  LoopStep.nullBsdf { s with
                    sampler := s.sampler.Get2D.2
                    materialId := 1
                    nScattering := s.nScattering + 1 + 1 + 1
                    nSampled := s.nSampled + 1 } := by
                unfold CvPathIntegrator.iteration
                simp only [hI, hb, Bool.not_true, Bool.false_eq_true, if_false, not_le.2 hd,
                  ge_iff_le, hm, h0, h1]
              exact ⟨_, isect, e, rfl, h1, hd, rfl, rfl⟩
            | some bsdf1 =>
              right; right; right
              exact ⟨isect, bsdf0, bsdf1, ⟨hI, hb, by rw [hm]; rfl, h0, h1⟩, hd⟩
      · left
        have e : CvPathIntegrator.iteration maxDepth rrThreshold scene s = LoopStep.exit s := by
          unfold CvPathIntegrator.iteration
          simp only [hI, hb, Bool.not_true, Bool.false_eq_true, if_false, ge_iff_le,
            not_lt.1 hd, if_true]
        exact ⟨s, e, rfl, rfl, rfl, rfl, rfl⟩
    · left
      have e : CvPathIntegrator.iteration maxDepth rrThreshold scene s =
          LoopStep.exit (CvPathIntegrator.addLe s (isect.Le (-s.ray.d))) := by
        unfold CvPathIntegrator.iteration
        simp only [hI, Bool.not_eq_true] at hb ⊢
        simp only [hb, Bool.not_false, if_true]
      exact ⟨_, e, rfl, rfl, rfl, rfl, rfl⟩

/-- A pass that goes on to the next one stays below the depth limit, keeps the
accumulators, and either skipped a surface with null scattering functions or sampled one
direction. -/
theorem iteration_next_facts (maxDepth : Int) (rrThreshold : ℚ) (scene : Scene)
    (s s' : PathState)
    (h : CvPathIntegrator.iteration maxDepth rrThreshold scene s = LoopStep.next s') :
    s.bounces < maxDepth ∧ s'.L1 = s.L1 ∧ s'.L2 = s.L2 ∧
    ((s'.bounces = s.bounces - 1 ∧ s'.nSampled = s.nSampled ∧
        ∃ isect id, scene.Intersect s.ray = some isect ∧ isect.bsdf id = none) ∨
      (s'.bounces = s.bounces ∧ s'.nSampled = s.nSampled + 1)) := by
  rcases iteration_cases maxDepth rrThreshold scene s with
    ⟨x, hx, _⟩ | ⟨x, isect, id, hx, hI, hn, hd, a1, a2, a3, a4, _⟩ | ⟨x, isect, hx, _⟩ |
    ⟨isect, bsdf0, bsdf1, hhit, hd⟩
  · rw [hx] at h; cases h
  · rw [hx] at h
    cases h
    exact ⟨hd, a3, a4, Or.inl ⟨a2, a1, isect, id, hI, hn⟩⟩
  · rw [hx] at h; cases h
  · obtain ⟨b1, b2, b3, b4, _⟩ :=
      sampled_pass_fields maxDepth rrThreshold scene s isect bsdf0 bsdf1 hhit hd
    rw [h] at b1 b2 b3 b4
    exact ⟨hd, b1, b2, Or.inr ⟨b3, b4⟩⟩

/-- A pass calls `Sample_f` at most once, and only below the depth limit. -/
theorem iteration_nSampled (maxDepth : Int) (rrThreshold : ℚ) (scene : Scene)
    (s : PathState) :
    (CvPathIntegrator.iteration maxDepth rrThreshold scene s).state.nSampled = s.nSampled ∨
    ((CvPathIntegrator.iteration maxDepth rrThreshold scene s).state.nSampled =
        s.nSampled + 1 ∧ s.bounces < maxDepth) := by
  rcases iteration_cases maxDepth rrThreshold scene s with
    ⟨x, hx, a1, _⟩ | ⟨x, isect, id, hx, _, _, _, a1, _⟩ | ⟨x, isect, hx, _, _, hd, a1, _⟩ |
    ⟨isect, bsdf0, bsdf1, hhit, hd⟩
  · left; rw [hx]; exact a1
  · left; rw [hx]; exact a1
  · right; rw [hx]; exact ⟨a1, hd⟩
  · right
    exact ⟨(sampled_pass_fields maxDepth rrThreshold scene s isect bsdf0 bsdf1 hhit hd).2.2.2.1,
      hd⟩

/-- At the start of every pass the accumulators are as at loop entry, the number of
`Sample_f` calls equals the bounce count, and the bounce count is at most `maxDepth`. -/
theorem stateAt_invariant (maxDepth : Int) (rrThreshold : ℚ) (scene : Scene) (s0 : PathState)
    (h0 : (s0.nSampled : Int) = s0.bounces) (hle : s0.bounces ≤ maxDepth) :
    ∀ (k : Nat) (s : PathState),
      CvPathIntegrator.stateAt maxDepth rrThreshold scene s0 k = some s →
      (s.nSampled : Int) = s.bounces ∧ s.bounces ≤ maxDepth ∧ s.L1 = s0.L1 ∧ s.L2 = s0.L2
  | 0, s, h => by
    simp only [CvPathIntegrator.stateAt, Option.some.injEq] at h
    subst h
    exact ⟨h0, hle, rfl, rfl⟩
  | k + 1, s, h => by
    simp only [CvPathIntegrator.stateAt] at h
    cases hk : CvPathIntegrator.stateAt maxDepth rrThreshold scene s0 k with
    | none => rw [hk] at h; simp at h
    | some sk =>
      rw [hk] at h
      simp only at h
      obtain ⟨i1, i2, i3, i4⟩ := stateAt_invariant maxDepth rrThreshold scene s0 h0 hle k sk hk
      cases hi : CvPathIntegrator.iteration maxDepth rrThreshold scene sk with
      | next s' =>
        rw [hi] at h
        simp only [Option.some.injEq] at h
        subst h
        obtain ⟨hd, a1, a2, hcase⟩ := iteration_next_facts maxDepth rrThreshold scene sk s' hi
        refine ⟨?_, ?_, a1.trans i3, a2.trans i4⟩
        · rcases hcase with ⟨b1, b2, _⟩ | ⟨b1, b2⟩
          · show (s'.nSampled : Int) = s'.bounces + 1
            rw [b1, b2]; omega
          · show (s'.nSampled : Int) = s'.bounces + 1
            rw [b1, b2]; push_cast; omega
        · rcases hcase with ⟨b1, _, _⟩ | ⟨b1, _⟩
          · show s'.bounces + 1 ≤ maxDepth
            rw [b1]; omega
          · show s'.bounces + 1 ≤ maxDepth
            rw [b1]; omega
      | exit s' => rw [hi] at h; simp at h
      | nullBsdf s' => rw [hi] at h; simp at h
      | fatal s' => rw [hi] at h; simp at h

/-- However the loop is left, `Sample_f` was called at most `maxDepth` times. -/
theorem loop_nSampled (maxDepth : Int) (rrThreshold : ℚ) (scene : Scene) :
    ∀ (fuel : Nat) (s : PathState) (r : LoopStep),
      (s.nSampled : Int) = s.bounces → s.bounces ≤ maxDepth →
      CvPathIntegrator.loop maxDepth rrThreshold scene fuel s = some r →
      (r.state.nSampled : Int) ≤ maxDepth
  | 0, _, _, _, _, h => by simp [CvPathIntegrator.loop] at h
  | fuel + 1, s, r, h0, hle, h => by
    simp only [CvPathIntegrator.loop] at h
    have hn := iteration_nSampled maxDepth rrThreshold scene s
    cases hi : CvPathIntegrator.iteration maxDepth rrThreshold scene s with
    | next s' =>
      rw [hi] at h
      simp only at h
      obtain ⟨hd, _, _, hcase⟩ := iteration_next_facts maxDepth rrThreshold scene s s' hi
      refine loop_nSampled maxDepth rrThreshold scene fuel _ r ?_ ?_ h
      · rcases hcase with ⟨b1, b2, _⟩ | ⟨b1, b2⟩
        · show (s'.nSampled : Int) = s'.bounces + 1
          rw [b1, b2]; omega
        · show (s'.nSampled : Int) = s'.bounces + 1
          rw [b1, b2]; push_cast; omega
      · rcases hcase with ⟨b1, _, _⟩ | ⟨b1, _⟩
        · show s'.bounces + 1 ≤ maxDepth
          rw [b1]; omega
        · show s'.bounces + 1 ≤ maxDepth
          rw [b1]; omega
    | exit s' =>
      rw [hi] at h hn
      simp only [Option.some.injEq] at h
      subst h
      simp only [LoopStep.state] at hn ⊢
      omega
    | nullBsdf s' =>
      rw [hi] at h hn
      simp only [Option.some.injEq] at h
      subst h
      simp only [LoopStep.state] at hn ⊢
      omega
    | fatal s' =>
      rw [hi] at h hn
      simp only [Option.some.injEq] at h
      subst h
      simp only [LoopStep.state] at hn ⊢
      omega

/-- When no surface has null scattering functions, the loop is left within
`maxDepth - bounces + 1` passes. -/
theorem loop_terminates (maxDepth : Int) (rrThreshold : ℚ) (scene : Scene)
    (hbsdf : ∀ ray isect id, scene.Intersect ray = some isect → (isect.bsdf id).isSome = true) :
    ∀ (fuel : Nat) (s : PathState), (maxDepth - s.bounces).toNat < fuel →
      ∃ r, CvPathIntegrator.loop maxDepth rrThreshold scene fuel s = some r ∧
        ∀ s', r ≠ LoopStep.next s' ∧ r ≠ LoopStep.nullBsdf s'
  | 0, _, h => by omega
  | fuel + 1, s, h => by
    simp only [CvPathIntegrator.loop]
    cases hi : CvPathIntegrator.iteration maxDepth rrThreshold scene s with
    | next s' =>
      simp only
      obtain ⟨hd, _, _, hcase⟩ := iteration_next_facts maxDepth rrThreshold scene s s' hi
      rcases hcase with ⟨_, _, isect, id, hI, hn⟩ | ⟨b1, _⟩
      · have := hbsdf s.ray isect id hI
        rw [hn] at this
        simp at this
      · apply loop_terminates maxDepth rrThreshold scene hbsdf fuel
        show (maxDepth - (s'.bounces + 1)).toNat < fuel
        rw [b1]
        omega
    | exit s' => exact ⟨_, rfl, fun _ => ⟨fun hc => (by cases hc), fun hc => (by cases hc)⟩⟩
    | nullBsdf s' =>
      exfalso
      rcases iteration_cases maxDepth rrThreshold scene s with
        ⟨x, hx, _⟩ | ⟨x, isect, id, hx, _⟩ | ⟨x, isect, hx, hI, hn, _⟩ |
        ⟨isect, bsdf0, bsdf1, hhit, hd⟩
      · rw [hx] at hi; cases hi
      · rw [hx] at hi; cases hi
      · have := hbsdf s.ray isect 1 hI
        rw [hn] at this
        simp at this
      · exact (sampled_pass_fields maxDepth rrThreshold scene s isect bsdf0 bsdf1 hhit hd).2.2.2.2
          s' hi
    | fatal s' => exact ⟨_, rfl, fun _ => ⟨fun hc => (by cases hc), fun hc => (by cases hc)⟩⟩

/-! ## Bounce bound and termination -/

/-- C20: for every `maxDepth ≥ 0`, scene and sampler stream, a call of `LiControlVariate`
that ends (in a return, in the null dereference or in the fatal error) has called
`BSDF::Sample_f` at most `maxDepth` times; at the start of every pass the number of calls
equals the bounce count, which is at most `maxDepth`; and when no intersection reports null
scattering functions, the loop is left within `maxDepth + 1` passes, not by a null
dereference. -/
theorem LiControlVariate_bounce_bound (maxDepth : Int) (h0 : 0 ≤ maxDepth) (rrThreshold : ℚ)
    (scene : Scene) (r : Ray) (sampler : Sampler) (materialId : Int) :
    (∀ fuel res,
      CvPathIntegrator.LiControlVariate maxDepth rrThreshold fuel r scene sampler materialId =
        some res → (res.final.nSampled : Int) ≤ maxDepth) ∧
    (∀ k s, CvPathIntegrator.stateAt maxDepth rrThreshold scene
        (CvPathIntegrator.initialState r sampler materialId) k = some s →
      (s.nSampled : Int) = s.bounces ∧ s.bounces ≤ maxDepth) ∧
    ((∀ ray isect id, scene.Intersect ray = some isect → (isect.bsdf id).isSome = true) →
      ∃ res, CvPathIntegrator.LiControlVariate maxDepth rrThreshold (maxDepth.toNat + 1) r scene
          sampler materialId = some res ∧ ∀ s, res ≠ PathResult.nullBsdf s) := by
  refine ⟨?_, ?_, ?_⟩
  · intro fuel res h
    unfold CvPathIntegrator.LiControlVariate at h
    cases hl : CvPathIntegrator.loop maxDepth rrThreshold scene fuel
        (CvPathIntegrator.initialState r sampler materialId) with
    | none => rw [hl] at h; simp at h
    | some step =>
      have hb := loop_nSampled maxDepth rrThreshold scene fuel _ step rfl h0 hl
      rw [hl] at h
      cases step with
      | next s => simp at h
      | exit s => simp only [Option.some.injEq] at h; subst h; exact hb
      | nullBsdf s => simp only [Option.some.injEq] at h; subst h; exact hb
      | fatal s => simp only [Option.some.injEq] at h; subst h; exact hb
  · intro k s hs
    obtain ⟨a, b, _⟩ := stateAt_invariant maxDepth rrThreshold scene _ rfl h0 k s hs
    exact ⟨a, b⟩
  · intro hbsdf
    obtain ⟨step, hl, hne⟩ := loop_terminates maxDepth rrThreshold scene hbsdf
      (maxDepth.toNat + 1) (CvPathIntegrator.initialState r sampler materialId)
      (by show (maxDepth - 0).toNat < maxDepth.toNat + 1; simp)
    unfold CvPathIntegrator.LiControlVariate
    rw [hl]
    cases step with
    | next s => exact absurd rfl (hne s).1
    | exit s => exact ⟨_, rfl, fun _ hc => by cases hc⟩
    | nullBsdf s => exact absurd rfl (hne s).2
    | fatal s => exact ⟨_, rfl, fun _ hc => by cases hc⟩

theorem closedScene_bsdf_isSome (fA fB : Spectrum) (ray : Ray) (isect : SurfaceInteraction)
    (id : Int) (h : (closedScene fA fB).Intersect ray = some isect) :
    (isect.bsdf id).isSome = true := by
  simp only [closedScene, Option.some.injEq] at h
  subst h
  simp only [dualSurface]
  split <;> rfl

/-- C20 (witness): the statement for `maxDepth = 2` in a closed scene of non-emitting
surfaces with branch values 1/2 and 1/4. -/
theorem LiControlVariate_bounce_bound_witness :
    (0 : Int) ≤ 2 ∧
    (∀ ray isect id, (closedScene (Spectrum.const (1 / 2)) (Spectrum.const (1 / 4))).Intersect
        ray = some isect → (isect.bsdf id).isSome = true) ∧
    ((∀ fuel res,
      CvPathIntegrator.LiControlVariate 2 1 fuel exampleRay
          (closedScene (Spectrum.const (1 / 2)) (Spectrum.const (1 / 4))) exampleSampler 0 =
        some res → (res.final.nSampled : Int) ≤ 2) ∧
    (∀ k s, CvPathIntegrator.stateAt 2 1
        (closedScene (Spectrum.const (1 / 2)) (Spectrum.const (1 / 4)))
        (CvPathIntegrator.initialState exampleRay exampleSampler 0) k = some s →
      (s.nSampled : Int) = s.bounces ∧ s.bounces ≤ 2) ∧
    ((∀ ray isect id, (closedScene (Spectrum.const (1 / 2)) (Spectrum.const (1 / 4))).Intersect
        ray = some isect → (isect.bsdf id).isSome = true) →
      ∃ res, CvPathIntegrator.LiControlVariate 2 1 ((2 : Int).toNat + 1) exampleRay
          (closedScene (Spectrum.const (1 / 2)) (Spectrum.const (1 / 4))) exampleSampler 0 =
            some res ∧ ∀ s, res ≠ PathResult.nullBsdf s)) :=
  ⟨by decide, closedScene_bsdf_isSome _ _,
    LiControlVariate_bounce_bound 2 (by decide) 1
      (closedScene (Spectrum.const (1 / 2)) (Spectrum.const (1 / 4))) exampleRay exampleSampler 0⟩

/-! ## The degenerate-sample test -/

theorem closedScene_surfaceHit (fA fB : Spectrum) (s : PathState) :
    CvPathIntegrator.SurfaceHit (closedScene fA fB) s
      (dualSurface fA fB 1 1 (fun d => ⟨⟨0, 0, 0⟩, d⟩)) (constantBSDF fA 1)
      (constantBSDF fB 1) where
  hit := rfl
  dark := by simp [dualSurface, Spectrum.IsBlack, Spectrum.const]
  bsdfCur := by
    simp only [dualSurface]
    split <;> rfl
  bsdfA := rfl
  bsdfB := rfl

/-- C14: at a pass that finds a non-emitting surface below the depth limit and whose sample
is degenerate (a black value of either branch or a zero pdf of either branch),
`LiControlVariate` returns `CvDualPixel(L1, L2, reciprocal_pdfs[0])` with throughputs and
reciprocal pdfs as they were before that pass; when the sample is not degenerate both pdfs
are non-zero and the pass goes on to the update that divides by them; and a pass of any
kind either leaves the reciprocal pdfs alone or is such a non-degenerate pass. -/
theorem degenerate_sample_terminates (maxDepth : Int) (rrThreshold : ℚ) (scene : Scene) (r : Ray)
    (sampler : Sampler) (materialId : Int) (k : Nat) (s : PathState)
    (hs : CvPathIntegrator.stateAt maxDepth rrThreshold scene
      (CvPathIntegrator.initialState r sampler materialId) k = some s)
    (isect : SurfaceInteraction) (bsdf0 bsdf1 : BSDF)
    (hhit : CvPathIntegrator.SurfaceHit scene s isect bsdf0 bsdf1) (hd : s.bounces < maxDepth)
    (smp : BSDFSample) (hsmp : smp = bsdf0.Sample_f (-s.ray.d) s.sampler.Get2D.1)
    (fp : Spectrum × ℚ) (hfp : fp = bsdf1.f_pdf (-s.ray.d) smp.wi) :
    ((smp.f.IsBlack ∨ fp.1.IsBlack ∨ smp.pdf = 0 ∨ fp.2 = 0) →
      ∀ fuel, ∃ final,
        CvPathIntegrator.LiControlVariate maxDepth rrThreshold (k + (fuel + 1)) r scene sampler
            materialId =
          some (PathResult.returned (CvDualPixel.new s.L1 s.L2 (s.reciprocal_pdfs 0)) final) ∧
        final.betas = s.betas ∧ final.reciprocal_pdfs = s.reciprocal_pdfs) ∧
    (¬ (smp.f.IsBlack ∨ fp.1.IsBlack ∨ smp.pdf = 0 ∨ fp.2 = 0) →
      smp.pdf ≠ 0 ∧ fp.2 ≠ 0 ∧
      CvPathIntegrator.iteration maxDepth rrThreshold scene s =
        CvPathIntegrator.scatter rrThreshold isect bsdf0 (-s.ray.d) smp fp.1 fp.2
          (CvPathIntegrator.sampledState s) ∧
      (CvPathIntegrator.preRoulette isect bsdf0 (-s.ray.d) smp fp.1 fp.2
          (CvPathIntegrator.sampledState s)).reciprocal_pdfs 0 =
        s.reciprocal_pdfs 0 / smp.pdf ∧
      (CvPathIntegrator.preRoulette isect bsdf0 (-s.ray.d) smp fp.1 fp.2
          (CvPathIntegrator.sampledState s)).reciprocal_pdfs 1 =
        s.reciprocal_pdfs 1 / fp.2) ∧
    (∀ x : PathState,
      (CvPathIntegrator.iteration maxDepth rrThreshold scene x).state.reciprocal_pdfs =
          x.reciprocal_pdfs ∨
        ∃ isect' b0 b1, CvPathIntegrator.SurfaceHit scene x isect' b0 b1 ∧
          x.bounces < maxDepth ∧ (b0.Sample_f (-x.ray.d) x.sampler.Get2D.1).pdf ≠ 0 ∧
          (b1.f_pdf (-x.ray.d) (b0.Sample_f (-x.ray.d) x.sampler.Get2D.1).wi).2 ≠ 0) := by
  subst hsmp
  subst hfp
  refine ⟨?_, ?_, ?_⟩
  · intro hdeg fuel
    have e := iteration_of_surfaceHit maxDepth rrThreshold scene s isect bsdf0 bsdf1 hhit hd
    rw [if_pos hdeg] at e
    exact ⟨_, LiControlVariate_of_exit maxDepth rrThreshold scene r sampler materialId k s _ hs e
      fuel, rfl, rfl⟩
  · intro hnd
    have e := iteration_of_surfaceHit maxDepth rrThreshold scene s isect bsdf0 bsdf1 hhit hd
    rw [if_neg hnd] at e
    obtain ⟨_, _, _, _, _, _, _, _, _, p0, p1⟩ := preRoulette_fields isect bsdf0 (-s.ray.d)
      (bsdf0.Sample_f (-s.ray.d) s.sampler.Get2D.1)
      (bsdf1.f_pdf (-s.ray.d) (bsdf0.Sample_f (-s.ray.d) s.sampler.Get2D.1).wi).1
      (bsdf1.f_pdf (-s.ray.d) (bsdf0.Sample_f (-s.ray.d) s.sampler.Get2D.1).wi).2
      (CvPathIntegrator.sampledState s)
    simp only [not_or] at hnd
    exact ⟨hnd.2.2.1, hnd.2.2.2, e, p0, p1⟩
  · intro x
    rcases iteration_cases maxDepth rrThreshold scene x with
      ⟨x', hx, _, _, _, a, _⟩ | ⟨x', i', id, hx, _, _, _, _, _, _, _, _, a, _⟩ |
      ⟨x', i', hx, _, _, _, _, a⟩ | ⟨i', b0, b1, hh, hdx⟩
    · left; rw [hx]; exact a
    · left; rw [hx]; exact a
    · left; rw [hx]; exact a
    · by_cases hdeg : (b0.Sample_f (-x.ray.d) x.sampler.Get2D.1).f.IsBlack ∨
          (b1.f_pdf (-x.ray.d) (b0.Sample_f (-x.ray.d) x.sampler.Get2D.1).wi).1.IsBlack ∨
          (b0.Sample_f (-x.ray.d) x.sampler.Get2D.1).pdf = 0 ∨
          (b1.f_pdf (-x.ray.d) (b0.Sample_f (-x.ray.d) x.sampler.Get2D.1).wi).2 = 0
      · left
        rw [iteration_of_surfaceHit maxDepth rrThreshold scene x i' b0 b1 hh hdx, if_pos hdeg]
        rfl
      · right
        simp only [not_or] at hdeg
        exact ⟨i', b0, b1, hh, hdx, hdeg.2.2.1, hdeg.2.2.2⟩

/-- C14 (witness): in a closed scene whose branch-A value is black the first pass is
degenerate, and the call returns the zero radiances with reciprocal pdf 1. -/
theorem degenerate_sample_terminates_witness :
    ∃ final,
      CvPathIntegrator.LiControlVariate 5 1 1 exampleRay
          (closedScene (Spectrum.const 0) (Spectrum.const (1 / 4))) exampleSampler 0 =
        some (PathResult.returned (CvDualPixel.new (Spectrum.const 0) (Spectrum.const 0) 1)
          final) ∧
      final.betas = (fun _ => Spectrum.const 1) ∧ final.reciprocal_pdfs = (fun _ => 1) :=
  (degenerate_sample_terminates 5 1 (closedScene (Spectrum.const 0) (Spectrum.const (1 / 4)))
    exampleRay exampleSampler 0 0 (CvPathIntegrator.initialState exampleRay exampleSampler 0) rfl
    _ _ _ (closedScene_surfaceHit _ _ _) (by decide) _ rfl _ rfl).1
    (Or.inl (by simp [constantBSDF, Spectrum.IsBlack, Spectrum.const])) 0

/-! ## Escaped rays -/

/-- At the start of every pass both accumulators are as they were at loop entry. -/
theorem stateAt_accumulators (maxDepth : Int) (rrThreshold : ℚ) (scene : Scene)
    (s0 : PathState) :
    ∀ (k : Nat) (s : PathState),
      CvPathIntegrator.stateAt maxDepth rrThreshold scene s0 k = some s →
      s.L1 = s0.L1 ∧ s.L2 = s0.L2
  | 0, s, h => by
    simp only [CvPathIntegrator.stateAt, Option.some.injEq] at h
    subst h
    exact ⟨rfl, rfl⟩
  | k + 1, s, h => by
    simp only [CvPathIntegrator.stateAt] at h
    cases hk : CvPathIntegrator.stateAt maxDepth rrThreshold scene s0 k with
    | none => rw [hk] at h; simp at h
    | some sk =>
      rw [hk] at h
      simp only at h
      obtain ⟨i1, i2⟩ := stateAt_accumulators maxDepth rrThreshold scene s0 k sk hk
      cases hi : CvPathIntegrator.iteration maxDepth rrThreshold scene sk with
      | next s' =>
        rw [hi] at h
        simp only [Option.some.injEq] at h
        subst h
        obtain ⟨_, a1, a2, _⟩ := iteration_next_facts maxDepth rrThreshold scene sk s' hi
        exact ⟨a1.trans i1, a2.trans i2⟩
      | exit s' => rw [hi] at h; simp at h
      | nullBsdf s' => rw [hi] at h; simp at h
      | fatal s' => rw [hi] at h; simp at h

/-- A pass whose ray finds no intersection ends in a `break` after adding, per branch, the
throughput times the summed emission of the infinite lights. -/
theorem iteration_escaped (maxDepth : Int) (rrThreshold : ℚ) (scene : Scene) (s : PathState)
    (hesc : scene.Intersect s.ray = none) :
    CvPathIntegrator.iteration maxDepth rrThreshold scene s =
      LoopStep.exit { s with
        L1 := fun i => s.L1 i + s.betas 0 i *
          (scene.infiniteLights.map (fun light => light s.ray)).sum i
        L2 := fun i => s.L2 i + s.betas 1 i *
          (scene.infiniteLights.map (fun light => light s.ray)).sum i } := by
  unfold CvPathIntegrator.iteration
  simp only [hesc]
  rw [foldl_addLe]

/-- C16 (counterexample): in the open scene a camera ray hits a surface whose branch values
are 1/2 and 1/4 (pdf 1, cosine 1) and the spawned ray escapes to one infinite light of
radiance 1. The call returns with 1/2 added to `L1` and 1/4 added to `L2`: the two amounts
differ, and neither is the sum 1 of the infinite lights. -/
theorem escaped_ray_weighted_by_throughput :
    (CvPathIntegrator.LiControlVariate 5 1 2 exampleRay
        (openScene (Spectrum.const (1 / 2)) (Spectrum.const (1 / 4))) exampleSampler 0).map
      (fun res => (res.final.L1 0, res.final.L2 0, res.final.bounces,
        ((openScene (Spectrum.const (1 / 2)) (Spectrum.const (1 / 4))).infiniteLights.map
          (fun light => light res.final.ray)).sum 0)) =
      some (1 / 2, 1 / 4, 1, 1) := by
  decide!

/-- C16 (amended): whenever the ray of a pass finds no intersection, `LiControlVariate`
returns at that pass; the amount added to `L1` is `betas[0]` times the sum over all infinite
lights of `Le(ray)` and the amount added to `L2` is `betas[1]` times that sum (both
accumulators were zero before), and throughputs and reciprocal pdfs are left as they
were. -/
theorem escaped_ray_adds_weighted_emission (maxDepth : Int) (rrThreshold : ℚ) (scene : Scene)
    (r : Ray) (sampler : Sampler) (materialId : Int) (k : Nat) (s : PathState)
    (hs : CvPathIntegrator.stateAt maxDepth rrThreshold scene
      (CvPathIntegrator.initialState r sampler materialId) k = some s)
    (hesc : scene.Intersect s.ray = none) :
    s.L1 = Spectrum.const 0 ∧ s.L2 = Spectrum.const 0 ∧
    ∃ final,
      (∀ fuel, CvPathIntegrator.LiControlVariate maxDepth rrThreshold (k + (fuel + 1)) r scene
          sampler materialId =
        some (PathResult.returned
          (CvDualPixel.new final.L1 final.L2 (s.reciprocal_pdfs 0)) final)) ∧
      (∀ i, final.L1 i =
        s.betas 0 i * (scene.infiniteLights.map (fun light => light s.ray)).sum i) ∧
      (∀ i, final.L2 i =
        s.betas 1 i * (scene.infiniteLights.map (fun light => light s.ray)).sum i) ∧
      final.betas = s.betas ∧ final.reciprocal_pdfs = s.reciprocal_pdfs := by
  obtain ⟨z1, z2⟩ := stateAt_accumulators maxDepth rrThreshold scene _ k s hs
  have z1' : s.L1 = Spectrum.const 0 := z1
  have z2' : s.L2 = Spectrum.const 0 := z2
  refine ⟨z1', z2', _, fun fuel => LiControlVariate_of_exit maxDepth rrThreshold scene r sampler
    materialId k s _ hs (iteration_escaped maxDepth rrThreshold scene s hesc) fuel, ?_, ?_,
    rfl, rfl⟩
  · intro i
    show s.L1 i + _ = _
    rw [z1']
    simp [Spectrum.const]
  · intro i
    show s.L2 i + _ = _
    rw [z2']
    simp [Spectrum.const]

theorem openScene_second_pass :
    (CvPathIntegrator.stateAt 5 1 (openScene (Spectrum.const (1 / 2)) (Spectrum.const (1 / 4)))
      (CvPathIntegrator.initialState exampleRay exampleSampler 0) 1).isSome = true := by
  decide!

/-- C16 (witness): the amended statement at the second pass of the open scene, where the
throughputs are 1/2 and 1/4 and the infinite light has radiance 1. -/
theorem escaped_ray_adds_weighted_emission_witness :
    ∃ final,
      (∀ fuel, CvPathIntegrator.LiControlVariate 5 1 (1 + (fuel + 1)) exampleRay
          (openScene (Spectrum.const (1 / 2)) (Spectrum.const (1 / 4))) exampleSampler 0 =
        some (PathResult.returned (CvDualPixel.new final.L1 final.L2 1) final)) ∧
      final.L1 0 = 1 / 2 ∧ final.L2 0 = 1 / 4 := by
  obtain ⟨_, _, final, h1, h2, h3, _⟩ := escaped_ray_adds_weighted_emission 5 1
    (openScene (Spectrum.const (1 / 2)) (Spectrum.const (1 / 4))) exampleRay exampleSampler 0 1
    (Option.get _ openScene_second_pass) (Option.some_get openScene_second_pass).symm
    (Option.isNone_iff_eq_none.1 (by decide!))
  have e : (Option.get _ openScene_second_pass).reciprocal_pdfs 0 = 1 := by decide!
  rw [e] at h1
  refine ⟨final, h1, ?_, ?_⟩
  · rw [h2 0]
    decide!
  · rw [h3 0]
    decide!

/-! ## The Russian-roulette rule -/

/-- C15 (counterexample): in a closed scene whose surfaces have branch values 2 (pdf 1,
cosine 1) and with `rrThreshold = 1`, the pass with bounce index 4 reaches the roulette
block with `rrBeta = 32`, so the guard `rrBeta.MaxComponentValue() < rrThreshold + 1` fails:
the pass draws only its two values of the 2D sample (the cursor goes from 8 to 10, no 1D
sample), the reciprocal pdfs stay 1 (not 1 / (1 - q) = 20/19), and the path continues. -/
theorem roulette_skipped_above_threshold :
    (CvPathIntegrator.stateAt 10 1 (closedScene (Spectrum.const 2) (Spectrum.const 2))
        (CvPathIntegrator.initialState exampleRay exampleSampler 0) 4).map
      (fun s => (s.bounces, s.sampler.pos, s.reciprocal_pdfs 0, s.reciprocal_pdfs 1,
        s.betas 0 0)) = some (4, 8, 1, 1, 16) ∧
    (CvPathIntegrator.stateAt 10 1 (closedScene (Spectrum.const 2) (Spectrum.const 2))
        (CvPathIntegrator.initialState exampleRay exampleSampler 0) 5).map
      (fun s => (s.bounces, s.sampler.pos, s.reciprocal_pdfs 0, s.reciprocal_pdfs 1,
        s.betas 0 0, CvPathIntegrator.rouletteQ { s with bounces := 4 })) =
      some (5, 10, 1, 1, 32, 1 / 20) := by
  decide!

/-- C15 (amended): let a pass with bounce index `s.bounces` reach the roulette block in
state `x` (after the throughput update, with the same bounce index), and let
`q = max(0.05, 1 - maxComponent(betas[0] * etaScale * reciprocal_pdfs[0]))`. When
`maxComponent(betas[0] * etaScale * reciprocal_pdfs[0]) < rrThreshold + 1` and the bounce
index is > 3, exactly one 1D sample `u` is drawn, and if `u < q` both reciprocal pdfs are
divided by `q` and the loop is left, otherwise both are divided by `1 - q` and the path
continues. When that guard fails, in particular at bounce indices 0..3, no sample is drawn
and the state is not modified by the roulette block. -/
theorem roulette_rule (maxDepth : Int) (rrThreshold : ℚ) (scene : Scene) (s : PathState)
    (isect : SurfaceInteraction) (bsdf0 bsdf1 : BSDF)
    (hhit : CvPathIntegrator.SurfaceHit scene s isect bsdf0 bsdf1) (hd : s.bounces < maxDepth)
    (smp : BSDFSample) (hsmp : smp = bsdf0.Sample_f (-s.ray.d) s.sampler.Get2D.1)
    (fp : Spectrum × ℚ) (hfp : fp = bsdf1.f_pdf (-s.ray.d) smp.wi)
    (hnd : ¬ (smp.f.IsBlack ∨ fp.1.IsBlack ∨ smp.pdf = 0 ∨ fp.2 = 0))
    (hnf : ¬ (isect.bssrdf ∧ smp.flag.transmission))
    (x : PathState)
    (hx : x = CvPathIntegrator.preRoulette isect bsdf0 (-s.ray.d) smp fp.1 fp.2
      (CvPathIntegrator.sampledState s)) :
    x.bounces = s.bounces ∧
    x.sampler = ⟨s.sampler.stream, s.sampler.pos + 2⟩ ∧
    CvPathIntegrator.rouletteQ x =
      max (1 / 20) (1 - Spectrum.MaxComponentValue
        (fun i => x.betas 0 i * x.etaScale * x.reciprocal_pdfs 0)) ∧
    ((Spectrum.MaxComponentValue (fun i => x.betas 0 i * x.etaScale * x.reciprocal_pdfs 0) <
        rrThreshold + 1 ∧ s.bounces > 3) →
      (x.sampler.stream x.sampler.pos < CvPathIntegrator.rouletteQ x →
        CvPathIntegrator.iteration maxDepth rrThreshold scene s =
          LoopStep.exit { x with
            sampler := ⟨x.sampler.stream, x.sampler.pos + 1⟩
            reciprocal_pdfs := fun i => x.reciprocal_pdfs i / CvPathIntegrator.rouletteQ x }) ∧
      (¬ x.sampler.stream x.sampler.pos < CvPathIntegrator.rouletteQ x →
        CvPathIntegrator.iteration maxDepth rrThreshold scene s =
          LoopStep.next { x with
            sampler := ⟨x.sampler.stream, x.sampler.pos + 1⟩
            reciprocal_pdfs := fun i =>
              x.reciprocal_pdfs i / (1 - CvPathIntegrator.rouletteQ x) })) ∧
    (¬ (Spectrum.MaxComponentValue (fun i => x.betas 0 i * x.etaScale * x.reciprocal_pdfs 0) <
        rrThreshold + 1 ∧ s.bounces > 3) →
      CvPathIntegrator.iteration maxDepth rrThreshold scene s = LoopStep.next x) ∧
    (s.bounces ≤ 3 → CvPathIntegrator.iteration maxDepth rrThreshold scene s = LoopStep.next x) := by
  subst hsmp
  subst hfp
  have e := iteration_of_surfaceHit maxDepth rrThreshold scene s isect bsdf0 bsdf1 hhit hd
  rw [if_neg hnd, scatter_eq, if_neg hnf, roulette_eq, ← hx] at e
  obtain ⟨_, _, pb, _, ps, _⟩ := preRoulette_fields isect bsdf0 (-s.ray.d)
    (bsdf0.Sample_f (-s.ray.d) s.sampler.Get2D.1)
    (bsdf1.f_pdf (-s.ray.d) (bsdf0.Sample_f (-s.ray.d) s.sampler.Get2D.1).wi).1
    (bsdf1.f_pdf (-s.ray.d) (bsdf0.Sample_f (-s.ray.d) s.sampler.Get2D.1).wi).2
    (CvPathIntegrator.sampledState s)
  rw [← hx] at pb ps
  have hb : x.bounces = s.bounces := pb
  have hguard : CvPathIntegrator.rouletteApplies rrThreshold x ↔
      (Spectrum.MaxComponentValue (fun i => x.betas 0 i * x.etaScale * x.reciprocal_pdfs 0) <
        rrThreshold + 1 ∧ s.bounces > 3) := by
    unfold CvPathIntegrator.rouletteApplies CvPathIntegrator.rrBeta
    rw [hb]
  have hno : ¬ (Spectrum.MaxComponentValue
        (fun i => x.betas 0 i * x.etaScale * x.reciprocal_pdfs 0) < rrThreshold + 1 ∧
        s.bounces > 3) →
      CvPathIntegrator.iteration maxDepth rrThreshold scene s = LoopStep.next x := by
    intro hg
    rw [e, if_neg (fun h => hg (hguard.1 h))]
  refine ⟨hb, ps, rfl, ?_, hno, ?_⟩
  · intro hg
    have ha := hguard.2 hg
    constructor
    · intro hu
      have hu' : x.sampler.Get1D.1 < CvPathIntegrator.rouletteQ x := hu
      rw [e, if_pos ha, if_pos hu']
      rfl
    · intro hu
      have hu' : ¬ x.sampler.Get1D.1 < CvPathIntegrator.rouletteQ x := hu
      rw [e, if_pos ha, if_neg hu']
      rfl
  · intro h3
    exact hno (fun hg => absurd hg.2 (not_lt.2 h3))

theorem closedScene_fifth_pass :
    (CvPathIntegrator.stateAt 10 1
      (closedScene (Spectrum.const (1 / 2)) (Spectrum.const (1 / 4)))
      (CvPathIntegrator.initialState exampleRay exampleSampler 0) 4).isSome = true := by
  decide!

/-- C15 (witness): the amended statement at the pass with bounce index 4 of a closed scene
with branch values 1/2 and 1/4: `q = 31/32`, the sample 1/2 is below it, the pass draws its
third value and leaves the loop with both reciprocal pdfs 32/31. -/
theorem roulette_rule_witness :
    ∃ x', CvPathIntegrator.iteration 10 1
        (closedScene (Spectrum.const (1 / 2)) (Spectrum.const (1 / 4)))
        (Option.get _ closedScene_fifth_pass) = LoopStep.exit x' ∧
      x'.bounces = 4 ∧ x'.sampler.pos = 11 ∧ x'.reciprocal_pdfs 0 = 32 / 31 ∧
      x'.reciprocal_pdfs 1 = 32 / 31 := by
  refine ⟨_, ((roulette_rule 10 1
    (closedScene (Spectrum.const (1 / 2)) (Spectrum.const (1 / 4)))
    (Option.get _ closedScene_fifth_pass) _ _ _ (closedScene_surfaceHit _ _ _) (by decide!)
    _ rfl _ rfl (by simp [constantBSDF, Spectrum.IsBlack, Spectrum.const])
    (by simp [dualSurface]) _ rfl).2.2.2.1 (by decide!)).1 (by decide!), ?_, ?_, ?_, ?_⟩ <;>
    decide!

/-! ## Unbiasedness of the roulette step -/

/-- A pass that samples a non-degenerate direction at a surface without subsurface
transmission ends as its roulette block does. -/
theorem iteration_roulette (maxDepth : Int) (rrThreshold : ℚ) (scene : Scene) (s : PathState)
    (isect : SurfaceInteraction) (bsdf0 bsdf1 : BSDF)
    (hhit : CvPathIntegrator.SurfaceHit scene s isect bsdf0 bsdf1) (hd : s.bounces < maxDepth)
    (smp : BSDFSample) (hsmp : smp = bsdf0.Sample_f (-s.ray.d) s.sampler.Get2D.1)
    (fp : Spectrum × ℚ) (hfp : fp = bsdf1.f_pdf (-s.ray.d) smp.wi)
    (hnd : ¬ (smp.f.IsBlack ∨ fp.1.IsBlack ∨ smp.pdf = 0 ∨ fp.2 = 0))
    (hnf : ¬ (isect.bssrdf ∧ smp.flag.transmission)) :
    CvPathIntegrator.iteration maxDepth rrThreshold scene s =
      CvPathIntegrator.roulette rrThreshold
        (CvPathIntegrator.preRoulette isect bsdf0 (-s.ray.d) smp fp.1 fp.2
          (CvPathIntegrator.sampledState s)) := by
  subst hsmp
  subst hfp
  rw [iteration_of_surfaceHit maxDepth rrThreshold scene s isect bsdf0 bsdf1 hhit hd,
    if_neg hnd, scatter_eq, if_neg hnf]

/-- C13: let a pass reach the roulette block in state `x` with the guard of the block
satisfied, and let the termination probability `q` of the block be below 1. Then
`0.05 ≤ q`; when the drawn sample is below `q` the call returns a record whose primary and
secondary radiance are zero; otherwise the path goes on to the next pass with both
reciprocal pdfs equal to the pre-roulette ones divided by `1 - q` and unchanged
throughputs; and for every pre-roulette weight `w` the probability-weighted post-roulette
weight `q * 0 + (1 - q) * (w / (1 - q))` equals `w`. -/
theorem roulette_unbiased (maxDepth : Int) (rrThreshold : ℚ) (scene : Scene) (r : Ray)
    (sampler : Sampler) (materialId : Int) (k : Nat) (s : PathState)
    (hs : CvPathIntegrator.stateAt maxDepth rrThreshold scene
      (CvPathIntegrator.initialState r sampler materialId) k = some s)
    (isect : SurfaceInteraction) (bsdf0 bsdf1 : BSDF)
    (hhit : CvPathIntegrator.SurfaceHit scene s isect bsdf0 bsdf1) (hd : s.bounces < maxDepth)
    (smp : BSDFSample) (hsmp : smp = bsdf0.Sample_f (-s.ray.d) s.sampler.Get2D.1)
    (fp : Spectrum × ℚ) (hfp : fp = bsdf1.f_pdf (-s.ray.d) smp.wi)
    (hnd : ¬ (smp.f.IsBlack ∨ fp.1.IsBlack ∨ smp.pdf = 0 ∨ fp.2 = 0))
    (hnf : ¬ (isect.bssrdf ∧ smp.flag.transmission))
    (x : PathState)
    (hx : x = CvPathIntegrator.preRoulette isect bsdf0 (-s.ray.d) smp fp.1 fp.2
      (CvPathIntegrator.sampledState s))
    (happ : CvPathIntegrator.rouletteApplies rrThreshold x)
    (q : ℚ) (hq : q = CvPathIntegrator.rouletteQ x) (hq1 : q < 1) :
    1 / 20 ≤ q ∧
    (x.sampler.Get1D.1 < q → ∀ fuel, ∃ final,
      CvPathIntegrator.LiControlVariate maxDepth rrThreshold (k + (fuel + 1)) r scene sampler
          materialId =
        some (PathResult.returned
          (CvDualPixel.new (Spectrum.const 0) (Spectrum.const 0) (final.reciprocal_pdfs 0))
          final) ∧
      (∀ i, final.reciprocal_pdfs i = x.reciprocal_pdfs i / q) ∧
      final.L1 = Spectrum.const 0 ∧ final.L2 = Spectrum.const 0 ∧
      ∀ i, (CvDualPixel.new (Spectrum.const 0) (Spectrum.const 0)
            (final.reciprocal_pdfs 0)).L1 i = 0 ∧
        (CvDualPixel.new (Spectrum.const 0) (Spectrum.const 0)
            (final.reciprocal_pdfs 0)).L2 i = 0) ∧
    (¬ x.sampler.Get1D.1 < q → ∃ s',
      CvPathIntegrator.stateAt maxDepth rrThreshold scene
        (CvPathIntegrator.initialState r sampler materialId) (k + 1) = some s' ∧
      (∀ i, s'.reciprocal_pdfs i = x.reciprocal_pdfs i / (1 - q)) ∧ s'.betas = x.betas) ∧
    (∀ w : ℚ, q * 0 + (1 - q) * (w / (1 - q)) = w) := by
  have e := iteration_roulette maxDepth rrThreshold scene s isect bsdf0 bsdf1 hhit hd smp hsmp
    fp hfp hnd hnf
  rw [← hx, roulette_eq, if_pos happ, ← hq] at e
  obtain ⟨z1, z2⟩ := stateAt_accumulators maxDepth rrThreshold scene _ k s hs
  obtain ⟨p1, p2, _⟩ := preRoulette_fields isect bsdf0 (-s.ray.d) smp fp.1 fp.2
    (CvPathIntegrator.sampledState s)
  rw [← hx] at p1 p2
  have hL1 : x.L1 = Spectrum.const 0 := p1.trans z1
  have hL2 : x.L2 = Spectrum.const 0 := p2.trans z2
  refine ⟨?_, ?_, ?_, ?_⟩
  · rw [hq]
    exact le_max_left _ _
  · intro hu fuel
    rw [if_pos hu] at e
    have h := LiControlVariate_of_exit maxDepth rrThreshold scene r sampler materialId k s _ hs e
      fuel
    refine ⟨{ x with
      sampler := x.sampler.Get1D.2
      reciprocal_pdfs := fun i => x.reciprocal_pdfs i / q }, ?_, fun _ => rfl, hL1, hL2,
      fun i => ?_⟩
    · rw [h]
      show some (PathResult.returned (CvDualPixel.new x.L1 x.L2 _) _) = _
      rw [hL1, hL2]
    · simp [CvDualPixel.new, Spectrum.const]
  · intro hu
    rw [if_neg hu] at e
    refine ⟨{ x with
      sampler := x.sampler.Get1D.2
      reciprocal_pdfs := fun i => x.reciprocal_pdfs i / (1 - q)
      bounces := x.bounces + 1 }, ?_, fun _ => rfl, rfl⟩
    simp only [CvPathIntegrator.stateAt, hs, e]
  · intro w
    have h1 : (1 - q) ≠ 0 := by linarith
    field_simp

theorem closedScene_fifth_pass_late :
    (CvPathIntegrator.stateAt 10 1
      (closedScene (Spectrum.const (1 / 2)) (Spectrum.const (1 / 4)))
      (CvPathIntegrator.initialState exampleRay ⟨fun _ => 99 / 100, 0⟩ 0) 4).isSome = true := by
  decide!

/-- C13 (witness): the statement at the pass with bounce index 4 of a closed scene with
branch values 1/2 and 1/4 (`q = 31/32`, pre-roulette weight 1), once with the sample 1/2
(terminated) and once with the sample 99/100 (survives with weight 32). -/
theorem roulette_unbiased_witness :
    (∀ fuel, ∃ final,
      CvPathIntegrator.LiControlVariate 10 1 (4 + (fuel + 1)) exampleRay
          (closedScene (Spectrum.const (1 / 2)) (Spectrum.const (1 / 4))) exampleSampler 0 =
        some (PathResult.returned
          (CvDualPixel.new (Spectrum.const 0) (Spectrum.const 0) (final.reciprocal_pdfs 0))
          final) ∧
      final.reciprocal_pdfs 0 = 32 / 31) ∧
    (∃ s', CvPathIntegrator.stateAt 10 1
        (closedScene (Spectrum.const (1 / 2)) (Spectrum.const (1 / 4)))
        (CvPathIntegrator.initialState exampleRay ⟨fun _ => 99 / 100, 0⟩ 0) 5 = some s' ∧
      s'.reciprocal_pdfs 0 = 32 ∧ s'.betas 0 0 = 1 / 32) := by
  constructor
  · intro fuel
    obtain ⟨final, h, hr, _⟩ := (roulette_unbiased 10 1
      (closedScene (Spectrum.const (1 / 2)) (Spectrum.const (1 / 4))) exampleRay exampleSampler
      0 4 (Option.get _ closedScene_fifth_pass) (Option.some_get closedScene_fifth_pass).symm
      _ _ _ (closedScene_surfaceHit _ _ _) (by decide!) _ rfl _ rfl
      (by simp [constantBSDF, Spectrum.IsBlack, Spectrum.const]) (by simp [dualSurface]) _ rfl
      (by decide!) _ rfl (by decide!)).2.1 (by decide!) fuel
    exact ⟨final, h, (hr 0).trans (by decide!)⟩
  · obtain ⟨s', h, hr, hb⟩ := (roulette_unbiased 10 1
      (closedScene (Spectrum.const (1 / 2)) (Spectrum.const (1 / 4))) exampleRay
      ⟨fun _ => 99 / 100, 0⟩
      0 4 (Option.get _ closedScene_fifth_pass_late)
      (Option.some_get closedScene_fifth_pass_late).symm
      _ _ _ (closedScene_surfaceHit _ _ _) (by decide!) _ rfl _ rfl
      (by simp [constantBSDF, Spectrum.IsBlack, Spectrum.const]) (by simp [dualSurface]) _ rfl
      (by decide!) _ rfl (by decide!)).2.2.1 (by decide!)
    refine ⟨s', h, (hr 0).trans (by decide!), ?_⟩
    rw [hb]
    decide!

/-! ## Closed form of the dual estimate -/

/-- A pass whose ray hits an emitting surface adds the emission, weighted per branch by the
throughput, and ends in a `break`. -/
theorem iteration_emitter (maxDepth : Int) (rrThreshold : ℚ) (scene : Scene) (s : PathState)
    (isect : SurfaceInteraction) (hI : scene.Intersect s.ray = some isect)
    (hLe : (isect.Le (-s.ray.d)).IsBlack = false) :
    CvPathIntegrator.iteration maxDepth rrThreshold scene s =
      LoopStep.exit (CvPathIntegrator.addLe s (isect.Le (-s.ray.d))) := by
  unfold CvPathIntegrator.iteration
  simp only [hI, hLe, Bool.not_false, if_true]

/-- A non-degenerate bounce without roulette leads to the next pass in the state left by
the throughput update, with the bounce count incremented. -/
theorem stateAt_succ_of_bounce (maxDepth : Int) (rrThreshold : ℚ) (scene : Scene)
    (s0 : PathState) (k : Nat) (s : PathState)
    (hs : CvPathIntegrator.stateAt maxDepth rrThreshold scene s0 k = some s)
    (isect : SurfaceInteraction) (bsdf0 bsdf1 : BSDF)
    (hhit : CvPathIntegrator.SurfaceHit scene s isect bsdf0 bsdf1) (hd : s.bounces < maxDepth)
    (smp : BSDFSample) (hsmp : smp = bsdf0.Sample_f (-s.ray.d) s.sampler.Get2D.1)
    (fp : Spectrum × ℚ) (hfp : fp = bsdf1.f_pdf (-s.ray.d) smp.wi)
    (hnd : ¬ (smp.f.IsBlack ∨ fp.1.IsBlack ∨ smp.pdf = 0 ∨ fp.2 = 0))
    (hnf : ¬ (isect.bssrdf ∧ smp.flag.transmission))
    (hnr : ¬ CvPathIntegrator.rouletteApplies rrThreshold
      (CvPathIntegrator.preRoulette isect bsdf0 (-s.ray.d) smp fp.1 fp.2
        (CvPathIntegrator.sampledState s))) :
    CvPathIntegrator.stateAt maxDepth rrThreshold scene s0 (k + 1) =
      some { CvPathIntegrator.preRoulette isect bsdf0 (-s.ray.d) smp fp.1 fp.2
          (CvPathIntegrator.sampledState s) with
        bounces := (CvPathIntegrator.preRoulette isect bsdf0 (-s.ray.d) smp fp.1 fp.2
          (CvPathIntegrator.sampledState s)).bounces + 1 } := by
  have e := iteration_roulette maxDepth rrThreshold scene s isect bsdf0 bsdf1 hhit hd smp hsmp
    fp hfp hnd hnf
  rw [roulette_eq, if_neg hnr] at e
  simp only [CvPathIntegrator.stateAt, hs, e]

/-- C17: for a path with `n` non-degenerate bounces (each below the depth limit, without
roulette, null scattering functions or the subsurface error) with per-bounce values
`fA k`, `fB k`, pdf `pdfA k` of branch A and shared cosine `G k`, that then hits an emitter
of emission `Le`, `LiControlVariate` returns `CvDualPixel(L1, L2, r)` with
`L1 = (∏ k, fA k * G k) * Le`, `L2 = (∏ k, fB k * G k) * Le` and `r = ∏ k, 1 / pdfA k`; the
pdfs of branch B do not occur in the returned record. -/
theorem dual_estimate_closed_form (maxDepth : Int) (rrThreshold : ℚ) (scene : Scene) (r : Ray)
    (sampler : Sampler) (materialId : Int) (n : Nat)
    (fA fB : Nat → Spectrum) (pdfA G : Nat → ℚ)
    (hb : ∀ k, k < n → ∀ s, CvPathIntegrator.stateAt maxDepth rrThreshold scene
        (CvPathIntegrator.initialState r sampler materialId) k = some s →
      ∃ isect bsdf0 bsdf1, CvPathIntegrator.SurfaceHit scene s isect bsdf0 bsdf1 ∧
        s.bounces < maxDepth ∧
        ∃ smp fp, smp = bsdf0.Sample_f (-s.ray.d) s.sampler.Get2D.1 ∧
          fp = bsdf1.f_pdf (-s.ray.d) smp.wi ∧
          ¬ (smp.f.IsBlack ∨ fp.1.IsBlack ∨ smp.pdf = 0 ∨ fp.2 = 0) ∧
          ¬ (isect.bssrdf ∧ smp.flag.transmission) ∧
          ¬ CvPathIntegrator.rouletteApplies rrThreshold
            (CvPathIntegrator.preRoulette isect bsdf0 (-s.ray.d) smp fp.1 fp.2
              (CvPathIntegrator.sampledState s)) ∧
          smp.f = fA k ∧ fp.1 = fB k ∧ smp.pdf = pdfA k ∧
          AbsDot smp.wi isect.shading_n = G k)
    (Le : Spectrum)
    (he : ∀ s, CvPathIntegrator.stateAt maxDepth rrThreshold scene
        (CvPathIntegrator.initialState r sampler materialId) n = some s →
      ∃ isect, scene.Intersect s.ray = some isect ∧ isect.Le (-s.ray.d) = Le ∧
        Le.IsBlack = false) :
    ∀ fuel, ∃ final,
      CvPathIntegrator.LiControlVariate maxDepth rrThreshold (n + (fuel + 1)) r scene sampler
          materialId =
        some (PathResult.returned
          (CvDualPixel.new
            (fun i => (∏ k in Finset.range n, fA k i * G k) * Le i)
            (fun i => (∏ k in Finset.range n, fB k i * G k) * Le i)
            (∏ k in Finset.range n, 1 / pdfA k)) final) ∧
      final.bounces = n := by
  have inv : ∀ k, k ≤ n → ∃ s, CvPathIntegrator.stateAt maxDepth rrThreshold scene
        (CvPathIntegrator.initialState r sampler materialId) k = some s ∧
      (∀ i, s.betas 0 i = ∏ j in Finset.range k, fA j i * G j) ∧
      (∀ i, s.betas 1 i = ∏ j in Finset.range k, fB j i * G j) ∧
      s.reciprocal_pdfs 0 = ∏ j in Finset.range k, 1 / pdfA j ∧ s.bounces = k := by
    intro k
    induction k with
    | zero =>
      intro _
      refine ⟨_, rfl, fun i => ?_, fun i => ?_, ?_, rfl⟩ <;>
        simp [CvPathIntegrator.initialState, Spectrum.const]
    | succ k ih =>
      intro hk
      obtain ⟨s, hs, b0, b1, hr, hbn⟩ := ih (by omega)
      obtain ⟨isect, bsdf0, bsdf1, hhit, hd, smp, fp, hsmp, hfp, hnd, hnf, hnr, v1, v2, v3, v4⟩ :=
        hb k (by omega) s hs
      have hnext := stateAt_succ_of_bounce maxDepth rrThreshold scene _ k s hs isect bsdf0 bsdf1
        hhit hd smp hsmp fp hfp hnd hnf hnr
      obtain ⟨_, _, pb, _, _, _, _, q0, q1, qr, _⟩ := preRoulette_fields isect bsdf0 (-s.ray.d)
        smp fp.1 fp.2 (CvPathIntegrator.sampledState s)
      refine ⟨_, hnext, fun i => ?_, fun i => ?_, ?_, ?_⟩
      · show (CvPathIntegrator.preRoulette isect bsdf0 (-s.ray.d) smp fp.1 fp.2
          (CvPathIntegrator.sampledState s)).betas 0 i = _
        rw [q0 i, Finset.prod_range_succ, ← b0 i, v1, v4]
        rfl
      · show (CvPathIntegrator.preRoulette isect bsdf0 (-s.ray.d) smp fp.1 fp.2
          (CvPathIntegrator.sampledState s)).betas 1 i = _
        rw [q1 i, Finset.prod_range_succ, ← b1 i, v2, v4]
        rfl
      · show (CvPathIntegrator.preRoulette isect bsdf0 (-s.ray.d) smp fp.1 fp.2
          (CvPathIntegrator.sampledState s)).reciprocal_pdfs 0 = _
        rw [qr, Finset.prod_range_succ, ← hr, v3, div_eq_mul_one_div]
        rfl
      · show (CvPathIntegrator.preRoulette isect bsdf0 (-s.ray.d) smp fp.1 fp.2
          (CvPathIntegrator.sampledState s)).bounces + 1 = _
        rw [pb]
        show s.bounces + 1 = _
        rw [hbn]
        push_cast
        rfl
  intro fuel
  obtain ⟨s, hs, b0, b1, hr, hbn⟩ := inv n le_rfl
  obtain ⟨isect, hI, hLe, hnb⟩ := he s hs
  obtain ⟨z1, z2⟩ := stateAt_accumulators maxDepth rrThreshold scene _ n s hs
  have e := iteration_emitter maxDepth rrThreshold scene s isect hI (by rw [hLe]; exact hnb)
  rw [hLe] at e
  have h := LiControlVariate_of_exit maxDepth rrThreshold scene r sampler materialId n s _ hs e
    fuel
  refine ⟨CvPathIntegrator.addLe s Le, ?_, hbn⟩
  rw [h]
  have e1 : (CvPathIntegrator.addLe s Le).L1 =
      fun i => (∏ k in Finset.range n, fA k i * G k) * Le i := by
    funext i
    show s.L1 i + s.betas 0 i * Le i = _
    rw [z1, b0 i]
    simp [CvPathIntegrator.initialState, Spectrum.const]
  have e2 : (CvPathIntegrator.addLe s Le).L2 =
      fun i => (∏ k in Finset.range n, fB k i * G k) * Le i := by
    funext i
    show s.L2 i + s.betas 1 i * Le i = _
    rw [z2, b1 i]
    simp [CvPathIntegrator.initialState, Spectrum.const]
  have e3 : (CvPathIntegrator.addLe s Le).reciprocal_pdfs 0 =
      ∏ k in Finset.range n, 1 / pdfA k := hr
  rw [e1, e2, e3]

theorem lampScene_first_bounce (k : Nat) (hk : k < 1) (s : PathState)
    (hs : CvPathIntegrator.stateAt 5 1
      (lampScene (Spectrum.const (1 / 2)) (Spectrum.const (1 / 4)) ![1, 2, 3])
      (CvPathIntegrator.initialState exampleRay exampleSampler 0) k = some s) :
    ∃ isect bsdf0 bsdf1, CvPathIntegrator.SurfaceHit
        (lampScene (Spectrum.const (1 / 2)) (Spectrum.const (1 / 4)) ![1, 2, 3]) s isect bsdf0
        bsdf1 ∧
      s.bounces < 5 ∧
      ∃ smp fp, smp = bsdf0.Sample_f (-s.ray.d) s.sampler.Get2D.1 ∧
        fp = bsdf1.f_pdf (-s.ray.d) smp.wi ∧
        ¬ (smp.f.IsBlack ∨ fp.1.IsBlack ∨ smp.pdf = 0 ∨ fp.2 = 0) ∧
        ¬ (isect.bssrdf ∧ smp.flag.transmission) ∧
        ¬ CvPathIntegrator.rouletteApplies 1
          (CvPathIntegrator.preRoulette isect bsdf0 (-s.ray.d) smp fp.1 fp.2
            (CvPathIntegrator.sampledState s)) ∧
        smp.f = Spectrum.const (1 / 2) ∧ fp.1 = Spectrum.const (1 / 4) ∧ smp.pdf = 1 / 2 ∧
        AbsDot smp.wi isect.shading_n = 1 := by
  have h0 : k = 0 := by omega
  subst h0
  simp only [CvPathIntegrator.stateAt, Option.some.injEq] at hs
  subst hs
  refine ⟨dualSurface (Spectrum.const (1 / 2)) (Spectrum.const (1 / 4)) (1 / 2) (1 / 3)
      (fun d => ⟨⟨1, 0, 0⟩, d⟩),
    constantBSDF (Spectrum.const (1 / 2)) (1 / 2), constantBSDF (Spectrum.const (1 / 4)) (1 / 3),
    ⟨?_, ?_, ?_, rfl, rfl⟩, by decide, _, _, rfl, rfl, ?_, ?_, by decide!, rfl, rfl, rfl,
    by decide!⟩
  · simp [lampScene, CvPathIntegrator.initialState, exampleRay]
  · simp [dualSurface, Spectrum.IsBlack, Spectrum.const]
  · rfl
  · simp [constantBSDF, Spectrum.IsBlack, Spectrum.const]
  · simp [dualSurface]

theorem lampScene_second_pass :
    (CvPathIntegrator.stateAt 5 1
      (lampScene (Spectrum.const (1 / 2)) (Spectrum.const (1 / 4)) ![1, 2, 3])
      (CvPathIntegrator.initialState exampleRay exampleSampler 0) 1).isSome = true := by
  decide!

theorem lampScene_emitter_hit (s : PathState)
    (hs : CvPathIntegrator.stateAt 5 1
      (lampScene (Spectrum.const (1 / 2)) (Spectrum.const (1 / 4)) ![1, 2, 3])
      (CvPathIntegrator.initialState exampleRay exampleSampler 0) 1 = some s) :
    ∃ isect, (lampScene (Spectrum.const (1 / 2)) (Spectrum.const (1 / 4)) ![1, 2, 3]).Intersect
        s.ray = some isect ∧ isect.Le (-s.ray.d) = ![1, 2, 3] ∧
      Spectrum.IsBlack ![1, 2, 3] = false := by
  have hs' : s = Option.get _ lampScene_second_pass := by
    apply Option.some_injective
    rw [Option.some_get]
    exact hs.symm
  have ho : (Option.get _ lampScene_second_pass).ray.o ≠ ⟨0, 0, 0⟩ := by decide!
  rw [← hs'] at ho
  refine ⟨lampSurface ![1, 2, 3], ?_, rfl, by decide!⟩
  show (if s.ray.o = ⟨0, 0, 0⟩ then _ else _) = _
  rw [if_neg ho]

/-- C17 (witness): one bounce with values 1/2 and 1/4, pdfs 1/2 and 1/3 and cosine 1, then
a lamp of emission (1,2,3). -/
theorem dual_estimate_closed_form_witness :
    ∃ final,
      CvPathIntegrator.LiControlVariate 5 1 2 exampleRay
          (lampScene (Spectrum.const (1 / 2)) (Spectrum.const (1 / 4)) ![1, 2, 3])
          exampleSampler 0 =
        some (PathResult.returned
          (CvDualPixel.new ![1 / 2, 1, 3 / 2] ![1 / 4, 1 / 2, 3 / 4] 2) final) ∧
      final.bounces = 1 := by
  obtain ⟨final, h, hb⟩ := dual_estimate_closed_form 5 1
    (lampScene (Spectrum.const (1 / 2)) (Spectrum.const (1 / 4)) ![1, 2, 3]) exampleRay
    exampleSampler 0 1 (fun _ => Spectrum.const (1 / 2)) (fun _ => Spectrum.const (1 / 4))
    (fun _ => 1 / 2) (fun _ => 1) lampScene_first_bounce ![1, 2, 3] lampScene_emitter_hit 0
  have e1 : (fun i : Fin 3 => (∏ _k in Finset.range 1, Spectrum.const (1 / 2) i * 1) *
      (![1, 2, 3] : Spectrum) i) = ![1 / 2, 1, 3 / 2] := by
    funext i
    fin_cases i <;> simp [Spectrum.const]
    norm_num
  have e2 : (fun i : Fin 3 => (∏ _k in Finset.range 1, Spectrum.const (1 / 4) i * 1) *
      (![1, 2, 3] : Spectrum) i) = ![1 / 4, 1 / 2, 3 / 4] := by
    funext i
    fin_cases i <;> simp [Spectrum.const] <;> norm_num
  have e3 : (∏ _k in Finset.range 1, (1 : ℚ) / (1 / 2)) = 2 := by simp
  simp only [e1, e2, e3] at h
  exact ⟨final, h, hb⟩

/-! ## The difference invariant -/

theorem DiffInv_new (L1 L2 : Spectrum) (rp : ℚ) : (CvDualPixel.new L1 L2 rp).DiffInv := by
  intro i
  simp only [CvDualPixel.new]
  ring

theorem DiffInv_SetZero : CvDualPixel.SetZero.DiffInv := by
  intro i
  simp [CvDualPixel.SetZero, Spectrum.const]

theorem DiffInv_AddPixel (a p : CvDualPixel) (w : ℚ) (ha : a.DiffInv) (hp : p.DiffInv) :
    (a.AddPixel p w).DiffInv := by
  intro i
  simp only [CvDualPixel.AddPixel]
  rw [ha i, hp i]
  ring

theorem DiffInv_mergeRecord (tilePixel mergePixel : CvDualPixel) (ht : tilePixel.DiffInv)
    (hm : mergePixel.DiffInv) : (CvFilm.mergeRecord tilePixel mergePixel).DiffInv := by
  intro i
  simp only [CvFilm.mergeRecord, CvDualPixel.AddPixel]
  rw [ht i, hm i]
  ring

/-- Whether the filter support is inverted depends on the pixel bounds and the filter
radius of the tile only. -/
theorem SupportOk_congr (t t' : CvFilmTile) (hb : t'.pixelBounds = t.pixelBounds)
    (hr : t'.filterRadius = t.filterRadius) (pFilm : Point2f) :
    t'.SupportOk pFilm ↔ t.SupportOk pFilm := by
  unfold CvFilmTile.SupportOk CvFilmTile.sampleP0 CvFilmTile.sampleP1
  rw [hb, hr]

/-- The tile that `GetCvFilmTile` makes depends on the cropped bounds and the filter of the
frame only. -/
theorem GetCvFilmTile_congr (f f' : CvFilm)
    (hb : f'.croppedPixelBounds = f.croppedPixelBounds)
    (hr : f'.filterRadius = f.filterRadius) (ht : f'.filterTable = f.filterTable)
    (hw : f'.filterTableWidth = f.filterTableWidth) (sampleBounds : Bounds2i) :
    f'.GetCvFilmTile sampleBounds = f.GetCvFilmTile sampleBounds := by
  unfold CvFilm.GetCvFilmTile
  rw [hb, hr, ht, hw]

/-- On a well-formed tile, for a film position whose filter support is not inverted,
`AddSample` with weight 1 returns a well-formed tile over the same bounds, and keeps the
difference invariant of the records. -/
theorem AddSample_DiffInv (t : CvFilmTile) (hwf : t.WellFormed)
    (hinv : ∀ x ∈ t.pixels, x.DiffInv) (pFilm : Point2f) (hsup : t.SupportOk pFilm)
    (splat : CvDualPixel) (hs : splat.DiffInv) :
    ∃ t', t.AddSample pFilm splat 1 = some t' ∧ t'.WellFormed ∧
      t'.pixelBounds = t.pixelBounds ∧ t'.filterRadius = t.filterRadius ∧
      ∀ x ∈ t'.pixels, x.DiffInv := by
  refine ⟨_, AddSample_eq t hwf pFilm hsup splat, ⟨?_, hwf.2.1, hwf.2.2⟩, rfl, rfl, ?_⟩
  · show (t.splatPixels pFilm splat (t.footprint pFilm) t.pixels).length = _
    rw [splatPixels_length]
    exact hwf.1
  · exact foldl_modify_forall CvDualPixel.DiffInv
      (fun p x => x.AddPixel splat (t.filterWeight pFilm p))
      (fun p => (t.pixelBounds.offset p).toNat)
      (fun p x hx => DiffInv_AddPixel x splat _ hx hs) (t.footprint pFilm) t.pixels hinv

theorem addSamples_DiffInv :
    ∀ (samples : List (Point2f × CvDualPixel)) (t : CvFilmTile), t.WellFormed →
      (∀ x ∈ t.pixels, x.DiffInv) → (∀ s ∈ samples, t.SupportOk s.1 ∧ s.2.DiffInv) →
      ∃ t', t.addSamples samples = some t' ∧ t'.WellFormed ∧
        t'.pixelBounds = t.pixelBounds ∧ t'.filterRadius = t.filterRadius ∧
        ∀ x ∈ t'.pixels, x.DiffInv
  | [], t, hwf, hinv, _ => ⟨t, rfl, hwf, rfl, rfl, hinv⟩
  | s :: samples, t, hwf, hinv, hs => by
    obtain ⟨t1, h1, w1, b1, r1, i1⟩ := AddSample_DiffInv t hwf hinv s.1
      (hs s (List.mem_cons_self _ _)).1 s.2 (hs s (List.mem_cons_self _ _)).2
    obtain ⟨t2, h2, w2, b2, r2, i2⟩ := addSamples_DiffInv samples t1 w1 i1
      (fun x hx => ⟨(SupportOk_congr t t1 b1 r1 x.1).2 (hs x (List.mem_cons_of_mem _ hx)).1,
        (hs x (List.mem_cons_of_mem _ hx)).2⟩)
    refine ⟨t2, ?_, w2, b2.trans b1, r2.trans r1, i2⟩
    unfold CvFilmTile.addSamples at h2 ⊢
    rw [List.foldlM_cons, h1]
    exact h2

/-- On a well-formed frame `MergeFilmTile` of a well-formed tile inside the frame returns a
well-formed frame and keeps the difference invariant of the records. -/
theorem MergeFilmTile_DiffInv (f : CvFilm) (hwf : f.WellFormed)
    (hinv : ∀ x ∈ f.cvPixels, x.DiffInv) (tile : CvFilmTile)
    (hlen : tile.pixels.length = (max 0 tile.pixelBounds.Area).toNat)
    (hin : tile.pixelBounds.Within f.croppedPixelBounds)
    (htile : ∀ x ∈ tile.pixels, x.DiffInv) :
    ∃ f', f.MergeFilmTile tile = some f' ∧ f'.WellFormed ∧
      f'.croppedPixelBounds = f.croppedPixelBounds ∧ f'.filterRadius = f.filterRadius ∧
      f'.filterTable = f.filterTable ∧ f'.filterTableWidth = f.filterTableWidth ∧
      f'.scale = f.scale ∧ ∀ x ∈ f'.cvPixels, x.DiffInv := by
  refine ⟨_, MergeFilmTile_eq f hwf tile hlen hin, mergeTotal_wellFormed f hwf tile, rfl, rfl,
    rfl, rfl, rfl, ?_⟩
  exact foldl_modify_forall CvDualPixel.DiffInv
    (fun p x => CvFilm.mergeRecord (tile.pixelAt p) x)
    (fun p => (f.croppedPixelBounds.offset p).toNat)
    (fun p x hx => DiffInv_mergeRecord _ x
      (tile_pixelAt_forall CvDualPixel.DiffInv tile DiffInv_SetZero htile p) hx)
    tile.pixelBounds.points f.cvPixels hinv

theorem renderTiles_DiffInv :
    ∀ (work : List (Bounds2i × List (Point2f × CvDualPixel))) (f : CvFilm), f.WellFormed →
      1 ≤ f.filterTableWidth →
      f.filterTableWidth * f.filterTableWidth ≤ (f.filterTable.length : Int) →
      (∀ x ∈ f.cvPixels, x.DiffInv) →
      (∀ tw ∈ work, ∀ s ∈ tw.2, (f.GetCvFilmTile tw.1).SupportOk s.1 ∧ s.2.DiffInv) →
      ∃ f', f.renderTiles work = some f' ∧ f'.WellFormed ∧ f'.scale = f.scale ∧
        ∀ x ∈ f'.cvPixels, x.DiffInv
  | [], f, hwf, _, _, hinv, _ => ⟨f, rfl, hwf, rfl, hinv⟩
  | tw :: work, f, hwf, hw, htbl, hinv, hs => by
    obtain ⟨t, h1, w1, b1, _, i1⟩ := addSamples_DiffInv tw.2 (f.GetCvFilmTile tw.1)
      (GetCvFilmTile_wellFormed f hw htbl tw.1)
      (fun x hx => by
        have hx' : x ∈ List.replicate _ CvDualPixel.SetZero := hx
        rw [(List.mem_replicate.1 hx').2]
        exact DiffInv_SetZero)
      (hs tw (List.mem_cons_self _ _))
    have hin : t.pixelBounds.Within f.croppedPixelBounds := by
      rw [b1]
      exact GetCvFilmTile_within f tw.1
    obtain ⟨f1, h2, w2, e1, e2, e3, e4, e5, i2⟩ :=
      MergeFilmTile_DiffInv f hwf hinv t w1.1 hin i1
    obtain ⟨f2, h3, w3, e6, i3⟩ := renderTiles_DiffInv work f1 w2 (by rw [e4]; exact hw)
      (by rw [e4, e3]; exact htbl) i2
      (fun x hx y hy => by
        rw [GetCvFilmTile_congr f f1 e1 e2 e3 e4 x.1]
        exact hs x (List.mem_cons_of_mem _ hx) y hy)
    refine ⟨f2, ?_, w3, e6.trans e5, i3⟩
    unfold CvFilm.renderTiles at h3 ⊢
    rw [List.foldlM_cons]
    have e : f.renderTile tw = some f1 := by
      unfold CvFilm.renderTile
      rw [h1]
      exact h2
    rw [e]
    exact h3

/-- The first pass of the export keeps the difference array equal to the primary array
minus the secondary array when every record satisfies the difference invariant. -/
theorem foldl_exportStep_diff_sub (sc ss : ℚ) :
    ∀ (recs : List CvDualPixel) (s : ExportState),
      (∀ x ∈ recs, x.DiffInv) → (∀ n, s.buf.diff n = s.buf.rgb1 n - s.buf.rgb2 n) →
      ∀ n, (recs.foldl (CvFilm.exportStep sc ss) s).buf.diff n =
        (recs.foldl (CvFilm.exportStep sc ss) s).buf.rgb1 n -
          (recs.foldl (CvFilm.exportStep sc ss) s).buf.rgb2 n
  | [], _, _, h => h
  | x :: recs, s, hD, h => by
    rw [List.foldl_cons]
    apply foldl_exportStep_diff_sub sc ss recs
    · exact fun y hy => hD y (List.mem_cons_of_mem _ hy)
    · intro n
      have hx : x.DiffInv := hD x (List.mem_cons_self _ _)
      simp only [CvFilm.exportStep, CvFilm.writePixel]
      rw [scaleChannels_apply, scaleChannels_apply, scaleChannels_apply, addChannels_apply,
        addChannels_apply, addChannels_apply, h n, hx 0, hx 1, hx 2]
      split_ifs <;> ring

theorem WriteImagePass1_diff_sub (f : CvFilm) (hwf : f.WellFormed)
    (hinv : ∀ x ∈ f.cvPixels, x.DiffInv) (ss : ℚ) (init : ImageBuffers)
    (hinit : ∀ n, init.diff n = init.rgb1 n - init.rgb2 n) :
    ∃ s, f.WriteImagePass1 ss init = some s ∧
      ∀ n, s.buf.diff n = s.buf.rgb1 n - s.buf.rgb2 n := by
  have hfold := foldlM_writeImageAt f hwf ss f.croppedPixelBounds.points
    ⟨init, 0, 0⟩ (fun p hp => (mem_points _ p).1 hp)
  refine ⟨_, by unfold CvFilm.WriteImagePass1; rw [hfold]; rfl, ?_⟩
  intro n
  refine foldl_exportStep_diff_sub f.scale ss (f.croppedPixelBounds.points.map f.pixelAt)
    ⟨init, 0, 0⟩ ?_ hinit n
  intro x hx
  obtain ⟨p, _, rfl⟩ := List.mem_map.1 hx
  exact film_pixelAt_forall CvDualPixel.DiffInv _ DiffInv_SetZero hinv p

/-- C21 (evaluation at the failing input): every record built by the three-argument
constructor satisfies `D = L1 - L2` per channel. A 2 by 1 frame with scale 3 is rendered as
one tile with two samples, the record `CvDualPixel((1,2,3), (1,1,1), 2)` and a zero record:
both frame records satisfy `D = L1 - L2` (here `(0, 2, 4) = (2, 4, 6) - (2, 2, 2)`). The
first pass of `WriteImage` on output arrays that hold 0 leaves `diff = rgb1 - rgb2`, but on
arrays that hold 1 in `rgb1`, 2 in `rgb2` and 5 in `diff` it leaves
`diff - (rgb1 - rgb2) = 18` at every index of the two pixels: the pass adds to the content
of the arrays, which the source never initialises. -/
theorem difference_invariant_evaluated :
    (∀ (L1 L2 : Spectrum) (rp : ℚ) (i : Fin 3), (CvDualPixel.new L1 L2 rp).D i =
      (CvDualPixel.new L1 L2 rp).L1 i - (CvDualPixel.new L1 L2 rp).L2 i) ∧
    (((CvFilm.new ⟨⟨0, 0⟩, ⟨2, 1⟩⟩ ⟨1, 1⟩ [1] 1 3).renderTiles
        [(⟨⟨0, 0⟩, ⟨2, 1⟩⟩, [(⟨1 / 2, 1 / 2⟩, exampleSplat),
          (⟨3 / 2, 1 / 2⟩, CvDualPixel.SetZero)])]).bind
      (fun f => f.GetCvPixel ⟨0, 0⟩)).map
      (fun x => ((x.D 0, x.D 1, x.D 2), (x.L1 0, x.L1 1, x.L1 2), (x.L2 0, x.L2 1, x.L2 2))) =
      some ((0, 2, 4), (2, 4, 6), (2, 2, 2)) ∧
    (((CvFilm.new ⟨⟨0, 0⟩, ⟨2, 1⟩⟩ ⟨1, 1⟩ [1] 1 3).renderTiles
        [(⟨⟨0, 0⟩, ⟨2, 1⟩⟩, [(⟨1 / 2, 1 / 2⟩, exampleSplat),
          (⟨3 / 2, 1 / 2⟩, CvDualPixel.SetZero)])]).bind
      (fun f => f.WriteImagePass1 1 ImageBuffers.zero)).map
      (fun s => (s.buf.diff 0 - (s.buf.rgb1 0 - s.buf.rgb2 0),
        s.buf.diff 1 - (s.buf.rgb1 1 - s.buf.rgb2 1),
        s.buf.diff 5 - (s.buf.rgb1 5 - s.buf.rgb2 5))) = some (0, 0, 0) ∧
    (((CvFilm.new ⟨⟨0, 0⟩, ⟨2, 1⟩⟩ ⟨1, 1⟩ [1] 1 3).renderTiles
        [(⟨⟨0, 0⟩, ⟨2, 1⟩⟩, [(⟨1 / 2, 1 / 2⟩, exampleSplat),
          (⟨3 / 2, 1 / 2⟩, CvDualPixel.SetZero)])]).bind
      (fun f => f.WriteImagePass1 1 staleBuffers)).map
      (fun s => (s.buf.diff 0 - (s.buf.rgb1 0 - s.buf.rgb2 0),
        s.buf.diff 1 - (s.buf.rgb1 1 - s.buf.rgb2 1),
        s.buf.diff 5 - (s.buf.rgb1 5 - s.buf.rgb2 5))) = some (18, 18, 18) := by
  refine ⟨fun L1 L2 rp => DiffInv_new L1 L2 rp, ?_, ?_, ?_⟩
  · decide!
  · decide!
  · decide!

/-! ## The divisions of the roulette block -/

/-- C22: whenever the roulette block runs (its guard holds in state `x`) with a 1D sample
`u < 1`, the computed `q` satisfies `q ≥ 0.05` and `q > 0`; if `u < q` the block
divides both reciprocal pdfs by `q` and leaves the loop; otherwise it divides both by
`1 - q`, and then `q ≤ u < 1`, so `1 - q > 0`. When the guard fails the block divides
nothing. -/
theorem roulette_divisions_nonzero (rrThreshold : ℚ) (x : PathState)
    (happ : CvPathIntegrator.rouletteApplies rrThreshold x)
    (hu1 : x.sampler.Get1D.1 < 1) :
    1 / 20 ≤ CvPathIntegrator.rouletteQ x ∧ 0 < CvPathIntegrator.rouletteQ x ∧
    (x.sampler.Get1D.1 < CvPathIntegrator.rouletteQ x →
      CvPathIntegrator.roulette rrThreshold x =
        LoopStep.exit { x with
          sampler := x.sampler.Get1D.2
          reciprocal_pdfs := fun i => x.reciprocal_pdfs i / CvPathIntegrator.rouletteQ x }) ∧
    (¬ x.sampler.Get1D.1 < CvPathIntegrator.rouletteQ x →
      CvPathIntegrator.roulette rrThreshold x =
        LoopStep.next { x with
          sampler := x.sampler.Get1D.2
          reciprocal_pdfs := fun i =>
            x.reciprocal_pdfs i / (1 - CvPathIntegrator.rouletteQ x) } ∧
      CvPathIntegrator.rouletteQ x ≤ x.sampler.Get1D.1 ∧
      0 < 1 - CvPathIntegrator.rouletteQ x) ∧
    (∀ y : PathState, ¬ CvPathIntegrator.rouletteApplies rrThreshold y →
      CvPathIntegrator.roulette rrThreshold y = LoopStep.next y) := by
  have hq : 1 / 20 ≤ CvPathIntegrator.rouletteQ x := le_max_left _ _
  refine ⟨hq, by linarith, ?_, ?_, ?_⟩
  · intro hu
    rw [roulette_eq, if_pos happ, if_pos hu]
  · intro hu
    refine ⟨by rw [roulette_eq, if_pos happ, if_neg hu], not_lt.1 hu, ?_⟩
    have := not_lt.1 hu
    linarith
  · intro y hy
    rw [roulette_eq, if_neg hy]

/-- C22 (witness): the state in which the pass with bounce index 4 of the closed scene with
branch values 1/2 and 1/4 reaches the roulette block (`rrBeta = 1/32`, `q = 31/32`, sample
1/2). -/
theorem roulette_divisions_nonzero_witness :
    ∃ x, x = CvPathIntegrator.preRoulette
        (dualSurface (Spectrum.const (1 / 2)) (Spectrum.const (1 / 4)) 1 1
          (fun d => ⟨⟨0, 0, 0⟩, d⟩))
        (constantBSDF (Spectrum.const (1 / 2)) 1) ⟨0, 0, -1⟩
        ⟨Spectrum.const (1 / 2), ⟨0, 0, 1⟩, 1, ⟨false, false⟩⟩ (Spectrum.const (1 / 4)) 1
        (CvPathIntegrator.sampledState (Option.get _ closedScene_fifth_pass)) ∧
      CvPathIntegrator.rouletteApplies 1 x ∧ x.sampler.Get1D.1 < 1 ∧
      CvPathIntegrator.rouletteQ x = 31 / 32 ∧ 0 < CvPathIntegrator.rouletteQ x ∧
      ∃ x', CvPathIntegrator.roulette 1 x = LoopStep.exit x' ∧
        x'.reciprocal_pdfs 0 = 32 / 31 ∧ x'.reciprocal_pdfs 1 = 32 / 31 := by
  have h := roulette_divisions_nonzero 1
    (CvPathIntegrator.preRoulette
      (dualSurface (Spectrum.const (1 / 2)) (Spectrum.const (1 / 4)) 1 1
        (fun d => ⟨⟨0, 0, 0⟩, d⟩))
      (constantBSDF (Spectrum.const (1 / 2)) 1) ⟨0, 0, -1⟩
      ⟨Spectrum.const (1 / 2), ⟨0, 0, 1⟩, 1, ⟨false, false⟩⟩ (Spectrum.const (1 / 4)) 1
      (CvPathIntegrator.sampledState (Option.get _ closedScene_fifth_pass)))
    (by decide!) (by decide!)
  exact ⟨_, rfl, by decide!, by decide!, by decide!, h.2.1, _, h.2.2.1 (by decide!),
    by decide!, by decide!⟩

/-! ## `MergeFilmTile` stays inside the frame -/

/-- C23: for every sample-bounds rectangle the tile returned by `GetCvFilmTile` has pixel
bounds inside `croppedPixelBounds`; so for every pixel `p` that `MergeFilmTile` visits the
check of `GetCvPixel` holds, the offset `(p.x - pMin.x) + (p.y - pMin.y) * width` lies in
`[0, croppedPixelBounds.Area())`, distinct visited pixels have distinct offsets, and (on a
frame whose array has `Area()` records) `GetCvPixel` returns a record and the merge of any
tile over these bounds returns. -/
theorem merge_stays_in_frame (f : CvFilm) (hwf : f.WellFormed) (sampleBounds : Bounds2i)
    (p : Point2i) (hp : p ∈ (f.GetCvFilmTile sampleBounds).pixelBounds.points) :
    (f.GetCvFilmTile sampleBounds).pixelBounds.Within f.croppedPixelBounds ∧
    InsideExclusive p f.croppedPixelBounds = true ∧
    0 ≤ f.pixelOffset p ∧ f.pixelOffset p < f.croppedPixelBounds.Area ∧
    (∀ q ∈ (f.GetCvFilmTile sampleBounds).pixelBounds.points,
      f.pixelOffset q = f.pixelOffset p → q = p) ∧
    (f.GetCvPixel p).isSome = true ∧
    (∀ tile : CvFilmTile, tile.pixelBounds = (f.GetCvFilmTile sampleBounds).pixelBounds →
      tile.pixels.length = (max 0 tile.pixelBounds.Area).toNat →
      ∃ f', f.MergeFilmTile tile = some f') := by
  have hin := GetCvFilmTile_within f sampleBounds
  have hp' := insideExclusive_of_within hin p ((mem_points _ p).1 hp)
  obtain ⟨o1, o2, _⟩ := offset_bounds f.croppedPixelBounds p hp'
  refine ⟨hin, hp', o1, o2, ?_, (GetCvPixel_of_inside f hwf p hp').2, ?_⟩
  · intro q hq hqp
    have hq' := insideExclusive_of_within hin q ((mem_points _ q).1 hq)
    exact offset_injective f.croppedPixelBounds q p hq' hp' (congrArg Int.toNat hqp)
  · intro tile hb hlen
    exact ⟨_, MergeFilmTile_eq f hwf tile hlen (by rw [hb]; exact hin)⟩

/-- C23 (witness): the 32 by 16 film with filter radius 1/2, the sample bounds of tile
(1,0) and the pixel (15,0) of the widened tile. -/
theorem merge_stays_in_frame_witness :
    wideFilm.WellFormed ∧
    (⟨15, 0⟩ : Point2i) ∈ (wideFilm.GetCvFilmTile
      (CvPathIntegrator.tileBounds ⟨⟨0, 0⟩, ⟨32, 16⟩⟩ ⟨1, 0⟩)).pixelBounds.points ∧
    InsideExclusive ⟨15, 0⟩ wideFilm.croppedPixelBounds = true ∧
    0 ≤ wideFilm.pixelOffset ⟨15, 0⟩ ∧
    wideFilm.pixelOffset ⟨15, 0⟩ < wideFilm.croppedPixelBounds.Area ∧
    (wideFilm.GetCvPixel ⟨15, 0⟩).isSome = true :=
  have hmem : (⟨15, 0⟩ : Point2i) ∈ (wideFilm.GetCvFilmTile
      (CvPathIntegrator.tileBounds ⟨⟨0, 0⟩, ⟨32, 16⟩⟩ ⟨1, 0⟩)).pixelBounds.points :=
    (mem_points _ _).2 (by decide!)
  have h := merge_stays_in_frame wideFilm (new_wellFormed _ _ _ _ _)
    (CvPathIntegrator.tileBounds ⟨⟨0, 0⟩, ⟨32, 16⟩⟩ ⟨1, 0⟩) ⟨15, 0⟩ hmem
  ⟨new_wellFormed _ _ _ _ _, hmem, h.2.1, h.2.2.1, h.2.2.2.1, h.2.2.2.2.2.1⟩

/-! ## Rejection of sample weights other than 1 -/

/-- C24: for every tile, film position, sample and sample weight, `AddSample` fails its
`CHECK(sampleWeight == 1.)` if and only if `sampleWeight ≠ 1`, and then the call does not
return (no tile is produced); the sample loop body of `Render` for a camera sample of ray
weight 0 skips the estimator and calls `AddSample` with the zero record and weight 0, which
fails that check, so the loop body does not return. -/
theorem AddSample_weight_rejection (t : CvFilmTile) (pFilm : Point2f) (splat : CvDualPixel)
    (sampleWeight : ℚ) :
    (t.AddSampleResult pFilm splat sampleWeight =
        Except.error CvFilmTile.AddSampleFailure.sampleWeightCheck ↔ sampleWeight ≠ 1) ∧
    (sampleWeight ≠ 1 → t.AddSample pFilm splat sampleWeight = none) ∧
    t.AddSampleResult pFilm CvDualPixel.SetZero 0 =
      Except.error CvFilmTile.AddSampleFailure.sampleWeightCheck ∧
    (∀ (maxDepth : Int) (rrThreshold : ℚ) (fuel : Nat) (scene : Scene) (ray : Ray)
        (sampler : Sampler) (materialId : Int),
      CvPathIntegrator.renderSample maxDepth rrThreshold fuel scene ray 0 pFilm sampler
          materialId t =
        t.AddSample pFilm CvDualPixel.SetZero 0 ∧
      CvPathIntegrator.renderSample maxDepth rrThreshold fuel scene ray 0 pFilm sampler
        materialId t = none) := by
  have hrej : ∀ (sp : CvDualPixel) (w : ℚ), w ≠ 1 →
      t.AddSampleResult pFilm sp w =
        Except.error CvFilmTile.AddSampleFailure.sampleWeightCheck := by
    intro sp w hne
    unfold CvFilmTile.AddSampleResult
    rw [if_neg hne]
  have hnone : ∀ (sp : CvDualPixel) (w : ℚ), w ≠ 1 → t.AddSample pFilm sp w = none := by
    intro sp w hne
    unfold CvFilmTile.AddSample
    rw [hrej sp w hne]
  refine ⟨⟨?_, hrej splat sampleWeight⟩, hnone splat sampleWeight,
    hrej CvDualPixel.SetZero 0 (by norm_num), ?_⟩
  · intro h h1
    unfold CvFilmTile.AddSampleResult at h
    rw [if_pos h1] at h
    split at h
    · cases h
    · split at h <;> cases h
  · intro maxDepth rrThreshold fuel scene ray sampler materialId
    have e : CvPathIntegrator.renderSample maxDepth rrThreshold fuel scene ray 0 pFilm sampler
        materialId t = t.AddSample pFilm CvDualPixel.SetZero 0 := by
      unfold CvPathIntegrator.renderSample
      rw [if_neg (lt_irrefl 0)]
    exact ⟨e, e.trans (hnone CvDualPixel.SetZero 0 (by norm_num))⟩

/-- C24 (witness): on the fresh 3 by 2 tile the sample `exampleSplat` with weight 1/2 fails
the check, the same sample with weight 1 does not, and a camera sample of ray weight 0 in
the emitter scene makes the loop body fail. -/
theorem AddSample_weight_rejection_witness :
    exampleTile.AddSampleResult ⟨1 / 2, 1 / 2⟩ exampleSplat (1 / 2) =
      Except.error CvFilmTile.AddSampleFailure.sampleWeightCheck ∧
    exampleTile.AddSampleResult ⟨1 / 2, 1 / 2⟩ exampleSplat 1 ≠
      Except.error CvFilmTile.AddSampleFailure.sampleWeightCheck ∧
    CvPathIntegrator.renderSample 5 1 10 (emitterScene ![1, 2, 3]) exampleRay 0 ⟨1 / 2, 1 / 2⟩
      exampleSampler 0 exampleTile = none :=
  ⟨(AddSample_weight_rejection exampleTile ⟨1 / 2, 1 / 2⟩ exampleSplat (1 / 2)).1.2
      (by norm_num),
    fun h => (AddSample_weight_rejection exampleTile ⟨1 / 2, 1 / 2⟩ exampleSplat 1).1.1 h rfl,
    ((AddSample_weight_rejection exampleTile ⟨1 / 2, 1 / 2⟩ exampleSplat 0).2.2.2 5 1 10
      (emitterScene ![1, 2, 3]) exampleRay exampleSampler 0).2⟩

/-! ## Export: the second pass of `WriteImage` -/

theorem divChannels_apply (a : Nat → ℚ) (o : Nat) (k : ℚ) (n : Nat) :
    divChannels a o k n =
      if n = 3 * o ∨ n = 3 * o + 1 ∨ n = 3 * o + 2 then a n / k else a n := by
  unfold divChannels divAt
  by_cases h0 : n = 3 * o
  · subst h0; simp [Function.update]
  · by_cases h1 : n = 3 * o + 1
    · subst h1; simp [Function.update]
    · by_cases h2 : n = 3 * o + 2
      · subst h2; simp [Function.update]
      · simp [Function.update, h0, h1, h2]

/-- The second pass divides the entries of `recipPdfs` at the indices of the pixels it
visits and leaves every other entry alone. -/
theorem foldl_pass2 (a : ℚ) (n : Nat) :
    ∀ (l : List Point2i) (acc : ImageBuffers × Nat),
      (l.foldl (fun (acc : ImageBuffers × Nat) (_ : Point2i) =>
          ({ acc.1 with recipPdfs := divChannels acc.1.recipPdfs acc.2 a }, acc.2 + 1))
        acc).1.recipPdfs n =
        if 3 * acc.2 ≤ n ∧ n < 3 * (acc.2 + l.length) then acc.1.recipPdfs n / a
        else acc.1.recipPdfs n
  | [], acc => by
    have : ¬ (3 * acc.2 ≤ n ∧ n < 3 * (acc.2 + ([] : List Point2i).length)) := by
      simp only [List.length_nil]
      omega
    rw [List.foldl_nil, if_neg this]
  | p :: l, acc => by
    rw [List.foldl_cons, foldl_pass2 a n l]
    simp only [divChannels_apply, List.length_cons]
    by_cases h1 : n = 3 * acc.2 ∨ n = 3 * acc.2 + 1 ∨ n = 3 * acc.2 + 2
    · have h2 : ¬ (3 * (acc.2 + 1) ≤ n ∧ n < 3 * (acc.2 + 1 + l.length)) := by omega
      have h3 : 3 * acc.2 ≤ n ∧ n < 3 * (acc.2 + (l.length + 1)) := by omega
      rw [if_neg h2, if_pos h1, if_pos h3]
    · rw [if_neg h1]
      by_cases h2 : 3 * (acc.2 + 1) ≤ n ∧ n < 3 * (acc.2 + 1 + l.length)
      · have h3 : 3 * acc.2 ≤ n ∧ n < 3 * (acc.2 + (l.length + 1)) := by omega
        rw [if_pos h2, if_pos h3]
      · have h3 : ¬ (3 * acc.2 ≤ n ∧ n < 3 * (acc.2 + (l.length + 1))) := by omega
        rw [if_neg h2, if_neg h3]

theorem sum_map_div {α : Type} (g : α → ℚ) (a : ℚ) :
    ∀ l : List α, (l.map (fun x => g x / a)).sum = (l.map g).sum / a
  | [] => by simp
  | x :: l => by
    simp only [List.map_cons, List.sum_cons]
    rw [sum_map_div g a l]
    ring

/-- The content of the `recipPdfs` array after both passes, at the three indices of a pixel
of the frame. -/
theorem WriteImage_recipPdfs (f : CvFilm) (hwf : f.WellFormed) (ss : ℚ) :
    ∃ s, f.WriteImagePass1 ss ImageBuffers.zero = some s ∧
      s.avgRecipPdf =
        (f.croppedPixelBounds.points.map (fun p =>
          ss * (f.pixelAt p).reciprocal_pdf * CvFilm.invWt (f.pixelAt p))).sum /
          (f.croppedPixelBounds.points.length : ℚ) ∧
      ∀ p, InsideExclusive p f.croppedPixelBounds = true → ∀ c : Fin 3,
        (f.WriteImagePass2 s).recipPdfs (3 * (f.pixelOffset p).toNat + c.val) =
          ss * (f.pixelAt p).reciprocal_pdf * CvFilm.invWt (f.pixelAt p) / s.avgRecipPdf := by
  have hfold := foldlM_writeImageAt f hwf ss f.croppedPixelBounds.points
    ⟨ImageBuffers.zero, 0, 0⟩ (fun p hp => (mem_points _ p).1 hp)
  obtain ⟨S, hS⟩ : ∃ S, S = (f.croppedPixelBounds.points.map f.pixelAt).foldl
      (CvFilm.exportStep f.scale ss) ⟨ImageBuffers.zero, 0, 0⟩ := ⟨_, rfl⟩
  rw [← hS] at hfold
  have hoff : S.offset = f.croppedPixelBounds.points.length := by
    rw [hS, foldl_exportStep_offset]
    simp
  have havg : S.avgRecipPdf = (f.croppedPixelBounds.points.map (fun p =>
      ss * (f.pixelAt p).reciprocal_pdf * CvFilm.invWt (f.pixelAt p))).sum := by
    rw [hS, foldl_exportStep_avg f.scale ss _ _ (fun n _ => rfl)]
    simp only [zero_add, List.map_map]
    rfl
  refine ⟨{ S with avgRecipPdf := S.avgRecipPdf / (S.offset : ℚ) },
    by unfold CvFilm.WriteImagePass1; rw [hfold]; rfl, ?_, ?_⟩
  · show S.avgRecipPdf / (S.offset : ℚ) = _
    rw [havg, hoff]
  · intro p hp c
    have hidx : (f.croppedPixelBounds.points.map f.pixelAt)[(f.pixelOffset p).toNat]? =
        some (f.pixelAt p) := by
      have e : f.pixelOffset p = f.croppedPixelBounds.offset p := rfl
      rw [e, List.getElem?_map, points_getElem?_offset _ p hp]
      rfl
    have hlt : (f.pixelOffset p).toNat < f.croppedPixelBounds.points.length := by
      obtain ⟨h, _⟩ := List.getElem?_eq_some.1 hidx
      simpa using h
    have hval := (foldl_exportStep_at f.scale ss c (f.croppedPixelBounds.points.map f.pixelAt)
      ⟨ImageBuffers.zero, 0, 0⟩ (f.pixelOffset p).toNat (f.pixelAt p) hidx).2.2.2.2.2.2
    rw [← hS] at hval
    simp only [Nat.zero_add, ImageBuffers.zero, zero_add] at hval
    have hc := c.isLt
    unfold CvFilm.WriteImagePass2
    rw [foldl_pass2, if_pos (by constructor <;> simp only [] <;> omega)]
    show S.buf.recipPdfs _ / _ = _
    rw [hval]

/-- With output arrays that start as zero: on a frame as its constructor allocates it and
with at least one pixel, `WriteImage` returns; after its second pass the three components of
the normalised reciprocal-pdf channel are equal at every pixel, and, provided
`avgRecipPdf ≠ 0`, the arithmetic mean over all pixels of each component equals 1. -/
theorem recipPdf_preview_normalised (f : CvFilm) (hwf : f.WellFormed)
    (hN : 1 ≤ f.croppedPixelBounds.points.length) (splatScale : ℚ) :
    ∃ s, f.WriteImagePass1 splatScale ImageBuffers.zero = some s ∧
      f.WriteImage splatScale ImageBuffers.zero = some (s.buf, f.WriteImagePass2 s) ∧
      (∀ p, InsideExclusive p f.croppedPixelBounds = true →
        (f.WriteImagePass2 s).recipPdfs (3 * (f.pixelOffset p).toNat) =
          (f.WriteImagePass2 s).recipPdfs (3 * (f.pixelOffset p).toNat + 1) ∧
        (f.WriteImagePass2 s).recipPdfs (3 * (f.pixelOffset p).toNat + 1) =
          (f.WriteImagePass2 s).recipPdfs (3 * (f.pixelOffset p).toNat + 2)) ∧
      (s.avgRecipPdf ≠ 0 → ∀ c : Fin 3,
        (f.croppedPixelBounds.points.map (fun p =>
          (f.WriteImagePass2 s).recipPdfs (3 * (f.pixelOffset p).toNat + c.val))).sum /
          (f.croppedPixelBounds.points.length : ℚ) = 1) := by
  obtain ⟨s, hs, havg, hval⟩ := WriteImage_recipPdfs f hwf splatScale
  refine ⟨s, hs, by unfold CvFilm.WriteImage; rw [hs]; rfl, ?_, ?_⟩
  · intro p hp
    have h0 := hval p hp 0
    have h1 := hval p hp 1
    have h2 := hval p hp 2
    simp only [Fin.val_zero, Fin.val_one, Fin.val_two, Nat.add_zero] at h0 h1 h2
    exact ⟨h0.trans h1.symm, h1.trans h2.symm⟩
  · intro hne c
    have hmap : f.croppedPixelBounds.points.map (fun p =>
          (f.WriteImagePass2 s).recipPdfs (3 * (f.pixelOffset p).toNat + c.val)) =
        f.croppedPixelBounds.points.map (fun p =>
          splatScale * (f.pixelAt p).reciprocal_pdf * CvFilm.invWt (f.pixelAt p) /
            s.avgRecipPdf) :=
      List.map_congr_left (fun p hp => hval p ((mem_points _ p).1 hp) c)
    rw [hmap, sum_map_div (fun p =>
      splatScale * (f.pixelAt p).reciprocal_pdf * CvFilm.invWt (f.pixelAt p)) s.avgRecipPdf]
    have hlen : (f.croppedPixelBounds.points.length : ℚ) ≠ 0 := by
      have : (1 : ℚ) ≤ (f.croppedPixelBounds.points.length : ℚ) := by exact_mod_cast hN
      linarith
    rw [havg] at hne ⊢
    have hsum : (f.croppedPixelBounds.points.map (fun p =>
        splatScale * (f.pixelAt p).reciprocal_pdf * CvFilm.invWt (f.pixelAt p))).sum ≠ 0 := by
      intro h0
      rw [h0, zero_div] at hne
      exact hne rfl
    field_simp

theorem exampleFrame_export :
    (exampleFrame.WriteImagePass1 1 ImageBuffers.zero).isSome = true := by
  decide!

/-- The statement above at the 2 by 1 frame with two non-zero records: `avgRecipPdf` is not
zero and the mean of the normalised channel is 1. -/
theorem recipPdf_preview_normalised_witness :
    exampleFrame.WellFormed ∧ 1 ≤ exampleFrame.croppedPixelBounds.points.length ∧
    ∃ s, exampleFrame.WriteImagePass1 1 ImageBuffers.zero = some s ∧ s.avgRecipPdf ≠ 0 ∧
      ∀ c : Fin 3,
        (exampleFrame.croppedPixelBounds.points.map (fun p =>
          (exampleFrame.WriteImagePass2 s).recipPdfs
            (3 * (exampleFrame.pixelOffset p).toNat + c.val))).sum /
          (exampleFrame.croppedPixelBounds.points.length : ℚ) = 1 := by
  have hwf : exampleFrame.WellFormed := by
    unfold CvFilm.WellFormed
    decide
  have hN : 1 ≤ exampleFrame.croppedPixelBounds.points.length := by decide
  obtain ⟨s, hs, _, _, hmean⟩ := recipPdf_preview_normalised exampleFrame hwf hN 1
  have hs' : s = Option.get _ exampleFrame_export := by
    apply Option.some_injective
    rw [Option.some_get]
    exact hs.symm
  have hne : s.avgRecipPdf ≠ 0 := by
    rw [hs']
    decide!
  exact ⟨hwf, hN, s, hs, hne, hmean hne⟩

/-- C25 (evaluation at the failing input): the 2 by 1 frame with two non-zero records
(`avgRecipPdf ≠ 0`), exported with `splatScale = 1`. With `out` the normalised
reciprocal-pdf array after the second pass, on output arrays that hold 0 the components 0
and 1 of pixel 0 are equal and the means over the two pixels of components 0 and 1 are 1.
On output arrays in which `recipPdfs[n]` holds `n`, the mean of component 0 is still 1, but
component 1 of pixel 0 exceeds component 0 by `1 / avgRecipPdf` and the mean of component 1
exceeds 1 by `1 / avgRecipPdf`: the first pass adds to the content of the arrays, which the
source never initialises. -/
theorem recipPdf_preview_evaluated :
    (exampleFrame.WriteImagePass1 1 ImageBuffers.zero).map
      (fun s => (decide (s.avgRecipPdf = 0),
        (exampleFrame.WriteImagePass2 s).recipPdfs 1 -
          (exampleFrame.WriteImagePass2 s).recipPdfs 0,
        ((exampleFrame.WriteImagePass2 s).recipPdfs 0 +
          (exampleFrame.WriteImagePass2 s).recipPdfs 3) / 2,
        ((exampleFrame.WriteImagePass2 s).recipPdfs 1 +
          (exampleFrame.WriteImagePass2 s).recipPdfs 4) / 2)) = some (false, 0, 1, 1) ∧
    (exampleFrame.WriteImagePass1 1 staleBuffers).map
      (fun s => (decide (s.avgRecipPdf = 0),
        ((exampleFrame.WriteImagePass2 s).recipPdfs 1 -
          (exampleFrame.WriteImagePass2 s).recipPdfs 0) * s.avgRecipPdf,
        ((exampleFrame.WriteImagePass2 s).recipPdfs 0 +
          (exampleFrame.WriteImagePass2 s).recipPdfs 3) / 2,
        (((exampleFrame.WriteImagePass2 s).recipPdfs 1 +
          (exampleFrame.WriteImagePass2 s).recipPdfs 4) / 2 - 1) * s.avgRecipPdf)) =
      some (false, 1, 1, 1) := by
  constructor
  · decide!
  · decide!

end pbrt
